import Mathlib

/-!
# Verification of the libdivecomputer core against its specification

This file gives a shallow embedding, in Lean 4, of the parts of the
libdivecomputer source relevant to the frozen claims C1..C10:

* the HW OSTC3 and HW Frog device sessions (`src/hw_ostc3.c`,
  `src/hw_frog.c`): command transfer, fingerprint store, logbook scan and
  dive download loops, firmware checksum and firmware file loading;
* the Shearwater Predator/Petrel parser (`src/shearwater_predator_parser.c`);
* the Oceanic Atom2 family parser (`src/oceanic_atom2_parser.c`);
* the Suunto D9 family parser (`src/suunto_d9_parser.c`);
* the Uwatec Aladin fingerprint store (`src/uwatec_aladin.c`).

Modelling conventions:

* Device memory, dive blobs and files are byte oracles `Nat → Nat`
  together with an explicit size, mirroring a C pointer plus length.
  C guarantees bytes fit in `unsigned char`; theorems that depend on
  byte ranges state that hypothesis explicitly.
* C `unsigned int` / `unsigned short` arithmetic is `Nat` with an
  explicit `% 2^32` / `% 2^16` at the operations where wrap-around is
  reachable.
* Fallible C functions returning `dc_status_t` become functions into
  `DcStatus` or `Except DcStatus`.
* The serial transport is modelled as a queue of bytes that reads
  consume; a short read surfaces as `DcStatus.timeout`, matching the
  `EXITCODE` mapping for reads that return fewer bytes than requested.
* Helpers that live in `array.c`, `ringbuffer.c` and `checksum.c` are
  not part of the provided sources; they are modelled from the
  specification (section 2, L0 layer, and section 4.3) and are marked
  as such in their doc comments.
-/

/-- Status codes of `dc_status_t` (spec section 3). The C enum member
names are kept, lower-cased. -/
inductive DcStatus where
  | success
  | done
  | unsupported
  | invalidargs
  | nomemory
  | ioerr
  | timeout
  | protocol
  | dataformat
  | cancelled
  deriving DecidableEq, Repr

instance {e a : Type} [DecidableEq e] [DecidableEq a] :
    DecidableEq (Except e a) := fun x y =>
  match x, y with
  | .error u, .error v => decidable_of_iff (u = v) (by simp)
  | .ok u, .ok v => decidable_of_iff (u = v) (by simp)
  | .error _, .ok _ => isFalse (by simp)
  | .ok _, .error _ => isFalse (by simp)

/-- Byte oracle: device memory, blobs and files are functions from byte
index to byte value, mirroring a C `unsigned char` pointer. -/
def Mem : Type := Nat → Nat

/-- Modelled from the spec: L0 little-endian 16-bit decoder
(`array_uint16_le`): `p[0] + (p[1] << 8)`. -/
def array_uint16_le (p : Mem) (o : Nat) : Nat :=
  p o + p (o + 1) * 256

/-- Modelled from the spec: L0 big-endian 16-bit decoder
(`array_uint16_be`): `(p[0] << 8) + p[1]`. -/
def array_uint16_be (p : Mem) (o : Nat) : Nat :=
  p o * 256 + p (o + 1)

/-- Modelled from the spec: L0 little-endian 24-bit decoder
(`array_uint24_le`). -/
def array_uint24_le (p : Mem) (o : Nat) : Nat :=
  p o + p (o + 1) * 256 + p (o + 2) * 65536

/-- Modelled from the spec: L0 big-endian 24-bit decoder
(`array_uint24_be`). -/
def array_uint24_be (p : Mem) (o : Nat) : Nat :=
  p o * 65536 + p (o + 1) * 256 + p (o + 2)

/-- Modelled from the spec: L0 little-endian 32-bit decoder
(`array_uint32_le`). -/
def array_uint32_le (p : Mem) (o : Nat) : Nat :=
  p o + p (o + 1) * 256 + p (o + 2) * 65536 + p (o + 3) * 16777216

/-- Modelled from the spec: L0 equality scan (`array_isequal`): all
`n` bytes starting at offset `o` equal `v`. -/
def array_isequal (p : Mem) (o n v : Nat) : Bool :=
  (List.range n).all fun i => p (o + i) == v

/-- Byte-wise comparison of two memory regions, the model of
`memcmp (a + i, b + j, n) == 0`. -/
def memEqual (a : Mem) (i : Nat) (b : Mem) (j n : Nat) : Bool :=
  (List.range n).all fun k => a (i + k) == b (j + k)

/-- Read `n` consecutive bytes starting at offset `o` as a list. -/
def memBytes (p : Mem) (o n : Nat) : List Nat :=
  (List.range n).map fun i => p (o + i)

/-- View a list of bytes as a byte oracle (reads past the end give 0),
the model of a C array passed as a pointer. -/
def listMem (l : List Nat) : Mem :=
  fun i => l.getD i 0

/-- Modelled from the spec: L0 BCD decoder (`bcd2dec`): high nibble
times ten plus low nibble. -/
def bcd2dec (v : Nat) : Nat :=
  (v / 16 % 16) * 10 + v % 16

/-- Modelled from the spec, section 4.3: ring distance
`((b - a) mod N) + inclusive` on the half-open interval
`[rbegin, rend)` with `N = rend - rbegin` (`ringbuffer_distance`). -/
def ringbuffer_distance (a b : Nat) (inclusive : Nat) (rbegin rend : Nat) : Nat :=
  (b + (rend - rbegin) - a) % (rend - rbegin) + inclusive

/-! ## Fingerprint stores (claim C9)

`hw_ostc3_device_set_fingerprint` (src/hw_ostc3.c:454-468) guards the
size against `sizeof (device->fingerprint) = 5`; the Aladin variant
(src/uwatec_aladin.c:154-168) guards against 4 and stores the 32-bit
little-endian timestamp. -/

/-- Model of `hw_ostc3_device_set_fingerprint`: given the current
5-byte fingerprint store and the `(data, size)` arguments, returns the
status and the new store contents. -/
def hw_ostc3_device_set_fingerprint (fingerprint : List Nat) (data : Mem)
    (size : Nat) : DcStatus × List Nat :=
  if size ≠ 0 ∧ size ≠ 5 then
    (DcStatus.invalidargs, fingerprint)
  else if size ≠ 0 then
    (DcStatus.success, memBytes data 0 5)
  else
    (DcStatus.success, List.replicate 5 0)

/-- Model of `uwatec_aladin_device_set_fingerprint`: given the current
timestamp store and the `(data, size)` arguments, returns the status
and the new timestamp. -/
def uwatec_aladin_device_set_fingerprint (timestamp : Nat) (data : Mem)
    (size : Nat) : DcStatus × Nat :=
  if size ≠ 0 ∧ size ≠ 4 then
    (DcStatus.invalidargs, timestamp)
  else if size ≠ 0 then
    (DcStatus.success, array_uint32_le data 0)
  else
    (DcStatus.success, 0)

/-! ## Pattern-A command transfer (claim C4)

`hw_ostc3_transfer` (src/hw_ostc3.c:172-274). The serial transport is a
queue of bytes served to reads plus a queue of `serial_get_received`
answers; writes always succeed, and a read that cannot be served in
full surfaces as `DcStatus.timeout` (the `EXITCODE` mapping for a
non-negative short read). -/

/-- Session states of `hw_ostc3_state_t`. -/
inductive HwOstc3State where
  | OPEN
  | DOWNLOAD
  | SERVICE
  | REBOOTING
  deriving DecidableEq, Repr

/-- The modelled serial line: bytes the device will send, and the
successive answers of `serial_get_received`. -/
structure SerialPort where
  rx : List Nat
  avail : List Nat
  deriving Repr

/-- Model of a `serial_read` of exactly `n` bytes: succeeds iff the
queue holds at least `n` bytes. -/
def serialRead (port : SerialPort) (n : Nat) : Option (List Nat × SerialPort) :=
  if n ≤ port.rx.length then
    some (port.rx.take n, { port with rx := port.rx.drop n })
  else
    none

/-- The chunked output read loop of `hw_ostc3_transfer`
(src/hw_ostc3.c:225-255): minimum packet size 1024, enlarged to the
reported available count, capped at the remaining size. -/
def hw_ostc3_transfer_readout (port : SerialPort) (osize nbytes : Nat)
    (acc : List Nat) : Except DcStatus (List Nat × SerialPort) :=
  if h : nbytes < osize then
    let available := port.avail.headD 0
    let len0 := if available > 1024 then available else 1024
    let len := if nbytes + len0 > osize then osize - nbytes else len0
    let port1 : SerialPort := { port with avail := port.avail.tail }
    match serialRead port1 len with
    | none => .error .timeout
    | some (bytes, port2) =>
        hw_ostc3_transfer_readout port2 osize (nbytes + len) (acc ++ bytes)
  else
    .ok (acc, port)
termination_by osize - nbytes
decreasing_by
  split_ifs <;> omega

/-- Model of `hw_ostc3_transfer` (src/hw_ostc3.c:172-274).  `input` is
the optional fixed-size input block (its write always succeeds in the
transport model), `output` the optional expected output size.  Returns
the output bytes and the transport state after the transfer. -/
def hw_ostc3_transfer (state : HwOstc3State) (cancelled : Bool)
    (port : SerialPort) (cmd : Nat) (input : Option (List Nat))
    (output : Option Nat) : Except DcStatus (List Nat × SerialPort) :=
  if cancelled then .error .cancelled
  else
    -- Get the correct ready byte for the current state.
    let ready : Nat := if state = .SERVICE then 0x4C else 0x4D
    -- Send the command (always succeeds), then read and verify the echo.
    match serialRead port 1 with
    | none => .error .timeout
    | some (echo, port1) =>
      if echo ≠ [cmd] then
        if echo = [ready] then .error .unsupported else .error .protocol
      else
        -- Send the input data packet (always succeeds), read the output.
        let rdout := match output with
          | none => Except.ok ([], port1)
          | some osize => hw_ostc3_transfer_readout port1 osize 0 []
        match rdout with
        | .error e => .error e
        | .ok (out, port2) =>
          if cmd ≠ 0xFF then
            -- Read and verify the ready byte (every command except EXIT).
            match serialRead port2 1 with
            | none => .error .timeout
            | some (answer, port3) =>
              if answer ≠ [ready] then .error .protocol
              else .ok (out, port3)
          else
            .ok (out, port2)

/-! ## OSTC3 logbook scan and download (claims C1, C2, C8)

The pure tail of `hw_ostc3_device_foreach` (src/hw_ostc3.c:519-713),
starting after the logbook headers have been downloaded.  The transport
prelude (progress events, version and hardware identity, the COMPACT or
HEADER transfer, allocation) is abstracted: `header` is the downloaded
logbook content, `dive` the per-slot result of the DIVE transfer, `cb`
the caller callback (`none` models a NULL callback pointer). -/

/-- Logbook layout (`hw_ostc3_logbook_t`). -/
structure HwOstc3Logbook where
  size : Nat
  profile : Nat
  fingerprint : Nat
  number : Nat
  deriving DecidableEq, Repr

/-- `hw_ostc3_logbook_compact` (src/hw_ostc3.c:137-142). -/
def hw_ostc3_logbook_compact : HwOstc3Logbook := ⟨16, 0, 3, 13⟩

/-- `hw_ostc3_logbook_full` (src/hw_ostc3.c:144-149). -/
def hw_ostc3_logbook_full : HwOstc3Logbook := ⟨256, 9, 12, 80⟩

/-- `RB_LOGBOOK_COUNT` (256 logbook slots). -/
def RB_LOGBOOK_COUNT : Nat := 256

/-- One slot of the locate loop of `hw_ostc3_device_foreach`
(src/hw_ostc3.c:600-616), acting on the `(count, latest, maximum)`
accumulator: erased (all-0xFF) slots are skipped with `continue`. -/
def hw_ostc3_locate_body (header : Mem) (logbook : HwOstc3Logbook)
    (s : Nat × Nat × Nat) (i : Nat) : Nat × Nat × Nat :=
  let offset := i * logbook.size
  if array_isequal header offset logbook.size 0xFF then s
  else
    let current := array_uint16_le header (offset + logbook.number)
    let s1 := if current > s.2.2 then (s.1, i, current) else s
    (s1.1 + 1, s1.2.1, s1.2.2)

/-- The locate loop of `hw_ostc3_device_foreach`
(src/hw_ostc3.c:599-617): returns `(count, latest, maximum)`. -/
def hw_ostc3_locate (header : Mem) (logbook : HwOstc3Logbook) :
    Nat × Nat × Nat :=
  (List.range RB_LOGBOOK_COUNT).foldl (hw_ostc3_locate_body header logbook)
    (0, 0, 0)

/-- Profile length of the dive whose header entry starts at `offset`
(src/hw_ostc3.c:636-642 and 678-684):
`RB_LOGBOOK_SIZE_FULL + uint24_le(header + offset + profile) - 3`,
lowered by 3 more in full-header mode for firmware versions below 93. -/
def hw_ostc3_profile_length (header : Mem) (offset : Nat)
    (logbook : HwOstc3Logbook) (compact : Bool) : Nat :=
  let length := 256 + array_uint24_le header (offset + logbook.profile) - 3
  if compact = false then
    let firmware := array_uint16_be header (offset + 0x30)
    if firmware < 93 then length - 3 else length
  else
    length

/-- The counting loop of `hw_ostc3_device_foreach`
(src/hw_ostc3.c:620-652): walks backwards from `latest` modulo the slot
count, stopping at an unexpectedly erased entry or at the first
fingerprint match; returns `(ndives, size, maxsize)`. -/
def hw_ostc3_count_dives (header : Mem) (fingerprint : List Nat)
    (logbook : HwOstc3Logbook) (compact : Bool) (count latest : Nat)
    (i ndives sizeAcc maxsize : Nat) : Nat × Nat × Nat :=
  if i < count then
    let idx := (latest + RB_LOGBOOK_COUNT - i) % RB_LOGBOOK_COUNT
    let offset := idx * logbook.size
    if array_isequal header offset logbook.size 0xFF then
      (ndives, sizeAcc, maxsize)
    else
      let length := hw_ostc3_profile_length header offset logbook compact
      if memEqual header (offset + logbook.fingerprint) (listMem fingerprint) 0 5 then
        (ndives, sizeAcc, maxsize)
      else
        hw_ostc3_count_dives header fingerprint logbook compact count latest
          (i + 1) (ndives + 1) (sizeAcc + length)
          (if length > maxsize then length else maxsize)
  else
    (ndives, sizeAcc, maxsize)
termination_by count - i

/-- One recorded callback invocation: the slot index the dive was read
from, the profile bytes, the length argument, and the 5-byte
fingerprint slice (`profile + 12`) handed to the callback. -/
structure HwDiveCall where
  idx : Nat
  profile : List Nat
  length : Nat
  fp : List Nat
  deriving DecidableEq, Repr

/-- The download loop of `hw_ostc3_device_foreach`
(src/hw_ostc3.c:673-707).  On a logbook/profile header mismatch in
full-header mode the source returns the local `rc`, which at that point
holds `DC_STATUS_SUCCESS` (src/hw_ostc3.c:698-703); the model mirrors
that by returning `DcStatus.success` there. -/
def hw_ostc3_download (header : Mem) (logbook : HwOstc3Logbook)
    (compact : Bool) (latest ndives : Nat)
    (dive : Nat → Nat → Except DcStatus (List Nat))
    (cb : Option (List Nat → Nat → List Nat → Bool)) (i : Nat) :
    DcStatus × List HwDiveCall :=
  if i < ndives then
    let idx := (latest + RB_LOGBOOK_COUNT - i) % RB_LOGBOOK_COUNT
    let offset := idx * logbook.size
    let length := hw_ostc3_profile_length header offset logbook compact
    match dive idx length with
    | .error rc => (rc, [])
    | .ok profile =>
      if compact = false ∧ memEqual (listMem profile) 0 header offset logbook.size = false then
        (DcStatus.success, [])
      else
        match cb with
        | none =>
            hw_ostc3_download header logbook compact latest ndives dive cb (i + 1)
        | some f =>
          let call : HwDiveCall :=
            ⟨idx, profile, length, memBytes (listMem profile) 12 5⟩
          if f profile length call.fp = false then
            (DcStatus.success, [call])
          else
            let r := hw_ostc3_download header logbook compact latest ndives dive cb (i + 1)
            (r.1, call :: r.2)
  else
    (DcStatus.success, [])
termination_by ndives - i

/-- The post-header tail of `hw_ostc3_device_foreach`
(src/hw_ostc3.c:595-713): locate the latest entry, count the due dives,
download them newest-first.  Returns the final status and the list of
callback invocations in order. -/
def hw_ostc3_device_foreach (header : Mem) (fingerprint : List Nat)
    (compact : Bool) (dive : Nat → Nat → Except DcStatus (List Nat))
    (cb : Option (List Nat → Nat → List Nat → Bool)) :
    DcStatus × List HwDiveCall :=
  let logbook := if compact then hw_ostc3_logbook_compact else hw_ostc3_logbook_full
  let s := hw_ostc3_locate header logbook
  let d := hw_ostc3_count_dives header fingerprint logbook compact s.1 s.2.1 0 0 0 0
  if d.1 = 0 then (DcStatus.success, [])
  else hw_ostc3_download header logbook compact s.2.1 d.1 dive cb 0

/-! ## Frog logbook scan and download (claims C1, C2, C8)

The pure tail of `hw_frog_device_foreach` (src/hw_frog.c:330-488),
starting after the logbook headers have been downloaded.  Layout
constants (src/hw_frog.c:45-50): 256 slots of 256 bytes, profile ring
`[0x000000, 0x200000)`, ring pointers at header offsets 2 and 5,
fingerprint at offset 9, internal dive number at offset 52. -/

/-- The locate loop of `hw_frog_device_foreach` (src/hw_frog.c:376-394):
unlike the OSTC3 variant, the scan stops (`break`) at the first erased
slot.  Returns `(count, latest, maximum)`. -/
def hw_frog_locate (header : Mem) (i count latest maximum : Nat) :
    Nat × Nat × Nat :=
  if i < RB_LOGBOOK_COUNT then
    let offset := i * 256
    if array_isequal header offset 256 0xFF then
      (count, latest, maximum)
    else
      let current := array_uint16_le header (offset + 52)
      if current > maximum then
        hw_frog_locate header (i + 1) (count + 1) i current
      else
        hw_frog_locate header (i + 1) (count + 1) latest maximum
  else
    (count, latest, maximum)
termination_by RB_LOGBOOK_COUNT - i

/-- Profile length of the Frog dive whose header entry starts at
`offset` (src/hw_frog.c:404-418): ring pointers are validated against
the profile ring, then
`RB_LOGBOOK_SIZE + RB_PROFILE_DISTANCE (begin, end) - 6`. -/
def hw_frog_profile_length (header : Mem) (offset : Nat) : Nat :=
  let rbegin := array_uint24_le header (offset + 2)
  let rend := array_uint24_le header (offset + 5)
  256 + ringbuffer_distance rbegin rend 0 0 0x200000 - 6

/-- The counting loop of `hw_frog_device_foreach`
(src/hw_frog.c:396-428): walks backwards from `latest` modulo the slot
count; an invalid ring pointer aborts with `DataFormat`, the first
fingerprint match stops the walk.  Returns `(ndives, size, maxsize)`. -/
def hw_frog_count_dives (header : Mem) (fingerprint : List Nat)
    (count latest : Nat) (i ndives sizeAcc maxsize : Nat) :
    Except DcStatus (Nat × Nat × Nat) :=
  if i < count then
    let idx := (latest + RB_LOGBOOK_COUNT - i) % RB_LOGBOOK_COUNT
    let offset := idx * 256
    let rbegin := array_uint24_le header (offset + 2)
    let rend := array_uint24_le header (offset + 5)
    if rbegin < 0 ∨ rbegin ≥ 0x200000 ∨ rend < 0 ∨ rend ≥ 0x200000 then
      .error .dataformat
    else
      let length := hw_frog_profile_length header offset
      if memEqual header (offset + 9) (listMem fingerprint) 0 5 then
        .ok (ndives, sizeAcc, maxsize)
      else
        hw_frog_count_dives header fingerprint count latest
          (i + 1) (ndives + 1) (sizeAcc + length)
          (if length > maxsize then length else maxsize)
  else
    .ok (ndives, sizeAcc, maxsize)
termination_by count - i

/-- The download loop of `hw_frog_device_foreach`
(src/hw_frog.c:449-482).  The fingerprint slice handed to the callback
is `profile + 9`.  On a logbook/profile header mismatch the source
returns the local `rc`, which at that point holds `DC_STATUS_SUCCESS`
(src/hw_frog.c:471-478); the model mirrors that by returning
`DcStatus.success` there. -/
def hw_frog_download (header : Mem) (latest ndives : Nat)
    (dive : Nat → Nat → Except DcStatus (List Nat))
    (cb : Option (List Nat → Nat → List Nat → Bool)) (i : Nat) :
    DcStatus × List HwDiveCall :=
  if i < ndives then
    let idx := (latest + RB_LOGBOOK_COUNT - i) % RB_LOGBOOK_COUNT
    let offset := idx * 256
    let length := hw_frog_profile_length header offset
    match dive idx length with
    | .error rc => (rc, [])
    | .ok profile =>
      if memEqual (listMem profile) 0 header offset 256 = false then
        (DcStatus.success, [])
      else
        match cb with
        | none => hw_frog_download header latest ndives dive cb (i + 1)
        | some f =>
          let call : HwDiveCall :=
            ⟨idx, profile, length, memBytes (listMem profile) 9 5⟩
          if f profile length call.fp = false then
            (DcStatus.success, [call])
          else
            let r := hw_frog_download header latest ndives dive cb (i + 1)
            (r.1, call :: r.2)
  else
    (DcStatus.success, [])
termination_by ndives - i

/-- The post-header tail of `hw_frog_device_foreach`
(src/hw_frog.c:372-488): locate the latest entry, count the due dives
(propagating a `DataFormat` ring-pointer failure), download them
newest-first. -/
def hw_frog_device_foreach (header : Mem) (fingerprint : List Nat)
    (dive : Nat → Nat → Except DcStatus (List Nat))
    (cb : Option (List Nat → Nat → List Nat → Bool)) :
    DcStatus × List HwDiveCall :=
  let s := hw_frog_locate header 0 0 0 0
  match hw_frog_count_dives header fingerprint s.1 s.2.1 0 0 0 0 with
  | .error e => (e, [])
  | .ok d =>
    if d.1 = 0 then (DcStatus.success, [])
    else hw_frog_download header s.2.1 d.1 dive cb 0

/-! ## OSTC3 firmware codec (claim C7)

`hw_ostc3_firmware_checksum` (src/hw_ostc3.c:873-885),
`hw_ostc3_firmware_readline` (src/hw_ostc3.c:887-945) and
`hw_ostc3_firmware_readfile` (src/hw_ostc3.c:948-1019).  The firmware
file is a byte oracle plus length with an explicit read position; the
AES-128-ECB block primitive is a parameter (the spec declares it
assumed available). -/

/-- `SZ_FIRMWARE` (120 KiB). -/
def SZ_FIRMWARE : Nat := 0x01E000

/-- The fixed vendor key `ostc3_key` (src/hw_ostc3.c:114-119). -/
def ostc3_key : List Nat :=
  [0xF1, 0xE9, 0xB0, 0x30, 0x45, 0x6F, 0xBE, 0x55,
   0xFF, 0xE7, 0xF8, 0x31, 0x13, 0x6C, 0xF2, 0xFE]

/-- Model of `hw_ostc3_firmware_checksum` over an arbitrary byte list
(the source runs it over the `SZ_FIRMWARE` plaintext bytes): both
`low` and `high` are C `unsigned short`, so every addition is reduced
modulo 2^16; the result is `(high << 16) + low`. -/
def hw_ostc3_firmware_checksum (data : List Nat) : Nat :=
  let s := data.foldl
    (fun (p : Nat × Nat) b =>
      let low := (p.1 + b) % 65536
      (low, (p.2 + low) % 65536))
    (0, 0)
  s.2 * 65536 + s.1

/-- Modelled from the spec: L0 hex digit decoder used by
`array_convert_hex2bin` (`array.c`, not under src). -/
def hexdig (c : Nat) : Option Nat :=
  if 48 ≤ c ∧ c ≤ 57 then some (c - 48)
  else if 65 ≤ c ∧ c ≤ 70 then some (c - 55)
  else if 97 ≤ c ∧ c ≤ 102 then some (c - 87)
  else none

/-- Modelled from the spec: L0 hex-to-binary conversion
(`array_convert_hex2bin`, `array.c`, not under src): pairs of hex
characters become bytes; any invalid character fails. -/
def array_convert_hex2bin : List Nat → Option (List Nat)
  | [] => some []
  | hi :: lo :: rest =>
    match hexdig hi, hexdig lo, array_convert_hex2bin rest with
    | some h, some l, some bs => some ((h * 16 + l) :: bs)
    | _, _, _ => none
  | [_] => none

/-- The start-code scan of `hw_ostc3_firmware_readline`
(src/hw_ostc3.c:900-916): skip CR and LF until a colon; any other
character is `DataFormat`, end of file is `Io`. -/
def hw_ostc3_firmware_scanstart (file : Mem) (flen pos : Nat) :
    Except DcStatus Nat :=
  if pos < flen then
    let c := file pos
    if c = 0x3A then .ok (pos + 1)
    else if c ≠ 0x0A ∧ c ≠ 0x0D then .error .dataformat
    else hw_ostc3_firmware_scanstart file flen (pos + 1)
  else
    .error .ioerr
termination_by flen - pos

/-- Model of `hw_ostc3_firmware_readline` (src/hw_ostc3.c:887-945):
read one `:aaaaaa<payload>` record of `size` payload bytes expected at
file address `addr`, returning the payload and the new read position. -/
def hw_ostc3_firmware_readline (file : Mem) (flen pos addr size : Nat) :
    Except DcStatus (List Nat × Nat) :=
  if size > 16 then .error .invalidargs
  else
    match hw_ostc3_firmware_scanstart file flen pos with
    | .error e => .error e
    | .ok pos1 =>
      if pos1 + (6 + size * 2) ≤ flen then
        let ascii := memBytes file pos1 (6 + size * 2)
        match array_convert_hex2bin (ascii.take 6) with
        | none => .error .dataformat
        | some faddrBytes =>
          let faddr := array_uint24_be (listMem faddrBytes) 0
          if faddr ≠ addr then .error .dataformat
          else
            match array_convert_hex2bin (ascii.drop 6) with
            | none => .error .dataformat
            | some payload => .ok (payload, pos1 + (6 + size * 2))
      else
        .error .ioerr

/-- The block-decryption loop of `hw_ostc3_firmware_readfile`
(src/hw_ostc3.c:985-999): records of 16 ciphertext bytes at successive
file addresses, decrypted by XOR against the running key block
`tmpbuf`, which is then advanced by encrypting the ciphertext
(ciphertext feedback over ECB).  `aes b k` models
`AES128_ECB_encrypt (b, k)`. -/
def hw_ostc3_firmware_read_blocks (aes : List Nat → List Nat → List Nat)
    (file : Mem) (flen sz : Nat) (addr bytes pos : Nat) (tmpbuf : List Nat)
    (acc : List Nat) : Except DcStatus (List Nat × Nat × Nat) :=
  if addr < sz then
    match hw_ostc3_firmware_readline file flen pos bytes 16 with
    | .error e => .error e
    | .ok (encrypted, pos1) =>
      let plain := (List.range 16).map
        fun i => Nat.xor (encrypted.getD i 0) (tmpbuf.getD i 0)
      hw_ostc3_firmware_read_blocks aes file flen sz (addr + 16) (bytes + 16)
        pos1 (aes encrypted ostc3_key) (acc ++ plain)
  else
    .ok (acc, bytes, pos)
termination_by sz - addr

/-- Model of `hw_ostc3_firmware_readfile` (src/hw_ostc3.c:948-1019),
generalized over the image size `sz` (the source uses
`SZ_FIRMWARE`): read the 16-byte IV record at address 0, decrypt the
image blocks, read the trailing 4-byte record holding the expected
little-endian 32-bit checksum, and fail with `DataFormat` when it
differs from the computed checksum of the plaintext.  Returns the
plaintext and the stored checksum. -/
def hw_ostc3_firmware_readfile_sz (aes : List Nat → List Nat → List Nat)
    (sz : Nat) (file : Mem) (flen : Nat) :
    Except DcStatus (List Nat × Nat) :=
  match hw_ostc3_firmware_readline file flen 0 0 16 with
  | .error e => .error e
  | .ok (iv, pos0) =>
    let tmp0 := aes iv ostc3_key
    match hw_ostc3_firmware_read_blocks aes file flen sz 0 16 pos0 tmp0 [] with
    | .error e => .error e
    | .ok (plain, bytesEnd, pos1) =>
      match hw_ostc3_firmware_readline file flen pos1 bytesEnd 4 with
      | .error e => .error e
      | .ok (csBytes, _) =>
        let checksum := array_uint32_le (listMem csBytes) 0
        if checksum ≠ hw_ostc3_firmware_checksum plain then
          .error .dataformat
        else
          .ok (plain, checksum)

/-- Model of `hw_ostc3_firmware_readfile` at the source image size. -/
def hw_ostc3_firmware_readfile (aes : List Nat → List Nat → List Nat)
    (file : Mem) (flen : Nat) : Except DcStatus (List Nat × Nat) :=
  hw_ostc3_firmware_readfile_sz aes SZ_FIRMWARE file flen

/-! ## Sample streams

One shared sample type for the parser models.  The payloads carry the
integral raw readings the C code feeds into its floating-point unit
conversions (metres, bar, degrees); the conversion factors themselves
(unit system, divisor, sensor calibration) are applied to these raws
by the C code and are not part of the payload.  The claims under
verification concern the `time` and `gasmix` payloads, which are exact.
Event kind, flag, vendor and deco-type codes are the numeric values of
the corresponding enums in `include/libdivecomputer/parser.h`. -/

/-- One emitted sample (`dc_sample_type_t` plus the relevant payload). -/
inductive DcSample where
  | time (seconds : Nat)
  | depth (raw : Nat)
  | temperature (value : Int)
  | pressure (tank raw : Nat)
  | ppo2 (raw cal : Nat)
  | setpoint (raw : Nat)
  | cns (raw : Nat)
  | gasmix (idx : Nat)
  | deco (kind seconds rawDepth : Nat)
  | event (kind seconds flags value : Nat)
  | vendor (kind offset length : Nat)
  deriving DecidableEq, Repr

/-- The `time` payloads of a sample list, in emission order. -/
def timesOf (out : List DcSample) : List Nat :=
  out.filterMap fun s =>
    match s with
    | .time t => some t
    | _ => none

/-- The `gasmix` payloads of a sample list, in emission order. -/
def gasmixesOf (out : List DcSample) : List Nat :=
  out.filterMap fun s =>
    match s with
    | .gasmix i => some i
    | _ => none

/-! ## Shearwater Predator/Petrel parser (claims C5, C10, part of C3)

`shearwater_predator_parser_cache` (src/shearwater_predator_parser.c:221-333)
and `shearwater_predator_parser_samples_foreach`
(src/shearwater_predator_parser.c:453-585).  `petrel` selects the
Petrel layout (32-byte samples, always a double footer block). -/

/-- Sample record size: `SZ_SAMPLE_PETREL` (32) or `SZ_SAMPLE_PREDATOR`
(16). -/
def shearwater_samplesize (petrel : Bool) : Nat :=
  if petrel then 32 else 16

/-- Model of `shearwater_predator_find_gasmix`
(src/shearwater_predator_parser.c:102-113): index of the first entry
matching `(o2, he)`, or the length of the table when absent. -/
def shearwater_predator_find_gasmix (mixes : List (Nat × Nat)) (o2 he : Nat) :
    Nat :=
  match mixes with
  | [] => 0
  | m :: rest =>
    if o2 = m.1 ∧ he = m.2 then 0
    else shearwater_predator_find_gasmix rest o2 he + 1

/-- The gas-mix/dive-mode pre-scan inside
`shearwater_predator_parser_cache`
(src/shearwater_predator_parser.c:248-300): walk the sample records,
skip all-zero records, switch the mode to CC when a record has the OC
status bit clear, and record each `(O2, He)` pair that differs from
the running previous pair (initially `(0, 0)`), failing with
`NoMemory` at the eleventh recorded pair. -/
def shearwater_cache_scan (petrel : Bool) (data : Mem) (length : Nat)
    (offset : Nat) (prev : Nat × Nat) (mode : Nat)
    (mixes : List (Nat × Nat)) : Except DcStatus (List (Nat × Nat) × Nat) :=
  if offset < length then
    if array_isequal data offset (shearwater_samplesize petrel) 0x00 then
      shearwater_cache_scan petrel data length
        (offset + shearwater_samplesize petrel) prev mode mixes
    else
      let status := data (offset + 11)
      let mode1 := if status &&& 0x10 = 0 then 3 else mode
      let o2 := data (offset + 7)
      let he := data (offset + 8)
      if o2 ≠ prev.1 ∨ he ≠ prev.2 then
        let idx := shearwater_predator_find_gasmix mixes o2 he
        if idx ≥ mixes.length then
          if idx ≥ 10 then .error .nomemory
          else
            shearwater_cache_scan petrel data length
              (offset + shearwater_samplesize petrel) (o2, he) mode1
              (mixes ++ [(o2, he)])
        else
          shearwater_cache_scan petrel data length
            (offset + shearwater_samplesize petrel) (o2, he) mode1 mixes
      else
        shearwater_cache_scan petrel data length
          (offset + shearwater_samplesize petrel) prev mode1 mixes
  else
    .ok (mixes, mode)
termination_by length - offset
decreasing_by
  all_goals simp only [shearwater_samplesize]
  all_goals split <;> omega

/-- The cached fields of the Shearwater parser filled in by
`shearwater_predator_parser_cache`: header and footer sizes, the
gas-mix table (`oxygen[i]`, `helium[i]` pairs, `ngasmixes` is its
length), dive mode, and the three sensor calibration values
(`uint16_be (data + 87 + 2 i) + 1024`). -/
structure ShearwaterCache where
  headersize : Nat
  footersize : Nat
  mixes : List (Nat × Nat)
  mode : Nat
  cal0 : Nat
  cal1 : Nat
  cal2 : Nat
  deriving DecidableEq, Repr

/-- Model of `shearwater_predator_parser_cache`
(src/shearwater_predator_parser.c:221-333): check the blob length,
widen the footer for the Petrel or a `0xFFFD` final block, run the
gas-mix pre-scan and cache the sensor calibration values. -/
def shearwater_predator_parser_cache (petrel : Bool) (data : Mem)
    (size : Nat) : Except DcStatus ShearwaterCache :=
  let headersize := 128
  if size < headersize + 128 then .error .dataformat
  else
    let footersize :=
      if petrel = true ∨ array_uint16_be data (size - 128) = 0xFFFD
      then 256 else 128
    if size < headersize + footersize then .error .dataformat
    else
      match shearwater_cache_scan petrel data (size - footersize)
          headersize (0, 0) 2 [] with
      | .error e => .error e
      | .ok (mixes, mode) =>
        .ok ⟨headersize, footersize, mixes, mode,
          array_uint16_be data 87 + 1024,
          array_uint16_be data 89 + 1024,
          array_uint16_be data 91 + 1024⟩

/-- The temperature fixup of the Shearwater sample loop
(src/shearwater_predator_parser.c:498-505): a signed-char read,
negative values are shifted by 102 and clamped at 0. -/
def shearwater_temperature (b : Nat) : Int :=
  let t : Int := if b % 256 < 128 then (b % 256 : Int) else (b % 256 : Int) - 256
  if t < 0 then
    let t1 := t + 102
    if t1 > 0 then 0 else t1
  else t

/-- The gas-change handling of the Shearwater sample loop
(src/shearwater_predator_parser.c:550-564): when the `(o2, he)` pair
differs from the running previous pair, look it up in the cached table;
a missing pair is the `DataFormat` error branch, otherwise a `GasMix`
sample is emitted and the previous pair updated. -/
def shearwater_gaschange (mixes : List (Nat × Nat)) (prev : Nat × Nat)
    (o2 he : Nat) : Except DcStatus (List DcSample × (Nat × Nat)) :=
  if o2 ≠ prev.1 ∨ he ≠ prev.2 then
    let idx := shearwater_predator_find_gasmix mixes o2 he
    if idx ≥ mixes.length then .error .dataformat
    else .ok ([DcSample.gasmix idx], (o2, he))
  else .ok ([], prev)

/-- One iteration of the Shearwater sample loop
(src/shearwater_predator_parser.c:475-582): `none` when the loop guard
`offset < length` fails, otherwise the samples emitted by this
iteration and the next state `(offset, prev, time)`.  The emission
order matches the source: time, depth, temperature, then in
closed-circuit mode the sensor-gated PPO2 triple and the setpoint,
the CNS (Petrel only), the gas-mix change, and the deco/NDL sample.
The gas-mix lookup (and its error) is evaluated up front: the source
performs it mid-iteration, but since an error discards the whole
emission list of the model, the order of evaluation is not
observable. -/
def shearwater_step (petrel : Bool) (data : Mem) (length : Nat)
    (cache : ShearwaterCache) (offset : Nat) (prev : Nat × Nat)
    (time : Nat) :
    Except DcStatus (Option ((Nat × (Nat × Nat) × Nat) × List DcSample)) :=
  if offset < length then
    if array_isequal data offset (shearwater_samplesize petrel) 0x00 then
      .ok (some ((offset + shearwater_samplesize petrel, prev, time), []))
    else
      match shearwater_gaschange cache.mixes prev (data (offset + 7))
          (data (offset + 8)) with
      | .error e => .error e
      | .ok (outGm, prev1) =>
        let time1 := time + 10
        let out0 := [DcSample.time (time1 % 4294967296)]
        let out1 := out0 ++ [DcSample.depth (array_uint16_be data offset)]
        let out2 := out1 ++ [DcSample.temperature
          (shearwater_temperature (data (offset + 13)))]
        let status := data (offset + 11)
        let outCC :=
          if status &&& 0x10 = 0 then
            (if data 86 &&& 0x01 ≠ 0 then
              [DcSample.ppo2 (data (offset + 12)) cache.cal0] else []) ++
            (if data 86 &&& 0x02 ≠ 0 then
              [DcSample.ppo2 (data (offset + 14)) cache.cal1] else []) ++
            (if data 86 &&& 0x04 ≠ 0 then
              [DcSample.ppo2 (data (offset + 15)) cache.cal2] else []) ++
            [DcSample.setpoint
              (if petrel then data (offset + 18)
               else if status &&& 0x04 ≠ 0 then data 18 else data 17)]
          else []
        let outCns := if petrel then [DcSample.cns (data (offset + 22))] else []
        let decostop := array_uint16_be data (offset + 2)
        let outDeco :=
          if decostop ≠ 0 then
            [DcSample.deco 2 (data (offset + 9) * 60) decostop]
          else
            [DcSample.deco 0 (data (offset + 9) * 60) 0]
        .ok (some ((offset + shearwater_samplesize petrel, prev1, time1),
          out2 ++ outCC ++ outCns ++ outGm ++ outDeco))
  else
    .ok none

/-- Every successful continuing Shearwater loop step starts inside the
profile region and advances the offset by exactly one sample record. -/
theorem shearwater_step_advance {p : Bool} {d : Mem} {len : Nat}
    {c : ShearwaterCache} {off : Nat} {prev : Nat × Nat} {t off1 t1 : Nat}
    {prev1 : Nat × Nat} {out : List DcSample}
    (h : shearwater_step p d len c off prev t =
      .ok (some ((off1, prev1, t1), out))) :
    off < len ∧ off1 = off + shearwater_samplesize p := by
  unfold shearwater_step at h
  split at h
  case isTrue hlt =>
    refine ⟨hlt, ?_⟩
    split at h
    · simp only [Except.ok.injEq, Option.some.injEq, Prod.mk.injEq] at h
      omega
    · split at h
      · simp at h
      · simp only [Except.ok.injEq, Option.some.injEq, Prod.mk.injEq] at h
        omega
  case isFalse hlt => simp at h

/-- The Shearwater sample loop (src/shearwater_predator_parser.c:475-582)
as iteration of `shearwater_step`; returns the emitted samples and the
final value of the `time` accumulator. -/
def shearwater_run (p : Bool) (d : Mem) (len : Nat) (c : ShearwaterCache)
    (off : Nat) (prev : Nat × Nat) (t : Nat) :
    Except DcStatus (List DcSample × Nat) :=
  match h : shearwater_step p d len c off prev t with
  | .error e => .error e
  | .ok none => .ok ([], t)
  | .ok (some ((off1, prev1, t1), out)) =>
    match shearwater_run p d len c off1 prev1 t1 with
    | .error e => .error e
    | .ok (rest, tfin) => .ok (out ++ rest, tfin)
termination_by len - off
decreasing_by
  have hadv := shearwater_step_advance h
  have hs : 16 ≤ shearwater_samplesize p := by
    unfold shearwater_samplesize; split <;> omega
  omega

/-- Model of `shearwater_predator_parser_samples_foreach`
(src/shearwater_predator_parser.c:453-585): run the cache pass, then
the sample loop over `[headersize, size - footersize)`.  Also returns
the final time accumulator. -/
def shearwater_predator_parser_samples_foreach (petrel : Bool) (data : Mem)
    (size : Nat) : Except DcStatus (List DcSample × Nat) :=
  match shearwater_predator_parser_cache petrel data size with
  | .error e => .error e
  | .ok cache =>
    shearwater_run petrel data (size - cache.footersize) cache
      cache.headersize (0, 0) 0

/-! ## Oceanic Atom2 family parser (claims C6, part of C3)

`src/oceanic_atom2_parser.c`.  The model identifiers are the values of
the macros at the top of the file. -/

/-- Modelled from the spec: the 16-byte device page (`PAGESIZE`, from
`oceanic_common.h`, which is not under src); the on-device layout of
this family is organised in 16-byte pages, sample records being one
page or half a page. -/
def PAGESIZE : Nat := 16

def ATOM1 : Nat := 0x4250
def EPICA : Nat := 0x4257
def VT3 : Nat := 0x4258
def T3A : Nat := 0x4259
def ATOM2 : Nat := 0x4342
def GEO : Nat := 0x4344
def MANTA : Nat := 0x4345
def DATAMASK : Nat := 0x4347
def COMPUMASK : Nat := 0x4348
def OC1A : Nat := 0x434E
def F10 : Nat := 0x434D
def WISDOM2 : Nat := 0x4350
def INSIGHT2 : Nat := 0x4353
def ELEMENT2 : Nat := 0x4357
def VEO20 : Nat := 0x4359
def VEO30 : Nat := 0x435A
def ZEN : Nat := 0x4441
def ZENAIR : Nat := 0x4442
def ATMOSAI2 : Nat := 0x4443
def PROPLUS21 : Nat := 0x4444
def GEO20 : Nat := 0x4446
def VT4 : Nat := 0x4447
def OC1B : Nat := 0x4449
def VOYAGER2G : Nat := 0x444B
def ATOM3 : Nat := 0x444C
def DG03 : Nat := 0x444D
def OCS : Nat := 0x4450
def OC1C : Nat := 0x4451
def VT41 : Nat := 0x4452
def EPICB : Nat := 0x4453
def T3B : Nat := 0x4455
def ATOM31 : Nat := 0x4456
def A300AI : Nat := 0x4457
def WISDOM3 : Nat := 0x4458
def A300 : Nat := 0x445A
def TX1 : Nat := 0x4542
def AMPHOS : Nat := 0x4545
def AMPHOSAIR : Nat := 0x4546
def PROPLUS3 : Nat := 0x4548
def F11A : Nat := 0x4549
def OCI : Nat := 0x454B
def A300CS : Nat := 0x454C
def F11B : Nat := 0x4554
def VTX : Nat := 0x4557

/-- Subtraction of C `unsigned int` values: `(a - b) mod 2^32`.  The
reduction of `b` makes the function total; every use site has
`b < 2^32`. -/
def u32sub (a b : Nat) : Nat :=
  (a + 4294967296 - b % 4294967296) % 4294967296

/-- The header size set by `oceanic_atom2_parser_create`
(src/oceanic_atom2_parser.c:143-166), per model. -/
def oceanic_atom2_headersize (model : Nat) : Nat :=
  if model = DATAMASK ∨ model = COMPUMASK ∨ model = GEO ∨ model = GEO20 ∨
     model = VEO20 ∨ model = VEO30 ∨ model = OCS ∨ model = PROPLUS3 ∨
     model = A300 ∨ model = MANTA ∨ model = INSIGHT2 ∨ model = ZEN then
    9 * PAGESIZE / 2 - PAGESIZE
  else if model = VT4 ∨ model = VT41 then
    9 * PAGESIZE / 2 + PAGESIZE
  else if model = TX1 then
    9 * PAGESIZE / 2 + 2 * PAGESIZE
  else if model = ATOM1 then
    9 * PAGESIZE / 2 - 2 * PAGESIZE
  else if model = F10 then
    3 * PAGESIZE
  else if model = F11A ∨ model = F11B then
    5 * PAGESIZE
  else if model = A300CS ∨ model = VTX then
    5 * PAGESIZE
  else
    9 * PAGESIZE / 2

/-- The footer size set by `oceanic_atom2_parser_create`: one half page,
except zero for the free-dive models. -/
def oceanic_atom2_footersize (model : Nat) : Nat :=
  if model = F10 ∨ model = F11A ∨ model = F11B then 0
  else 2 * PAGESIZE / 2

/-- The cached fields filled in by `oceanic_atom2_parser_cache`:
sizes, header and footer sample offsets, dive mode
(0 normal, 1 gauge, 2 freedive) and the gas table. -/
structure OceanicCache where
  headersize : Nat
  footersize : Nat
  header : Nat
  footer : Nat
  mode : Nat
  mixes : List (Nat × Nat)
  deriving DecidableEq, Repr

/-- Model of `oceanic_atom2_parser_cache`
(src/oceanic_atom2_parser.c:346-438). -/
def oceanic_atom2_parser_cache (model : Nat) (data : Mem) (size : Nat) :
    Except DcStatus OceanicCache :=
  let headersize := oceanic_atom2_headersize model
  let footersize := oceanic_atom2_footersize model
  if size < headersize + footersize then .error .dataformat
  else
    let header :=
      if model = VT4 ∨ model = VT41 ∨ model = A300AI then 3 * PAGESIZE
      else headersize - PAGESIZE / 2
    let footer := size - footersize
    let mode :=
      if model = F10 ∨ model = F11A ∨ model = F11B then 2
      else if model = T3B ∨ model = VT3 ∨ model = DG03 then
        (data 2 &&& 0xC0) >>> 6
      else if model = VEO20 ∨ model = VEO30 then
        (data 1 &&& 0x60) >>> 5
      else 0
    let gm : Nat × Nat × Nat :=
      if mode = 2 then (0, 0, 0)
      else if model = DATAMASK ∨ model = COMPUMASK then (1, header + 3, 0)
      else if model = VT4 ∨ model = VT41 ∨ model = A300AI then
        (4, header + 4, 0)
      else if model = OCI then (4, 0x28, 0)
      else if model = TX1 then (6, 0x3E, 0x48)
      else if model = A300CS ∨ model = VTX then
        (if data 0x39 &&& 0x04 ≠ 0 then 1
         else if data 0x39 &&& 0x08 ≠ 0 then 2
         else if data 0x39 &&& 0x10 ≠ 0 then 3
         else 4, 0x2A, 0)
      else (3, header + 4, 0)
    let mixes := (List.range gm.1).map fun i =>
      (if data (gm.2.1 + i) ≠ 0 then data (gm.2.1 + i) else 21,
       if gm.2.2 ≠ 0 then data (gm.2.2 + i) else 0)
    .ok ⟨headersize, footersize, header, footer, mode, mixes⟩

/-- A decoded `dc_datetime_t` (seconds are always 0 for this family). -/
structure DcDatetime where
  year : Nat
  month : Nat
  day : Nat
  hour : Nat
  minute : Nat
  second : Nat
  deriving DecidableEq, Repr

/-- The pre-adjustment date decoding of
`oceanic_atom2_parser_get_datetime`
(src/oceanic_atom2_parser.c:224-307): the per-model-group field
extraction, the AM/PM bit and the 12-to-24-hour conversion, before the
year-2010 workaround is applied.  Returns the datetime with the raw
decoded year. -/
def oceanic_atom2_datetime_raw (model : Nat) (data : Mem) : DcDatetime :=
  let pm0 := data 1 &&& 0x80
  let r : Nat × Nat × Nat × Nat × Nat × Nat :=
    if model = OC1A ∨ model = OC1B ∨ model = OC1C ∨ model = OCS ∨
       model = VT4 ∨ model = VT41 ∨ model = ATOM3 ∨ model = ATOM31 ∨
       model = A300AI ∨ model = OCI then
      (((data 5 &&& 0xE0) >>> 5) + ((data 7 &&& 0xE0) >>> 2) + 2000,
       data 3 &&& 0x0F,
       ((data 0 &&& 0x80) >>> 3) + ((data 3 &&& 0xF0) >>> 4),
       bcd2dec (data 1 &&& 0x1F), bcd2dec (data 0 &&& 0x7F), pm0)
    else if model = VT3 ∨ model = VEO20 ∨ model = VEO30 ∨ model = DG03 ∨
       model = T3A ∨ model = T3B ∨ model = GEO20 ∨ model = PROPLUS3 then
      (((data 3 &&& 0xE0) >>> 1) + (data 4 &&& 0x0F) + 2000,
       (data 4 &&& 0xF0) >>> 4,
       data 3 &&& 0x1F,
       bcd2dec (data 1 &&& 0x1F), bcd2dec (data 0), pm0)
    else if model = ZENAIR ∨ model = AMPHOS ∨ model = AMPHOSAIR ∨
       model = VOYAGER2G then
      ((data 3 &&& 0x0F) + 2000,
       (data 7 &&& 0xF0) >>> 4,
       ((data 3 &&& 0x80) >>> 3) + ((data 5 &&& 0xF0) >>> 4),
       bcd2dec (data 1 &&& 0x1F), bcd2dec (data 0), pm0)
    else if model = F10 ∨ model = F11A ∨ model = F11B then
      (bcd2dec (data 6) + 2000, bcd2dec (data 7), bcd2dec (data 8),
       bcd2dec (data 13 &&& 0x7F), bcd2dec (data 12), data 13 &&& 0x80)
    else if model = TX1 then
      (bcd2dec (data 13) + 2000, bcd2dec (data 14), bcd2dec (data 15),
       data 11, data 10, pm0)
    else if model = A300CS ∨ model = VTX then
      (data 10 + 2000, data 8, data 9,
       bcd2dec (data 1 &&& 0x1F), bcd2dec (data 0), pm0)
    else
      (bcd2dec (((data 3 &&& 0xC0) >>> 2) + (data 4 &&& 0x0F)) + 2000,
       (data 4 &&& 0xF0) >>> 4,
       bcd2dec (data 3 &&& 0x3F),
       bcd2dec (data 1 &&& 0x1F), bcd2dec (data 0), pm0)
  { year := r.1, month := r.2.1, day := r.2.2.1,
    hour := r.2.2.2.1 % 12 + (if r.2.2.2.2.2 ≠ 0 then 12 else 0),
    minute := r.2.2.2.2.1, second := 0 }

/-- The year-2010 workaround of `oceanic_atom2_parser_get_datetime`
(src/oceanic_atom2_parser.c:324-338): when the decoded year is below
2010 and the host clock is readable with a year of at least 2010, add
the host decade, going back one decade when the dive year modulo 10
exceeds the host year modulo 10. -/
def oceanic_atom2_year2010 (year : Nat) (hostYear : Option Nat) : Nat :=
  if year < 2010 then
    match hostYear with
    | some ny =>
      if ny ≥ 2010 then
        let decade := ny / 10 * 10
        let decade := if year % 10 > ny % 10 then decade - 10 else decade
        year + decade - 2000
      else year
    | none => year
  else year

/-- Model of `oceanic_atom2_parser_get_datetime`
(src/oceanic_atom2_parser.c:209-342).  `hostYear` models the host
clock: `some y` when `dc_datetime_localtime (…, dc_datetime_now ())`
succeeds with local year `y`, `none` when it fails (the datetime
helpers live in `datetime.c`, which is not under src; they are
modelled from the specification of the epoch-completion heuristic). -/
def oceanic_atom2_parser_get_datetime (model : Nat) (data : Mem)
    (size : Nat) (hostYear : Option Nat) : Except DcStatus DcDatetime :=
  let header :=
    if model = F10 ∨ model = F11A ∨ model = F11B then 32 else 8
  if size < header then .error .dataformat
  else
    let dt := oceanic_atom2_datetime_raw model data
    .ok { dt with year := oceanic_atom2_year2010 dt.year hostYear }

/-- Sample interval and per-second sample rate of the Oceanic sample
loop (src/oceanic_atom2_parser.c:559-604): `(interval, samplerate)`. -/
def oceanic_atom2_interval (model mode : Nat) (data : Mem) : Nat × Nat :=
  if mode ≠ 2 then
    (if data (if model = A300CS ∨ model = VTX then 0x1f else 0x17) &&& 0x03 = 0 then 2
     else if data (if model = A300CS ∨ model = VTX then 0x1f else 0x17) &&& 0x03 = 1 then 15
     else if data (if model = A300CS ∨ model = VTX then 0x1f else 0x17) &&& 0x03 = 2 then 30
     else 60, 1)
  else if model = F11A ∨ model = F11B then
    if data 0x29 &&& 0x03 = 0 then (1, 4)
    else if data 0x29 &&& 0x03 = 1 then (1, 2)
    else if data 0x29 &&& 0x03 = 2 then (1, 1)
    else (2, 1)
  else
    (1, 1)

/-- Sample record size of the Oceanic sample loop
(src/oceanic_atom2_parser.c:606-619). -/
def oceanic_atom2_samplesize (model mode : Nat) : Nat :=
  if mode = 2 then
    if model = F10 ∨ model = F11A ∨ model = F11B then 2 else 4
  else if model = OC1A ∨ model = OC1B ∨ model = OC1C ∨ model = OCI ∨
     model = TX1 ∨ model = A300CS ∨ model = VTX then
    PAGESIZE
  else
    PAGESIZE / 2

/-- Loop-invariant configuration of the Oceanic sample loop. -/
structure OceanicCfg where
  model : Nat
  mode : Nat
  interval : Nat
  samplerate : Nat
  samplesize : Nat
  haveTemp : Bool
  havePress : Bool
  ngasmixes : Nat
  limit : Nat
  sizeTotal : Nat
  deriving DecidableEq, Repr

/-- Mutable state of the Oceanic sample loop. -/
structure OceanicState where
  offset : Nat
  time : Nat
  complete : Bool
  tank : Nat
  pressure : Nat
  temperature : Nat
  gasmixPrev : Nat
  deriving DecidableEq, Repr

/-- The surface-interval insertion loop of the 0xBB sample branch
(src/oceanic_atom2_parser.c:714-731): insert `n` surface samples, each
a fresh Time (when the previous instant is complete) and a zero Depth;
returns the emitted samples, the final time and the final `complete`
flag. -/
def oceanic_surface (interval : Nat) : Nat → Nat → Bool →
    List DcSample × Nat × Bool
  | 0, time, complete => ([], time, complete)
  | n + 1, time, complete =>
    let outT :=
      if complete then [DcSample.time ((time + interval) % 4294967296)]
      else []
    let time1 := if complete then time + interval else time
    let rest := oceanic_surface interval n time1 true
    (outT ++ [DcSample.depth 0] ++ rest.1, rest.2.1, rest.2.2)

/-- The tank-switch update of the 0xAA sample branch
(src/oceanic_atom2_parser.c:697-713): the new `(tank, pressure)`. -/
def oceanic_atom2_tankswitch (cfg : OceanicCfg) (data : Mem)
    (offset pressure : Nat) : Nat × Nat :=
  if cfg.model = DATAMASK ∨ cfg.model = COMPUMASK then
    (0, ((data (offset + 7) <<< 8) + data (offset + 6)) &&& 0x0FFF)
  else if cfg.model = A300CS ∨ cfg.model = VTX then
    (u32sub (data (offset + 1) &&& 0x03) 1,
     ((data (offset + 7) <<< 8) + data (offset + 6)) &&& 0x0FFF)
  else
    (u32sub (data (offset + 1) &&& 0x03) 1,
     if cfg.model = ATOM2 ∨ cfg.model = EPICA ∨ cfg.model = EPICB then
       (((data (offset + 3) <<< 8) + data (offset + 4)) &&& 0x0FFF) * 2
     else
       (((data (offset + 4) <<< 8) + data (offset + 5)) &&& 0x0FFF) * 2)

/-- The temperature decoding of the regular sample branch
(src/oceanic_atom2_parser.c:733-771): either an absolute reading or a
delta with a per-model sign bit, accumulated modulo 2^32. -/
def oceanic_atom2_temperature (cfg : OceanicCfg) (data : Mem)
    (offset temperature : Nat) : Nat :=
  if cfg.model = GEO ∨ cfg.model = ATOM1 ∨ cfg.model = ELEMENT2 ∨
     cfg.model = MANTA ∨ cfg.model = ZEN then
    data (offset + 6)
  else if cfg.model = GEO20 ∨ cfg.model = VEO20 ∨ cfg.model = VEO30 ∨
     cfg.model = OC1A ∨ cfg.model = OC1B ∨ cfg.model = OC1C ∨
     cfg.model = OCI ∨ cfg.model = A300 then
    data (offset + 3)
  else if cfg.model = OCS ∨ cfg.model = TX1 then
    data (offset + 1)
  else if cfg.model = VT4 ∨ cfg.model = VT41 ∨ cfg.model = ATOM3 ∨
     cfg.model = ATOM31 ∨ cfg.model = A300AI then
    ((data (offset + 7) &&& 0xF0) >>> 4) |||
    ((data (offset + 7) &&& 0x0C) <<< 2) |||
    ((data (offset + 5) &&& 0x0C) <<< 4)
  else if cfg.model = A300CS ∨ cfg.model = VTX then
    data (offset + 11)
  else
    let sign :=
      if cfg.model = DG03 ∨ cfg.model = PROPLUS3 then
        data (offset + 5) &&& 0x04 = 0
      else if cfg.model = VOYAGER2G ∨ cfg.model = AMPHOS ∨
         cfg.model = AMPHOSAIR then
        data (offset + 5) &&& 0x04 ≠ 0
      else if cfg.model = ATOM2 ∨ cfg.model = PROPLUS21 ∨
         cfg.model = EPICA ∨ cfg.model = EPICB ∨ cfg.model = ATMOSAI2 ∨
         cfg.model = WISDOM2 ∨ cfg.model = WISDOM3 then
        data (offset + 0) &&& 0x80 ≠ 0
      else
        data (offset + 0) &&& 0x80 = 0
    if sign then u32sub temperature ((data (offset + 7) &&& 0x0C) >>> 2)
    else (temperature + ((data (offset + 7) &&& 0x0C) >>> 2)) % 4294967296

/-- The tank-pressure decoding of the regular sample branch
(src/oceanic_atom2_parser.c:773-791). -/
def oceanic_atom2_pressure (cfg : OceanicCfg) (data : Mem)
    (offset pressure : Nat) : Nat :=
  if cfg.model = OC1A ∨ cfg.model = OC1B ∨ cfg.model = OC1C ∨
     cfg.model = OCI then
    (data (offset + 10) + (data (offset + 11) <<< 8)) &&& 0x0FFF
  else if cfg.model = VT4 ∨ cfg.model = VT41 ∨ cfg.model = ATOM3 ∨
     cfg.model = ATOM31 ∨ cfg.model = ZENAIR ∨ cfg.model = A300AI ∨
     cfg.model = DG03 ∨ cfg.model = PROPLUS3 ∨ cfg.model = AMPHOSAIR then
    (((data (offset + 0) &&& 0x03) <<< 8) + data (offset + 1)) * 5
  else if cfg.model = TX1 ∨ cfg.model = A300CS ∨ cfg.model = VTX then
    array_uint16_le data (offset + 4)
  else
    u32sub pressure (data (offset + 1))

/-- The depth decoding of the regular sample branch
(src/oceanic_atom2_parser.c:793-807), in units of 1/16 ft. -/
def oceanic_atom2_depth (cfg : OceanicCfg) (data : Mem) (offset : Nat) :
    Nat :=
  if cfg.mode = 2 then
    array_uint16_le data offset
  else if cfg.model = GEO20 ∨ cfg.model = VEO20 ∨ cfg.model = VEO30 ∨
     cfg.model = OC1A ∨ cfg.model = OC1B ∨ cfg.model = OC1C ∨
     cfg.model = OCI ∨ cfg.model = A300 then
    (data (offset + 4) + (data (offset + 5) <<< 8)) &&& 0x0FFF
  else if cfg.model = ATOM1 then
    data (offset + 3) * 16
  else
    (data (offset + 2) + (data (offset + 3) <<< 8)) &&& 0x0FFF

/-- The NDL/deco decoding of the regular sample branch
(src/oceanic_atom2_parser.c:835-861): `(have_deco, decostop, decotime)`. -/
def oceanic_atom2_deco (cfg : OceanicCfg) (data : Mem) (offset : Nat) :
    Bool × Nat × Nat :=
  if cfg.model = A300CS ∨ cfg.model = VTX then
    (true, (data (offset + 15) &&& 0x70) >>> 4,
     array_uint16_le data (offset + 6) &&& 0x03FF)
  else if cfg.model = ZEN then
    (true, (data (offset + 5) &&& 0xF0) >>> 4,
     array_uint16_le data (offset + 4) &&& 0x0FFF)
  else if cfg.model = TX1 then
    (true, data (offset + 10), array_uint16_le data (offset + 6))
  else
    (false, 0, 0)

/-- The gas-mix change handling of the regular sample branch
(src/oceanic_atom2_parser.c:809-833), only active for the TX1: an
out-of-table one-based index is the `DataFormat` error branch. -/
def oceanic_atom2_gaschange (cfg : OceanicCfg) (data : Mem)
    (offset gasmixPrev : Nat) : Except DcStatus (List DcSample × Nat) :=
  if cfg.model = TX1 then
    let gasmix := data offset &&& 0x07
    if gasmix ≠ gasmixPrev then
      if gasmix < 1 ∨ gasmix > cfg.ngasmixes then .error .dataformat
      else .ok ([DcSample.gasmix (gasmix - 1)], gasmix)
    else .ok ([], gasmixPrev)
  else .ok ([], gasmixPrev)

/-- The regular-sample branch of the Oceanic sample loop
(src/oceanic_atom2_parser.c:732-864): gas-mix change (the only error
branch), temperature, pressure, depth and deco decoding; the produced
state advances the offset by `length` and marks the instant complete.
`outTV` is the time/vendor prefix already emitted by this iteration. -/
def oceanic_atom2_regular (data : Mem) (cfg : OceanicCfg)
    (s : OceanicState) (time1 length : Nat) (outTV : List DcSample) :
    Except DcStatus (OceanicState × List DcSample) :=
  match oceanic_atom2_gaschange cfg data s.offset s.gasmixPrev with
  | .error e => .error e
  | .ok (outG, gasmixPrev1) =>
    let temperature1 :=
      if cfg.haveTemp then
        oceanic_atom2_temperature cfg data s.offset s.temperature
      else s.temperature
    let outTemp :=
      if cfg.haveTemp then
        [DcSample.temperature (Int.ofNat temperature1)]
      else []
    let pressure1 :=
      if cfg.havePress then
        oceanic_atom2_pressure cfg data s.offset s.pressure
      else s.pressure
    let outPress :=
      if cfg.havePress then [DcSample.pressure s.tank pressure1]
      else []
    let outDepth := [DcSample.depth (oceanic_atom2_depth cfg data s.offset)]
    let dc := oceanic_atom2_deco cfg data s.offset
    let outDeco :=
      if dc.1 then
        if dc.2.1 ≠ 0 then
          [DcSample.deco 2 (dc.2.2 * 60) (dc.2.1 * 10)]
        else
          [DcSample.deco 0 (dc.2.2 * 60) 0]
      else []
    .ok ({ s with offset := s.offset + length, time := time1, complete := true, temperature := temperature1, pressure := pressure1, gasmixPrev := gasmixPrev1 },
      outTV ++ outTemp ++ outPress ++ outDepth ++ outG ++ outDeco)

/-- A successful regular-sample branch advances the offset by exactly
`length`. -/
theorem oceanic_atom2_regular_offset {data : Mem} {cfg : OceanicCfg}
    {s : OceanicState} {time1 length : Nat} {outTV out : List DcSample}
    {s1 : OceanicState}
    (h : oceanic_atom2_regular data cfg s time1 length outTV = .ok (s1, out)) :
    s1.offset = s.offset + length := by
  unfold oceanic_atom2_regular at h
  split at h
  · simp at h
  · simp only [Except.ok.injEq, Prod.mk.injEq] at h
    obtain ⟨h1, -⟩ := h
    subst h1
    rfl

/-- One iteration of the Oceanic sample loop
(src/oceanic_atom2_parser.c:656-867): `none` when the loop guard
`offset + samplesize <= size - footersize` fails, otherwise the
samples emitted by this iteration and the next state. -/
def oceanic_atom2_step (data : Mem) (cfg : OceanicCfg)
    (s : OceanicState) : Except DcStatus (Option (OceanicState × List DcSample)) :=
  if s.offset + cfg.samplesize ≤ cfg.limit then
    if (cfg.mode ≠ 2 ∧ array_isequal data s.offset cfg.samplesize 0x00) ∨
       array_isequal data s.offset cfg.samplesize 0xFF then
      .ok (some ({ s with offset := s.offset + cfg.samplesize }, []))
    else
      let time1 := if s.complete then s.time + cfg.interval else s.time
      let outT :=
        if s.complete then [DcSample.time (time1 % 4294967296)] else []
      let sampletype := if cfg.mode = 2 then 0 else data s.offset
      let length :=
        if sampletype = 0xBB then PAGESIZE
        else cfg.samplesize * cfg.samplerate
      if sampletype = 0xBB ∧ s.offset + length > cfg.sizeTotal - PAGESIZE then
        .error .dataformat
      else
        let outV := [DcSample.vendor 5 s.offset length]
        if sampletype = 0xAA then
          let tp := oceanic_atom2_tankswitch cfg data s.offset s.pressure
          .ok (some ({ s with offset := s.offset + length, time := time1, complete := false, tank := tp.1, pressure := tp.2 },
            outT ++ outV))
        else if sampletype = 0xBB then
          let surftime := 60 * bcd2dec (data (s.offset + 1)) +
            bcd2dec (data (s.offset + 2))
          let sf := oceanic_surface cfg.interval (surftime / cfg.interval)
            time1 false
          .ok (some ({ s with offset := s.offset + length, time := sf.2.1, complete := sf.2.2 },
            outT ++ outV ++ sf.1))
        else
          match oceanic_atom2_regular data cfg s time1 length (outT ++ outV) with
          | .error e => .error e
          | .ok x => .ok (some x)
  else
    .ok none

/-- The Oceanic sample record size is positive for every model. -/
theorem oceanic_atom2_samplesize_pos (model mode : Nat) :
    0 < oceanic_atom2_samplesize model mode := by
  unfold oceanic_atom2_samplesize
  split_ifs <;> simp [PAGESIZE]

/-- The Oceanic sample interval is positive for every model. -/
theorem oceanic_atom2_interval_pos (model mode : Nat) (data : Mem) :
    0 < (oceanic_atom2_interval model mode data).1 := by
  unfold oceanic_atom2_interval
  split_ifs <;> simp

/-- The Oceanic per-second sample rate is positive for every model. -/
theorem oceanic_atom2_samplerate_pos (model mode : Nat) (data : Mem) :
    0 < (oceanic_atom2_interval model mode data).2 := by
  unfold oceanic_atom2_interval
  split_ifs <;> simp

set_option maxHeartbeats 1000000 in
/-- Every successful continuing Oceanic loop step starts inside the
profile region and strictly advances the offset. -/
theorem oceanic_atom2_step_advance {data : Mem} {cfg : OceanicCfg}
    {s s1 : OceanicState} {out : List DcSample}
    (h : oceanic_atom2_step data cfg s = .ok (some (s1, out)))
    (hs : 0 < cfg.samplesize) (hr : 0 < cfg.samplerate) :
    s.offset < s1.offset ∧ s.offset < cfg.limit := by
  have hsr : 0 < cfg.samplesize * cfg.samplerate := Nat.mul_pos hs hr
  unfold oceanic_atom2_step at h
  split at h
  case isFalse => simp at h
  case isTrue hguard =>
    refine ⟨?_, by omega⟩
    by_cases hc2 : (cfg.mode ≠ 2 ∧ array_isequal data s.offset cfg.samplesize 0x00 = true) ∨ array_isequal data s.offset cfg.samplesize 0xFF = true
    · rw [if_pos hc2] at h
      simp only [Except.ok.injEq, Option.some.injEq, Prod.mk.injEq] at h
      obtain ⟨h1, -⟩ := h
      subst h1
      simp [PAGESIZE]
      first
      | done
      | omega
    · rw [if_neg hc2] at h
      by_cases hbb : (if cfg.mode = 2 then 0 else data s.offset) = 0xBB ∧ s.offset + (if (if cfg.mode = 2 then 0 else data s.offset) = 0xBB then PAGESIZE else cfg.samplesize * cfg.samplerate) > cfg.sizeTotal - PAGESIZE
      · rw [if_pos hbb] at h
        exact absurd h (by simp)
      · rw [if_neg hbb] at h
        by_cases haa : (if cfg.mode = 2 then 0 else data s.offset) = 0xAA
        · rw [if_pos haa] at h
          simp only [Except.ok.injEq, Option.some.injEq, Prod.mk.injEq] at h
          obtain ⟨h1, -⟩ := h
          subst h1
          simp [PAGESIZE]
          first
          | done
          | omega
          | (split_ifs <;> omega)
        · rw [if_neg haa] at h
          by_cases hsb : (if cfg.mode = 2 then 0 else data s.offset) = 0xBB
          · rw [if_pos hsb] at h
            simp only [Except.ok.injEq, Option.some.injEq, Prod.mk.injEq] at h
            obtain ⟨h1, -⟩ := h
            subst h1
            simp [PAGESIZE]
            first
            | done
            | omega
            | (split_ifs <;> omega)
          · rw [if_neg hsb] at h
            split at h
            · exfalso
              simp at h
            · rename_i x hx
              obtain ⟨sx, outx⟩ := x
              have hofs := oceanic_atom2_regular_offset hx
              simp only [Except.ok.injEq, Option.some.injEq, Prod.mk.injEq] at h
              obtain ⟨h1, -⟩ := h
              subst h1
              rw [hofs]
              simp [PAGESIZE]
              first
              | done
              | omega
              | (split_ifs <;> omega)

/-- The Oceanic sample loop (src/oceanic_atom2_parser.c:654-867) as
iteration of `oceanic_atom2_step`; returns the emitted samples and the
final value of the `time` accumulator. -/
def oceanic_atom2_run (data : Mem) (cfg : OceanicCfg)
    (hs : 0 < cfg.samplesize) (hr : 0 < cfg.samplerate)
    (s : OceanicState) : Except DcStatus (List DcSample × Nat) :=
  match h : oceanic_atom2_step data cfg s with
  | .error e => .error e
  | .ok none => .ok ([], s.time)
  | .ok (some (s1, out)) =>
    match oceanic_atom2_run data cfg hs hr s1 with
    | .error e => .error e
    | .ok (rest, tfin) => .ok (out ++ rest, tfin)
termination_by cfg.limit - s.offset
decreasing_by
  have := oceanic_atom2_step_advance h hs hr
  omega

/-- The setup phase of `oceanic_atom2_parser_samples_foreach`
(src/oceanic_atom2_parser.c:545-655): cache pass, interval and sample
layout selection, initial temperature, tank pressure and state. -/
def oceanic_atom2_setup (model : Nat) (data : Mem) (size : Nat) :
    Except DcStatus (OceanicCfg × OceanicState) :=
  match oceanic_atom2_parser_cache model data size with
  | .error e => .error e
  | .ok c =>
    let iv := oceanic_atom2_interval model c.mode data
    let samplesize := oceanic_atom2_samplesize model c.mode
    let haveTemp := decide (c.mode ≠ 2)
    let havePress0 :=
      if c.mode = 2 then false
      else if model = VEO30 ∨ model = OCS ∨ model = ELEMENT2 ∨
        model = VEO20 ∨ model = A300 ∨ model = ZEN ∨ model = GEO ∨
        model = GEO20 ∨ model = MANTA then false
      else true
    let temperature := if haveTemp then data (c.header + 7) else 0
    let pressure0 :=
      if havePress0 then
        array_uint16_le data
          (c.header + (if model = A300CS ∨ model = VTX then 16 else 2))
      else 0
    let havePress := havePress0 && decide (pressure0 ≠ 10000)
    .ok ({ model := model, mode := c.mode, interval := iv.1, samplerate := iv.2, samplesize := samplesize, haveTemp := haveTemp, havePress := havePress, ngasmixes := c.mixes.length, limit := size - c.footersize, sizeTotal := size },
      { offset := c.headersize, time := 0, complete := true, tank := 0, pressure := pressure0, temperature := temperature, gasmixPrev := 4294967295 })

/-- A successful Oceanic setup yields a positive sample size, sample
rate and interval. -/
theorem oceanic_atom2_setup_pos {model : Nat} {data : Mem} {size : Nat}
    {cfg : OceanicCfg} {s0 : OceanicState}
    (h : oceanic_atom2_setup model data size = .ok (cfg, s0)) :
    0 < cfg.samplesize ∧ 0 < cfg.samplerate ∧ 0 < cfg.interval := by
  unfold oceanic_atom2_setup at h
  split at h
  · simp at h
  · simp only [Except.ok.injEq, Prod.mk.injEq] at h
    obtain ⟨h1, -⟩ := h
    subst h1
    refine ⟨oceanic_atom2_samplesize_pos _ _, oceanic_atom2_samplerate_pos _ _ _,
      oceanic_atom2_interval_pos _ _ _⟩

/-- Model of `oceanic_atom2_parser_samples_foreach`
(src/oceanic_atom2_parser.c:545-870): setup, then the sample loop.
Also returns the final time accumulator. -/
def oceanic_atom2_parser_samples_foreach (model : Nat) (data : Mem)
    (size : Nat) : Except DcStatus (List DcSample × Nat) :=
  match h : oceanic_atom2_setup model data size with
  | .error e => .error e
  | .ok (cfg, s0) =>
    oceanic_atom2_run data cfg (oceanic_atom2_setup_pos h).1
      (oceanic_atom2_setup_pos h).2.1 s0

/-! ## Suunto D9 family parser (part of C3)

`src/suunto_d9_parser.c`.  The model identifiers are the values of the
macros at the top of the file; dive modes are `AIR 0`, `NITROX 1`,
`GAUGE 2`, `FREEDIVE 3`, `MIXED 4`, `CCR 5`.  Event codes in emitted
samples are the numeric values of `parser_sample_event_t`
(`include/libdivecomputer/parser.h`), flags those of
`parser_sample_flags_t`. -/

def D9 : Nat := 0x0E
def D6 : Nat := 0x0F
def VYPER2 : Nat := 0x10
def COBRA2 : Nat := 0x11
def D4 : Nat := 0x12
def VYPERAIR : Nat := 0x13
def COBRA3 : Nat := 0x14
def HELO2 : Nat := 0x15
def D4i : Nat := 0x19
def D6i : Nat := 0x1A
def D9tx : Nat := 0x1B
def DX : Nat := 0x1C

/-- A C `signed char` read of a byte: values at or above 128 are
negative. -/
def signed_char (b : Nat) : Int :=
  if b % 256 < 128 then (b % 256 : Int) else (b % 256 : Int) - 256

/-- Model of `suunto_d9_parser_find_gasmix`
(src/suunto_d9_parser.c:99-111). -/
def suunto_d9_parser_find_gasmix (mixes : List (Nat × Nat)) (o2 he : Nat) :
    Nat :=
  match mixes with
  | [] => 0
  | m :: rest =>
    if o2 = m.1 ∧ he = m.2 then 0
    else suunto_d9_parser_find_gasmix rest o2 he + 1

/-- The cached fields of the Suunto D9 parser filled in by
`suunto_d9_parser_cache`: dive mode, gas table, initial gas mix index
and the offset of the sample configuration data. -/
structure SuuntoCache where
  mode : Nat
  mixes : List (Nat × Nat)
  gasmix : Nat
  config : Nat
  deriving DecidableEq, Repr

/-- The per-model gas metadata of `suunto_d9_parser_cache`
(src/suunto_d9_parser.c:123-150):
`(gasmode_offset, gasmix_offset, gasmix_count)`. -/
def suunto_d9_gasmeta (model : Nat) (data : Mem) : Nat × Nat × Nat :=
  if model = HELO2 then (0x1F, 0x54, 8)
  else if model = D4i then (0x1D, 0x5F, 1)
  else if model = D6i then (0x1D, 0x5F, if data 1 = 0x63 then 3 else 2)
  else if model = D9tx then (0x1D, 0x87, 8)
  else if model = DX then (0x21, 0xC1, 11)
  else (0x19, 0x21, 3)

/-- The gas-table gathering loop of `suunto_d9_parser_cache`
(src/suunto_d9_parser.c:174-189).  In the six-byte layout (`wide`,
used by the HELO2/D4i/D6i/D9tx/DX models) every slot is taken; in the
one-byte layout a `0x00` or `0xFF` oxygen entry stops the scan. -/
def suunto_d9_gather (wide : Bool) (data : Mem) (gmo : Nat) :
    Nat → Nat → List (Nat × Nat)
  | 0, _ => []
  | n + 1, i =>
    if wide then
      (data (gmo + 6 * i + 1), data (gmo + 6 * i + 2)) ::
        suunto_d9_gather wide data gmo n (i + 1)
    else
      if data (gmo + i) = 0x00 ∨ data (gmo + i) = 0xFF then []
      else (data (gmo + i), 0) :: suunto_d9_gather wide data gmo n (i + 1)

/-- Model of `suunto_d9_parser_cache` (src/suunto_d9_parser.c:113-203). -/
def suunto_d9_parser_cache (model : Nat) (data : Mem) (size : Nat) :
    Except DcStatus SuuntoCache :=
  let gm := suunto_d9_gasmeta model data
  let wide := model = HELO2 ∨ model = D4i ∨ model = D6i ∨ model = D9tx ∨
    model = DX
  let config :=
    if model = D4 then 0x3A + 1
    else if model = HELO2 ∨ model = D4i ∨ model = D6i ∨ model = D9tx ∨
      model = DX then gm.2.1 + gm.2.2 * 6
    else 0x3A
  if config + 1 > size then .error .dataformat
  else
    let mode := data gm.1
    let mixes :=
      if mode = 2 ∨ mode = 3 then []
      else if mode = 0 then [(21, 0)]
      else suunto_d9_gather (decide wide) data gm.2.1 gm.2.2 0
    let gasmix :=
      if mode = 2 ∨ mode = 3 then 0
      else if mode = 0 then 0
      else if model = HELO2 then data 0x26
      else if model = D4i ∨ model = D6i ∨ model = D9tx then data 0x28
      else 0
    .ok ⟨mode, mixes, gasmix, config⟩

/-- One entry of the sample configuration (`sample_info_t`,
src/suunto_d9_parser.c:77-82); `isize` is the `size` field. -/
structure SampleInfo where
  type : Nat
  interval : Nat
  divisor : Nat
  isize : Nat
  deriving DecidableEq, Repr

/-- The divisor table (src/suunto_d9_parser.c:402). -/
def suunto_d9_divisors : List Nat := [1, 2, 4, 5, 10, 50, 100, 1000]

/-- The sample-configuration parsing loop of
`suunto_d9_parser_samples_foreach` (src/suunto_d9_parser.c:405-423):
an unknown sample type is `DataFormat`. -/
def suunto_d9_sampleinfo (data : Mem) (config : Nat) :
    Nat → Nat → Except DcStatus (List SampleInfo)
  | 0, _ => .ok []
  | n + 1, i =>
    let idx := config + 2 + i * 3
    let ty := data idx
    let isize :=
      if ty = 0x64 ∨ ty = 0x68 then 2
      else if ty = 0x74 then 1
      else 0
    if isize = 0 then .error .dataformat
    else
      match suunto_d9_sampleinfo data config n (i + 1) with
      | .error e => .error e
      | .ok rest =>
        .ok (⟨ty, data (idx + 1),
          suunto_d9_divisors.getD ((data (idx + 2) &&& 0x1C) >>> 2) 0,
          isize⟩ :: rest)

/-- The three deco-state bits of the event machinery
(`SAFETYSTOP`, `DECOSTOP`, `DEEPSTOP`, src/suunto_d9_parser.c:57-59). -/
structure SuuntoDeco where
  safety : Bool
  deco : Bool
  deep : Bool
  deriving DecidableEq, Repr

/-- The per-type dispatch of the 0x03 event
(src/suunto_d9_parser.c:569-658): maps the masked type byte and the
begin/end bit to `(event code, event value, new deco bits)`; an
unknown type keeps `SAMPLE_EVENT_NONE` (0) and emits nothing. -/
def suunto_d9_event_info (t7 : Nat) (isEnd : Bool) (deco : SuuntoDeco) :
    Nat × Nat × SuuntoDeco :=
  if t7 = 0x00 then (12, 0, { deco with safety := !isEnd })
  else if t7 = 0x01 then (13, 0, { deco with deco := !isEnd })
  else if t7 = 0x02 then (14, 0, { deco with deep := !isEnd })
  else if t7 = 0x03 then (1, 0, { deco with deco := !isEnd })
  else if t7 = 0x04 then (3, 0, deco)
  else if t7 = 0x05 then (4, 0, deco)
  else if t7 = 0x06 then (15, 0, deco)
  else if t7 = 0x07 then (16, 0, deco)
  else if t7 = 0x08 then (17, 0, deco)
  else if t7 = 0x09 then (18, 0, deco)
  else if t7 = 0x0A then (19, 80, deco)
  else if t7 = 0x0B then (19, 100, deco)
  else if t7 = 0x0C then (20, 0, deco)
  else if t7 = 0x0D then (21, 0, deco)
  else if t7 = 0x0E then (22, 0, deco)
  else if t7 = 0x0F ∨ t7 = 0x10 then (20, 0, deco)
  else if t7 = 0x11 ∨ t7 = 0x12 then (24, 0, deco)
  else if t7 = 0x13 then (14, 0, { deco with deep := !isEnd })
  else if t7 = 0x14 then (13, 0, { deco with deco := !isEnd })
  else (0, 0, deco)

/-- The event consumption loop of `suunto_d9_parser_samples_foreach`
(src/suunto_d9_parser.c:523-749): consume event records until a 0x01
next-event marker (which re-arms `marker`, modulo the 32-bit storage,
and breaks) or the end of the data.  Returns the new offset, marker and
deco bits and the emitted samples. -/
def suunto_d9_events (model : Nat) (data : Mem) (size : Nat)
    (mixes : List (Nat × Nat)) (offset marker : Nat) (deco : SuuntoDeco) :
    Except DcStatus (Nat × Nat × SuuntoDeco × List DcSample) :=
  if offset < size then
    if data offset = 0x01 then
      if offset + 1 + 4 > size then .error .dataformat
      else if marker ≠ array_uint16_le data (offset + 1) then
        .error .dataformat
      else
        .ok (offset + 1 + 4,
          (marker + array_uint16_le data (offset + 1 + 2)) % 4294967296,
          deco, [])
    else if data offset = 0x02 then
      if offset + 1 + 2 > size then .error .dataformat
      else
        match suunto_d9_events model data size mixes (offset + 1 + 2) marker deco with
        | .error e => .error e
        | .ok r => .ok (r.1, r.2.1, r.2.2.1,
            DcSample.event 9 (data (offset + 1 + 1)) 0 0 :: r.2.2.2)
    else if data offset = 0x03 then
      if offset + 1 + 2 > size then .error .dataformat
      else
        match suunto_d9_events model data size mixes (offset + 1 + 2) marker
          (suunto_d9_event_info (data (offset + 1) &&& 0x7F)
            (data (offset + 1) &&& 0x80 ≠ 0) deco).2.2 with
        | .error e => .error e
        | .ok r => .ok (r.1, r.2.1, r.2.2.1,
            (if (suunto_d9_event_info (data (offset + 1) &&& 0x7F)
                (data (offset + 1) &&& 0x80 ≠ 0) deco).1 ≠ 0 then
              [DcSample.event
                (suunto_d9_event_info (data (offset + 1) &&& 0x7F)
                  (data (offset + 1) &&& 0x80 ≠ 0) deco).1
                (data (offset + 1 + 1))
                (if data (offset + 1) &&& 0x80 ≠ 0 then 2 else 1)
                (suunto_d9_event_info (data (offset + 1) &&& 0x7F)
                  (data (offset + 1) &&& 0x80 ≠ 0) deco).2.1]
             else []) ++ r.2.2.2)
    else if data offset = 0x04 then
      if offset + 1 + 4 > size then .error .dataformat
      else
        match suunto_d9_events model data size mixes (offset + 1 + 4) marker deco with
        | .error e => .error e
        | .ok r => .ok (r.1, r.2.1, r.2.2.1,
            (if array_uint16_le data (offset + 1 + 2) = 0xFFFF then
              DcSample.event 8 (data (offset + 1 + 1)) 0 0
             else
              DcSample.event 23 (data (offset + 1 + 1)) 0
                (array_uint16_le data (offset + 1 + 2) / 2)) :: r.2.2.2)
    else if data offset = 0x05 then
      if offset + 1 + 2 > size then .error .dataformat
      else if suunto_d9_parser_find_gasmix mixes (data (offset + 1)) 0 ≥
          mixes.length then
        .error .dataformat
      else
        match suunto_d9_events model data size mixes (offset + 1 + 2) marker deco with
        | .error e => .error e
        | .ok r => .ok (r.1, r.2.1, r.2.2.1,
            DcSample.gasmix
              (suunto_d9_parser_find_gasmix mixes (data (offset + 1)) 0) :: r.2.2.2)
    else if data offset = 0x06 then
      if offset + 1 + (if model = DX then 5 else 4) > size then
        .error .dataformat
      else if suunto_d9_parser_find_gasmix mixes (data (offset + 1 + 2))
          (data (offset + 1 + 1)) ≥ mixes.length then
        .error .dataformat
      else
        match suunto_d9_events model data size mixes
          (offset + 1 + (if model = DX then 5 else 4)) marker deco with
        | .error e => .error e
        | .ok r => .ok (r.1, r.2.1, r.2.2.1,
            DcSample.gasmix
              (suunto_d9_parser_find_gasmix mixes (data (offset + 1 + 2))
                (data (offset + 1 + 1))) :: r.2.2.2)
    else
      suunto_d9_events model data size mixes (offset + 1) marker deco
  else
    .ok (offset, marker, deco, [])
termination_by size - offset
decreasing_by all_goals omega



theorem suunto_d9_events_progress (model : Nat) (data : Mem) (size : Nat)
    (mixes : List (Nat × Nat)) :
    ∀ offset marker deco r,
      suunto_d9_events model data size mixes offset marker deco = .ok r →
      offset ≤ r.1 ∧ (offset < size → offset < r.1) ∧
        (marker < 4294967296 → r.2.1 < 4294967296) := by
  intro offset marker deco r h
  induction offset, marker, deco using suunto_d9_events.induct model data size mixes generalizing r
  all_goals rw [suunto_d9_events] at h
  all_goals try simp [*] at h
  all_goals try simp_all
  all_goals try subst h
  all_goals try (rename_i ih; obtain ⟨i1, i2, i3⟩ := ih)
  all_goals try (first
  | exact ⟨by omega, by omega, i3⟩
  | exact ⟨by omega, by omega⟩
  | exact ⟨by omega, by omega, by omega⟩)
  all_goals try (split at h <;> simp at h)
  all_goals try (subst h)
  all_goals try (refine ⟨?_, ?_, ?_⟩ <;> simp <;> omega)
  all_goals try (refine ⟨?_, ?_⟩ <;> simp <;> omega)
  all_goals try (rw [if_neg (by omega)] at h)
  all_goals try (simp at h)
  all_goals try (subst h)
  all_goals try (exact ⟨by simp <;> omega, by simp <;> omega, by simp <;> exact i3⟩)

/-- The per-instant sample-data loop of
`suunto_d9_parser_samples_foreach` (src/suunto_d9_parser.c:469-502):
for every configured parameter that is due at this sample index,
bounds-check, decode and consume its bytes.  A pressure value of
`0xFFFF` is skipped; an unknown type is `DataFormat`. -/
def suunto_d9_params (data : Mem) (size : Nat) :
    List SampleInfo → Nat → Nat → Except DcStatus (Nat × List DcSample)
  | [], _, offset => .ok (offset, [])
  | i :: rest, nsamples, offset =>
    if i.interval ≠ 0 ∧ nsamples % i.interval = 0 then
      if offset + i.isize > size then .error .dataformat
      else if i.type = 0x64 then
        match suunto_d9_params data size rest nsamples (offset + i.isize) with
        | .error e => .error e
        | .ok r => .ok (r.1, DcSample.depth (array_uint16_le data offset) :: r.2)
      else if i.type = 0x68 then
        match suunto_d9_params data size rest nsamples (offset + i.isize) with
        | .error e => .error e
        | .ok r => .ok (r.1,
            (if array_uint16_le data offset ≠ 0xFFFF then
              [DcSample.pressure 0 (array_uint16_le data offset)]
             else []) ++ r.2)
      else if i.type = 0x74 then
        match suunto_d9_params data size rest nsamples (offset + i.isize) with
        | .error e => .error e
        | .ok r => .ok (r.1, DcSample.temperature (signed_char (data offset)) :: r.2)
      else .error .dataformat
    else
      suunto_d9_params data size rest nsamples offset

/-- The parameter loop never moves the offset backwards. -/
theorem suunto_d9_params_mono (data : Mem) (size : Nat) :
    ∀ info nsamples offset r,
      suunto_d9_params data size info nsamples offset = .ok r →
      offset ≤ r.1 := by
  intro info
  induction info with
  | nil =>
    intro nsamples offset r h
    simp only [suunto_d9_params, Except.ok.injEq] at h
    subst h
    exact le_refl _
  | cons i rest ih =>
    intro nsamples offset r h
    rw [suunto_d9_params] at h
    split at h
    · split at h
      · simp at h
      · split at h
        · split at h
          · simp at h
          · rename_i r0 hr0
            have := ih _ _ _ hr0
            simp only [Except.ok.injEq] at h
            subst h
            simp only
            omega
        · split at h
          · split at h
            · simp at h
            · rename_i r0 hr0
              have := ih _ _ _ hr0
              simp only [Except.ok.injEq] at h
              subst h
              simp only
              omega
          · split at h
            · split at h
              · simp at h
              · rename_i r0 hr0
                have := ih _ _ _ hr0
                simp only [Except.ok.injEq] at h
                subst h
                simp only
                omega
            · simp at h
    · exact ih _ _ _ h

/-- Loop-invariant configuration of the Suunto D9 sample loop. -/
structure SuuntoCfg where
  model : Nat
  mixes : List (Nat × Nat)
  gasmix0 : Nat
  info : List SampleInfo
  interval_sample : Nat
  size : Nat
  deriving DecidableEq, Repr

/-- Mutable state of the Suunto D9 sample loop.  `marker` is the C
`unsigned int` next-event marker, kept reduced modulo 2^32;
`nsamples` counts iterations (only its value modulo 2^32 is ever
compared, mirroring the 32-bit counter). -/
structure SuuntoState where
  offset : Nat
  nsamples : Nat
  time : Nat
  marker : Nat
  deco : SuuntoDeco
  deriving DecidableEq, Repr

/-- One iteration of the Suunto D9 sample loop
(src/suunto_d9_parser.c:461-767): `none` when the loop guard
`offset < size` fails; otherwise emit the Time sample, run the
parameter loop, the initial gas mix (time 0 only), the event loop when
the 32-bit sample counter matches the marker, and the deco state
sample, then advance time by the sample interval. -/
def suunto_d9_step (data : Mem) (cfg : SuuntoCfg) (s : SuuntoState) :
    Except DcStatus (Option (SuuntoState × List DcSample)) :=
  if s.offset < cfg.size then
    match suunto_d9_params data cfg.size cfg.info s.nsamples s.offset with
    | .error e => .error e
    | .ok pr =>
      if s.time = 0 ∧ cfg.mixes.length > 0 ∧ cfg.gasmix0 ≥ cfg.mixes.length then
        .error .dataformat
      else
        match (if (s.nsamples + 1) % 4294967296 = s.marker then
            suunto_d9_events cfg.model data cfg.size cfg.mixes pr.1 s.marker s.deco
          else .ok (pr.1, s.marker, s.deco, [])) with
        | .error e => .error e
        | .ok ev =>
          .ok (some ({ offset := ev.1, nsamples := s.nsamples + 1, time := s.time + cfg.interval_sample, marker := ev.2.1, deco := ev.2.2.1 },
            DcSample.time (s.time % 4294967296) :: pr.2 ++
            (if s.time = 0 ∧ cfg.mixes.length > 0 then
              [DcSample.gasmix cfg.gasmix0] else []) ++
            ev.2.2.2 ++
            [DcSample.deco
              (if ev.2.2.1.deep then 3
               else if ev.2.2.1.deco then 2
               else if ev.2.2.1.safety then 1 else 0) 0 0]))
  else
    .ok none

/-- The termination measure gap: the 32-bit distance from the sample
counter to the next event marker. -/
def suunto_gap (marker nsamples : Nat) : Nat :=
  (marker + 4294967296 - (nsamples + 1) % 4294967296) % 4294967296

/-- Every successful continuing Suunto loop step either strictly
advances the offset or leaves it and strictly shrinks the marker gap;
the marker stays below 2^32. -/
theorem suunto_d9_step_measure {data : Mem} {cfg : SuuntoCfg}
    {s s1 : SuuntoState} {out : List DcSample}
    (h : suunto_d9_step data cfg s = .ok (some (s1, out)))
    (hmk : s.marker < 4294967296) :
    (s.offset < s1.offset ∧ s.offset < cfg.size) ∨
      (s1.offset = s.offset ∧
        suunto_gap s1.marker s1.nsamples < suunto_gap s.marker s.nsamples) := by
  unfold suunto_d9_step at h
  split at h
  case isFalse => simp at h
  case isTrue hguard =>
    split at h
    · simp at h
    · rename_i pr hpr
      have hprm := suunto_d9_params_mono data cfg.size _ _ _ _ hpr
      split at h
      · simp at h
      · split at h
        · simp at h
        · rename_i ev hev
          simp only [Except.ok.injEq, Option.some.injEq, Prod.mk.injEq] at h
          obtain ⟨h1, -⟩ := h
          subst h1
          by_cases hcond : (s.nsamples + 1) % 4294967296 = s.marker
          · rw [if_pos hcond] at hev
            have hprog := suunto_d9_events_progress cfg.model data cfg.size
              cfg.mixes pr.1 s.marker s.deco ev hev
            by_cases hoff : pr.1 < cfg.size
            · left
              refine ⟨?_, hguard⟩
              have := hprog.2.1 hoff
              simp only
              omega
            · left
              refine ⟨?_, hguard⟩
              simp only
              omega
          · rw [if_neg hcond] at hev
            simp only [Except.ok.injEq] at hev
            subst hev
            by_cases hoff : s.offset < pr.1
            · left
              exact ⟨by simpa using hoff, hguard⟩
            · right
              have hpr1 : pr.1 = s.offset := by omega
              refine ⟨by simpa using hpr1, ?_⟩
              simp only [suunto_gap]
              omega

/-- A continuing Suunto loop step keeps the marker below 2^32. -/
theorem suunto_d9_step_marker {data : Mem} {cfg : SuuntoCfg}
    {s s1 : SuuntoState} {out : List DcSample}
    (h : suunto_d9_step data cfg s = .ok (some (s1, out)))
    (hmk : s.marker < 4294967296) : s1.marker < 4294967296 := by
  unfold suunto_d9_step at h
  split at h
  case isFalse => simp at h
  case isTrue hguard =>
    split at h
    · simp at h
    · rename_i pr hpr
      split at h
      · simp at h
      · split at h
        · simp at h
        · rename_i ev hev
          simp only [Except.ok.injEq, Option.some.injEq, Prod.mk.injEq] at h
          obtain ⟨h1, -⟩ := h
          subst h1
          by_cases hcond : (s.nsamples + 1) % 4294967296 = s.marker
          · rw [if_pos hcond] at hev
            have hprog := suunto_d9_events_progress cfg.model data cfg.size
              cfg.mixes pr.1 s.marker s.deco ev hev
            exact hprog.2.2 hmk
          · rw [if_neg hcond] at hev
            simp only [Except.ok.injEq] at hev
            subst hev
            simpa using hmk

/-- The Suunto D9 sample loop (src/suunto_d9_parser.c:461-767) as
iteration of `suunto_d9_step`.  The loop terminates for every input:
each iteration either consumes data or advances the 32-bit sample
counter towards the next-event marker (the C loop relies on the same
32-bit wrap-around).  Returns the emitted samples and the final time
accumulator. -/
def suunto_d9_run (data : Mem) (cfg : SuuntoCfg) (s : SuuntoState)
    (hmk : s.marker < 4294967296) : Except DcStatus (List DcSample × Nat) :=
  match h : suunto_d9_step data cfg s with
  | .error e => .error e
  | .ok none => .ok ([], s.time)
  | .ok (some (s1, out)) =>
    match suunto_d9_run data cfg s1 (suunto_d9_step_marker h hmk) with
    | .error e => .error e
    | .ok (rest, tfin) => .ok (out ++ rest, tfin)
termination_by (cfg.size - s.offset, suunto_gap s.marker s.nsamples)
decreasing_by
  rcases suunto_d9_step_measure h hmk with h1 | ⟨h2, h3⟩
  · exact Prod.Lex.left _ _ (by omega)
  · rw [h2]
    exact Prod.Lex.right _ h3

/-- The setup phase of `suunto_d9_parser_samples_foreach`
(src/suunto_d9_parser.c:381-460): cache pass, parameter count and
sample configuration, profile offset (with the HELO2 extra block),
sample interval and first marker position. -/
def suunto_d9_setup (model : Nat) (data : Mem) (size : Nat) :
    Except DcStatus (SuuntoCfg × SuuntoState) :=
  match suunto_d9_parser_cache model data size with
  | .error e => .error e
  | .ok c =>
    if data c.config = 0 ∨ data c.config > 3 then .error .dataformat
    else
      match suunto_d9_sampleinfo data c.config (data c.config) 0 with
      | .error e => .error e
      | .ok info =>
        if c.config + 2 + data c.config * 3 + 5 > size then .error .dataformat
        else
          let profile :=
            if model = HELO2 ∧ ¬(data (c.config + 2 + data c.config * 3) = 1 ∧
                data (c.config + 2 + data c.config * 3 + 1) = 0 ∧
                data (c.config + 2 + data c.config * 3 + 2) = 0) then
              c.config + 2 + data c.config * 3 + 12
            else c.config + 2 + data c.config * 3
          if profile + 5 > size then .error .dataformat
          else
            if data (if model = HELO2 ∨ model = D4i ∨ model = D6i ∨
                model = D9tx then 0x1E
              else if model = DX then 0x22 else 0x18) = 0 then
              .error .dataformat
            else
              .ok ({ model := model, mixes := c.mixes, gasmix0 := c.gasmix, info := info, interval_sample := data (if model = HELO2 ∨ model = D4i ∨ model = D6i ∨ model = D9tx then 0x1E else if model = DX then 0x22 else 0x18), size := size },
                { offset := profile + 5, nsamples := 0, time := 0, marker := array_uint16_le data (profile + 3) % 4294967296, deco := ⟨false, false, false⟩ })

/-- A successful Suunto setup starts with a marker below 2^32. -/
theorem suunto_d9_setup_marker {model : Nat} {data : Mem} {size : Nat}
    {cfg : SuuntoCfg} {s0 : SuuntoState}
    (h : suunto_d9_setup model data size = .ok (cfg, s0)) :
    s0.marker < 4294967296 := by
  unfold suunto_d9_setup at h
  repeat' split at h
  all_goals try (simp at h; done)
  all_goals simp only [gt_iff_lt] at h
  all_goals split at h
  all_goals try (simp at h; done)
  all_goals simp only [Except.ok.injEq, Prod.mk.injEq] at h
  all_goals obtain ⟨-, h2⟩ := h
  all_goals subst h2
  all_goals exact Nat.mod_lt _ (by norm_num)

/-- Model of `suunto_d9_parser_samples_foreach`
(src/suunto_d9_parser.c:381-770): setup, then the sample loop.  Also
returns the final time accumulator. -/
def suunto_d9_parser_samples_foreach (model : Nat) (data : Mem)
    (size : Nat) : Except DcStatus (List DcSample × Nat) :=
  match h : suunto_d9_setup model data size with
  | .error e => .error e
  | .ok (cfg, s0) => suunto_d9_run data cfg s0 (suunto_d9_setup_marker h)

/-! ## Claim theorems -/

/-- C9: `set_fingerprint` rejects a size that is neither zero nor the
family's fingerprint length with `InvalidArgs` (5 bytes for the OSTC3,
4 for the Aladin), stores the given bytes and reports `Success` on an
exact-size input, and clears the store and reports `Success` on an
empty input. -/
theorem C9_set_fingerprint_contract (fp : List Nat) (ts : Nat) (data : Mem)
    (size : Nat) :
    (size ≠ 0 ∧ size ≠ 5 →
      hw_ostc3_device_set_fingerprint fp data size = (DcStatus.invalidargs, fp)) ∧
    (size = 5 →
      hw_ostc3_device_set_fingerprint fp data size =
        (DcStatus.success, memBytes data 0 5)) ∧
    (size = 0 →
      hw_ostc3_device_set_fingerprint fp data size =
        (DcStatus.success, List.replicate 5 0)) ∧
    (size ≠ 0 ∧ size ≠ 4 →
      uwatec_aladin_device_set_fingerprint ts data size =
        (DcStatus.invalidargs, ts)) ∧
    (size = 4 →
      uwatec_aladin_device_set_fingerprint ts data size =
        (DcStatus.success, array_uint32_le data 0)) ∧
    (size = 0 →
      uwatec_aladin_device_set_fingerprint ts data size =
        (DcStatus.success, 0)) := by
  unfold hw_ostc3_device_set_fingerprint uwatec_aladin_device_set_fingerprint
  refine ⟨?_, ?_, ?_, ?_, ?_, ?_⟩ <;> intro h <;> split_ifs <;> simp_all

/-- C4: in `hw_ostc3_transfer`, when the one-byte echo read back
differs from the command byte, the transfer fails with `Unsupported`
exactly when the echo equals the session's ready byte (0x4C in service
mode, 0x4D otherwise), and with `Protocol` for any other echo. -/
theorem C4_transfer_echo_mismatch (state : HwOstc3State) (rest : List Nat)
    (avail : List Nat) (cmd e : Nat) (input : Option (List Nat))
    (output : Option Nat) (h : e ≠ cmd) :
    hw_ostc3_transfer state false ⟨e :: rest, avail⟩ cmd input output =
      Except.error
        (if e = (if state = HwOstc3State.SERVICE then 0x4C else 0x4D) then
          DcStatus.unsupported
        else DcStatus.protocol) := by
  unfold hw_ostc3_transfer serialRead
  have hrx : (1 : Nat) ≤ (e :: rest).length := by simp
  rw [if_neg (by simp : ¬(false = true)), if_pos hrx]
  simp only [List.take_succ_cons, List.take_zero]
  rw [if_pos (show [e] ≠ [cmd] by simpa using h)]
  by_cases he : e = (if state = HwOstc3State.SERVICE then 0x4C else 0x4D)
  · rw [if_pos (by simpa using he), if_pos he]
  · rw [if_neg (by simpa using he), if_neg he]

/-- A mismatched echo equal to the ready byte of an open session is
reported as `Unsupported` on a concrete transfer. -/
theorem C4_transfer_echo_mismatch_witness :
    hw_ostc3_transfer HwOstc3State.OPEN false ⟨[0x4D], []⟩ 0x42 none none =
      Except.error DcStatus.unsupported := by
  have h := C4_transfer_echo_mismatch HwOstc3State.OPEN [] [] 0x42 0x4D none
    none (by decide)
  simpa using h

/-- All-zero logbook memory for the C2 evaluation. -/
def C2header : Mem := fun _ => 0

/-- A DIVE transfer whose returned profile starts with a byte that
differs from the logbook header entry. -/
def C2dive : Nat → Nat → Except DcStatus (List Nat) := fun _ _ => .ok [1]

/-- C2 (code bug, src/hw_ostc3.c:698-703 and src/hw_frog.c:471-478): on
a logbook/profile header mismatch the download loop executes
`return rc` while `rc` still holds `DC_STATUS_SUCCESS`, so foreach
reports `Success` instead of the `Protocol` error the spec requires.
The concrete run below hits the mismatch branch (the profile and the
logbook entry differ in their first byte) and returns `Success` with no
callback invocation. -/
theorem C2_header_mismatch_returns_success :
    hw_ostc3_download C2header hw_ostc3_logbook_full false 0 1 C2dive
        (some fun _ _ _ => true) 0 = (DcStatus.success, []) ∧
    hw_frog_download C2header 0 1 C2dive (some fun _ _ _ => true) 0 =
      (DcStatus.success, []) ∧
    memEqual (listMem [1]) 0 C2header 0 256 = false := by
  refine ⟨?_, ?_, by decide⟩
  · rw [hw_ostc3_download]
    norm_num [C2dive]
    intro hm
    exact absurd hm (by decide)
  · rw [hw_frog_download]
    norm_num [C2dive]
    intro hm
    exact absurd hm (by decide)

/-- C6: whenever the decoded year is below 2010 and the host clock
reports a local year of at least 2010, `get_datetime` returns the
decoded year completed with the host's decade, minus 10 when the
decoded year modulo 10 exceeds the host year modulo 10 — and it does
so for EVERY model of the family, not only for models that store the
year in three bits: `model` is universally quantified here, and the
counterexample below exhibits the adjustment on the TX1, whose year
field is a full BCD byte. -/
theorem C6_year2010_heuristic (model : Nat) (data : Mem) (size ny : Nat)
    (hsize : 32 ≤ size) (hny : 2010 ≤ ny) :
    oceanic_atom2_parser_get_datetime model data size (some ny) =
      Except.ok
        { oceanic_atom2_datetime_raw model data with
          year :=
            if (oceanic_atom2_datetime_raw model data).year < 2010 then
              (oceanic_atom2_datetime_raw model data).year +
                (if (oceanic_atom2_datetime_raw model data).year % 10 > ny % 10
                 then ny / 10 * 10 - 10 else ny / 10 * 10) - 2000
            else (oceanic_atom2_datetime_raw model data).year } := by
  unfold oceanic_atom2_parser_get_datetime
  rw [if_neg (by split_ifs <;> omega)]
  unfold oceanic_atom2_year2010
  split_ifs <;> simp_all <;> rw [if_neg (by omega)]

/-- Memory blob of a TX1 dive header whose decoded date is
2005-03-12 07:30. -/
def C6data : Mem := fun a =>
  if a = 13 then 0x05 else if a = 14 then 0x03 else if a = 15 then 0x12
  else if a = 11 then 7 else if a = 10 then 30 else 0

/-- The heuristic instantiated on the TX1 blob with a 2026 host. -/
theorem C6_year2010_heuristic_witness :
    oceanic_atom2_parser_get_datetime TX1 C6data 32 (some 2026) =
      Except.ok
        { year := 2025, month := 3, day := 12, hour := 7, minute := 30,
          second := 0 } := by
  have h := C6_year2010_heuristic TX1 C6data 32 2026 (by decide) (by decide)
  rw [h]
  rfl

/-- The TX1 stores the year as a full BCD byte, not in three bits, yet
the year-2010 workaround still fires for it: the decoded year 2005 is
rewritten to 2025 under a 2026 host clock, refuting the claim's
"applied only for models that store the year in three bits". -/
theorem C6_counterexample :
    (oceanic_atom2_datetime_raw TX1 C6data).year = 2005 ∧
    (oceanic_atom2_parser_get_datetime TX1 C6data 32 (some 2026)).map
        DcDatetime.year = Except.ok 2025 := by
  decide

/-- Modelled from the spec: the exact (unreduced) sum of the running
prefix sums of the checksum loop, with the low accumulator already at
`low` when the list starts. -/
def checksum_high : List Nat → Nat → Nat
  | [], _ => 0
  | b :: bs, low => (low + b) + checksum_high bs (low + b)

/-- The reduced checksum fold equals the exact sums reduced once at the
end. -/
theorem hw_ostc3_firmware_checksum_fold (bs : List Nat) :
    ∀ lo hi : Nat,
      bs.foldl
        (fun (p : Nat × Nat) b =>
          let low := (p.1 + b) % 65536
          (low, (p.2 + low) % 65536)) (lo % 65536, hi % 65536) =
      ((lo + bs.sum) % 65536, (hi + checksum_high bs lo) % 65536) := by
  induction bs with
  | nil => intro lo hi; simp [checksum_high]
  | cons b bs ih =>
    intro lo hi
    rw [List.foldl_cons]
    have e1 : (lo % 65536 + b) % 65536 = (lo + b) % 65536 := by omega
    have e2 : (hi % 65536 + (lo + b) % 65536) % 65536 =
        (hi + (lo + b)) % 65536 := by omega
    simp only [e1, e2]
    rw [ih (lo + b) (hi + (lo + b))]
    simp only [List.sum_cons, checksum_high, Prod.mk.injEq]
    constructor <;> omega

/-- The exact high accumulator is the sum of the offset prefix sums. -/
theorem checksum_high_take (bs : List Nat) :
    ∀ low : Nat,
      checksum_high bs low =
        ((List.range bs.length).map
          fun i => low + (bs.take (i + 1)).sum).sum := by
  induction bs with
  | nil => intro low; simp [checksum_high]
  | cons b bs ih =>
    intro low
    simp only [checksum_high, List.length_cons, List.range_succ_eq_map,
      List.map_cons, List.map_map, List.sum_cons, List.take_succ_cons,
      List.take_zero, List.sum_nil, Nat.add_zero]
    rw [ih (low + b)]
    congr 1
    refine congrArg List.sum ?_
    apply List.map_congr_left
    intro i _
    simp [List.take_succ_cons, Nat.add_assoc]

/-- Degenerate AES block primitive for the concrete firmware-file
evaluations: every encryption returns the zero block, so the XOR
feedback decrypts each record to its literal payload. -/
def C7aes : List Nat → List Nat → List Nat := fun _ _ => List.replicate 16 0

/-- A complete miniature firmware file for a 16-byte image: the
16-byte IV record at address `000000`, one 16-byte ciphertext record
at address `000010`, and the trailing 4-byte checksum record at
address `000020` whose 8 payload hex characters are `cs`.  All data
payloads are ASCII `0`, so the plaintext is sixteen zero bytes with
checksum 0.  Total length 93 bytes. -/
def C7bytes (cs : List Nat) : List Nat :=
  [0x3A, 0x30, 0x30, 0x30, 0x30, 0x30, 0x30] ++ List.replicate 32 0x30 ++
  [0x3A, 0x30, 0x30, 0x30, 0x30, 0x31, 0x30] ++ List.replicate 32 0x30 ++
  [0x3A, 0x30, 0x30, 0x30, 0x30, 0x32, 0x30] ++ cs

set_option maxRecDepth 8000 in
set_option maxHeartbeats 4000000 in
/-- C7: the OSTC3 firmware checksum is `high * 2^16 + low` with `low`
the byte sum modulo 2^16 and `high` the sum of the running prefix sums
modulo 2^16; on the spec's example `[0x01, 0x02, 0x03]` it evaluates
to `0x000A0006`; a firmware file accepted by
`hw_ostc3_firmware_readfile` carries in its trailing 32-bit record
exactly this checksum of the decrypted plaintext; whenever the IV
record, the image blocks and the trailing record all read back but the
stored little-endian 32-bit value differs from the computed checksum,
`hw_ostc3_firmware_readfile` returns `DataFormat`; and both outcomes
are reachable: the miniature file with stored checksum 0 loads
successfully, while the same file with stored checksum 1 fails with
`DataFormat`. -/
theorem C7_firmware_checksum (bs : List Nat) :
    hw_ostc3_firmware_checksum bs =
      (((List.range bs.length).map fun i => (bs.take (i + 1)).sum).sum % 65536)
        * 65536 + bs.sum % 65536 ∧
    hw_ostc3_firmware_checksum [0x01, 0x02, 0x03] = 0x000A0006 ∧
    (∀ aes file flen plain cs,
      hw_ostc3_firmware_readfile aes file flen = Except.ok (plain, cs) →
      cs = hw_ostc3_firmware_checksum plain) ∧
    (∀ aes file flen iv pos0 plain bytesEnd pos1 csB p2,
      hw_ostc3_firmware_readline file flen 0 0 16 = Except.ok (iv, pos0) →
      hw_ostc3_firmware_read_blocks aes file flen SZ_FIRMWARE 0 16 pos0
          (aes iv ostc3_key) [] = Except.ok (plain, bytesEnd, pos1) →
      hw_ostc3_firmware_readline file flen pos1 bytesEnd 4 =
          Except.ok (csB, p2) →
      array_uint32_le (listMem csB) 0 ≠ hw_ostc3_firmware_checksum plain →
      hw_ostc3_firmware_readfile aes file flen =
        Except.error DcStatus.dataformat) ∧
    hw_ostc3_firmware_readfile_sz C7aes 16
        (listMem (C7bytes (List.replicate 8 0x30))) 93 =
      Except.ok (List.replicate 16 0, 0) ∧
    hw_ostc3_firmware_readfile_sz C7aes 16
        (listMem (C7bytes ([0x30, 0x31] ++ List.replicate 6 0x30))) 93 =
      Except.error DcStatus.dataformat := by
  refine ⟨?_, by decide, ?_, ?_, ?_, ?_⟩
  · unfold hw_ostc3_firmware_checksum
    have h := hw_ostc3_firmware_checksum_fold bs 0 0
    simp only [Nat.zero_mod, Nat.zero_add] at h
    rw [h, checksum_high_take bs 0]
    simp
  · intro aes file flen plain cs h
    unfold hw_ostc3_firmware_readfile hw_ostc3_firmware_readfile_sz at h
    rcases hiv : hw_ostc3_firmware_readline file flen 0 0 16 with _ | ⟨iv, pos0⟩ <;>
      rw [hiv] at h <;> dsimp only at h
    · simp at h
    · rcases hbl : hw_ostc3_firmware_read_blocks aes file flen SZ_FIRMWARE 0 16 pos0
          (aes iv ostc3_key) [] with _ | ⟨pl, bytesEnd, pos1⟩ <;>
        rw [hbl] at h <;> dsimp only at h
      · simp at h
      · rcases hcs : hw_ostc3_firmware_readline file flen pos1 bytesEnd 4 with _ | ⟨csB, p2⟩ <;>
          rw [hcs] at h <;> dsimp only at h
        · simp at h
        · split at h
          · simp at h
          · rename_i hne
            simp only [Except.ok.injEq, Prod.mk.injEq] at h
            obtain ⟨h1, h2⟩ := h
            subst h1
            subst h2
            omega
  · intro aes file flen iv pos0 plain bytesEnd pos1 csB p2 h1 h2 h3 hne
    unfold hw_ostc3_firmware_readfile hw_ostc3_firmware_readfile_sz
    rw [h1]
    dsimp only
    rw [h2]
    dsimp only
    rw [h3]
    dsimp only
    rw [if_pos hne]
  · simp +decide [hw_ostc3_firmware_readfile_sz,
      hw_ostc3_firmware_read_blocks, hw_ostc3_firmware_readline,
      hw_ostc3_firmware_scanstart, array_convert_hex2bin, hexdig,
      memBytes, listMem, C7bytes, C7aes, array_uint24_be, array_uint32_le,
      hw_ostc3_firmware_checksum, ostc3_key, List.replicate]
  · simp +decide [hw_ostc3_firmware_readfile_sz,
      hw_ostc3_firmware_read_blocks, hw_ostc3_firmware_readline,
      hw_ostc3_firmware_scanstart, array_convert_hex2bin, hexdig,
      memBytes, listMem, C7bytes, C7aes, array_uint24_be, array_uint32_le,
      hw_ostc3_firmware_checksum, ostc3_key, List.replicate]

/-- `find_gasmix` never runs past the table. -/
theorem shearwater_predator_find_gasmix_le (m : List (Nat × Nat))
    (o2 he : Nat) : shearwater_predator_find_gasmix m o2 he ≤ m.length := by
  induction m with
  | nil => simp [shearwater_predator_find_gasmix]
  | cons a m ih =>
    simp only [shearwater_predator_find_gasmix, List.length_cons]
    split
    · omega
    · omega

/-- `find_gasmix` hits inside the table exactly for a present pair. -/
theorem shearwater_predator_find_gasmix_lt (m : List (Nat × Nat))
    (o2 he : Nat) :
    shearwater_predator_find_gasmix m o2 he < m.length ↔ (o2, he) ∈ m := by
  induction m with
  | nil => simp [shearwater_predator_find_gasmix]
  | cons a m ih =>
    simp only [shearwater_predator_find_gasmix, List.length_cons,
      List.mem_cons]
    split
    · rename_i hq
      have : (o2, he) = a := by
        obtain ⟨h1, h2⟩ := hq
        exact Prod.ext h1 h2
      simp [this]
    · rename_i hq
      constructor
      · intro hlt
        right
        exact ih.1 (by omega)
      · intro hmem
        rcases hmem with heq | hmem
        · exact absurd ⟨congrArg Prod.fst heq, congrArg Prod.snd heq⟩ hq
        · have := ih.2 hmem
          omega

/-- The gas-mix table built by the Shearwater pre-scan stays duplicate
free and at most 10 entries long (`fuel` bounds the walk). -/
theorem shearwater_cache_scan_table (petrel : Bool) (data : Mem)
    (length : Nat) :
    ∀ fuel offset prev mode m M modeF, length ≤ offset + fuel →
      shearwater_cache_scan petrel data length offset prev mode m =
        Except.ok (M, modeF) →
      m.Nodup → m.length ≤ 10 → M.Nodup ∧ M.length ≤ 10 := by
  intro fuel
  induction fuel with
  | zero =>
    intro offset prev mode m M modeF hf h hn hl
    rw [shearwater_cache_scan] at h
    rw [if_neg (by omega)] at h
    simp only [Except.ok.injEq, Prod.mk.injEq] at h
    obtain ⟨h1, -⟩ := h
    subst h1
    exact ⟨hn, hl⟩
  | succ fuel ih =>
    intro offset prev mode m M modeF hf h hn hl
    rw [shearwater_cache_scan] at h
    by_cases hofs : offset < length
    case neg =>
      rw [if_neg hofs] at h
      simp only [Except.ok.injEq, Prod.mk.injEq] at h
      obtain ⟨h1, -⟩ := h
      subst h1
      exact ⟨hn, hl⟩
    case pos =>
      rw [if_pos hofs] at h
      have hsz : 16 ≤ shearwater_samplesize petrel := by
        unfold shearwater_samplesize
        split <;> omega
      split at h
      · exact ih _ _ _ _ _ _ (by omega) h hn hl
      · dsimp only at h
        split at h
        · split at h
          · split at h
            · simp at h
            · rename_i hch hge h10
              have hnotmem : (data (offset + 7), data (offset + 8)) ∉ m := by
                intro hmem
                have := (shearwater_predator_find_gasmix_lt m _ _).2 hmem
                omega
              refine ih _ _ _ _ _ _ (by omega) h ?_ ?_
              · simp [List.nodup_append, hn, hnotmem]
              · have := shearwater_predator_find_gasmix_le m
                  (data (offset + 7)) (data (offset + 8))
                simp only [List.length_append, List.length_cons,
                  List.length_nil]
                omega
          · exact ih _ _ _ _ _ _ (by omega) h hn hl
        · exact ih _ _ _ _ _ _ (by omega) h hn hl

/-- Predator blob whose three sample records carry the `(O2, He)` pairs
`(21,0)`, `(32,0)`, `(21,0)` (header 128 bytes, footer 128 bytes). -/
def C5data : Mem := fun a =>
  if a = 135 then 21 else if a = 151 then 32 else if a = 167 then 21
  else if a = 139 then 0x10 else if a = 155 then 0x10
  else if a = 171 then 0x10 else 0

/-- Predator blob with eleven sample records carrying eleven distinct
`(O2, He)` pairs `(1,0) … (11,0)`. -/
def C5wide : Mem := fun a =>
  if a ≥ 128 ∧ a < 304 ∧ (a - 128) % 16 = 7 then (a - 128) / 16 + 1
  else if a ≥ 128 ∧ a < 304 ∧ (a - 128) % 16 = 11 then 0x10
  else 0

/-- C5: the Shearwater pre-scan keeps its gas-mix table duplicate free
and at most 10 entries long, failing with `NoMemory` at the eleventh
recorded pair, and on the spec's example profile `(21,0)`, `(32,0)`,
`(21,0)` it caches two mixes while the sample loop emits the `GasMix`
indices `[0, 1, 0]`.  A pair is recorded only when it differs from the
running previous pair, which starts at `(0, 0)`: the counterexample
shows a leading `(0, 0)` sample pair that is silently skipped, so the
table is not always "the distinct pairs in order of first
appearance". -/
theorem C5_gasmix_dedup (petrel : Bool) (data : Mem) (size : Nat) :
    (∀ c, shearwater_predator_parser_cache petrel data size = Except.ok c →
      c.mixes.Nodup ∧ c.mixes.length ≤ 10) ∧
    (shearwater_predator_parser_cache false C5data 304).map
      ShearwaterCache.mixes = Except.ok [(21, 0), (32, 0)] ∧
    (shearwater_predator_parser_samples_foreach false C5data 304).map
      (fun r => gasmixesOf r.1) = Except.ok [0, 1, 0] ∧
    shearwater_predator_parser_cache false C5wide 432 =
      Except.error DcStatus.nomemory := by
  refine ⟨?_, ?_, ?_, ?_⟩
  · intro c h
    unfold shearwater_predator_parser_cache at h
    dsimp only at h
    repeat' split at h
    all_goals try (simp at h; done)
    all_goals rename_i hscan
    all_goals simp only [Except.ok.injEq] at h
    all_goals subst h
    all_goals dsimp only
    all_goals have hst := fun hb hm1 hm2 =>
      shearwater_cache_scan_table _ _ _ size _ _ _ _ _ _ hb hscan hm1 hm2
    all_goals exact hst (by omega) (by simp) (by simp)
  · simp +decide [shearwater_predator_parser_cache, shearwater_cache_scan,
      C5data, array_isequal, array_uint16_be, shearwater_samplesize,
      shearwater_predator_find_gasmix]
  · simp +decide [shearwater_predator_parser_samples_foreach,
      shearwater_predator_parser_cache, shearwater_cache_scan,
      shearwater_run, shearwater_step, shearwater_gaschange, C5data,
      array_isequal, array_uint16_be, shearwater_samplesize,
      shearwater_predator_find_gasmix, gasmixesOf, shearwater_temperature]
  · simp +decide [shearwater_predator_parser_cache, shearwater_cache_scan,
      C5wide, array_isequal, array_uint16_be, shearwater_samplesize,
      shearwater_predator_find_gasmix]

/-- Predator blob whose first sample record carries the pair `(0, 0)`
(and is not all zero: its status byte is set), followed by a `(21, 0)`
record. -/
def C5zero : Mem := fun a =>
  if a = 139 then 0x10 else if a = 151 then 21
  else if a = 155 then 0x10 else 0

/-- A profile whose first (non-empty) sample record carries the pair
`(0, 0)` refutes "collects the distinct `(O2, He)` pairs in order of
first appearance": the pair `(0, 0)` occurs in the profile yet the
cached table is `[(21, 0)]` — one mix, not two. -/
theorem C5_counterexample :
    (shearwater_predator_parser_cache false C5zero 288).map
      ShearwaterCache.mixes = Except.ok [(21, 0)] ∧
    (C5zero 135, C5zero 136) = (0, 0) ∧
    array_isequal C5zero 128 16 0x00 = false := by
  refine ⟨?_, by decide, by decide⟩
  simp +decide [shearwater_predator_parser_cache, shearwater_cache_scan,
    C5zero, array_isequal, array_uint16_be, shearwater_samplesize,
    shearwater_predator_find_gasmix]

/-- A successful Shearwater pre-scan only ever appends to its gas-mix
table: the starting table is a prefix of the final one. -/
theorem shearwater_cache_scan_grows (petrel : Bool) (data : Mem)
    (length : Nat) :
    ∀ fuel offset prev mode m M modeF, length ≤ offset + fuel →
      shearwater_cache_scan petrel data length offset prev mode m =
        Except.ok (M, modeF) →
      m <+: M := by
  intro fuel
  induction fuel with
  | zero =>
    intro offset prev mode m M modeF hf h
    rw [shearwater_cache_scan] at h
    rw [if_neg (by omega)] at h
    simp only [Except.ok.injEq, Prod.mk.injEq] at h
    obtain ⟨h1, -⟩ := h
    subst h1
    exact ⟨[], by simp⟩
  | succ fuel ih =>
    intro offset prev mode m M modeF hf h
    rw [shearwater_cache_scan] at h
    by_cases hofs : offset < length
    case neg =>
      rw [if_neg hofs] at h
      simp only [Except.ok.injEq, Prod.mk.injEq] at h
      obtain ⟨h1, -⟩ := h
      subst h1
      exact ⟨[], by simp⟩
    case pos =>
      rw [if_pos hofs] at h
      have hsz : 16 ≤ shearwater_samplesize petrel := by
        unfold shearwater_samplesize
        split <;> omega
      split at h
      · exact ih _ _ _ _ _ _ (by omega) h
      · dsimp only at h
        split at h
        · split at h
          · split at h
            · simp at h
            · have hgrow := ih _ _ _ _ _ _ (by omega) h
              exact List.IsPrefix.trans
                ⟨[(data (offset + 7), data (offset + 8))], rfl⟩ hgrow
          · exact ih _ _ _ _ _ _ (by omega) h
        · exact ih _ _ _ _ _ _ (by omega) h

/-- A gas change to a pair present in the cached table succeeds. -/
theorem shearwater_gaschange_of_mem (M : List (Nat × Nat)) (prev : Nat × Nat)
    (o2 he : Nat) (hmem : (o2, he) ∈ M) (hch : o2 ≠ prev.1 ∨ he ≠ prev.2) :
    shearwater_gaschange M prev o2 he =
      Except.ok ([DcSample.gasmix (shearwater_predator_find_gasmix M o2 he)],
        (o2, he)) := by
  have hlt := (shearwater_predator_find_gasmix_lt M o2 he).2 hmem
  unfold shearwater_gaschange
  rw [if_pos hch, if_neg (by omega)]

/-- A gas "change" to the running previous pair is a no-op. -/
theorem shearwater_gaschange_same (M : List (Nat × Nat)) (prev : Nat × Nat)
    (o2 he : Nat) (h1 : o2 = prev.1) (h2 : he = prev.2) :
    shearwater_gaschange M prev o2 he = Except.ok ([], prev) := by
  unfold shearwater_gaschange
  rw [if_neg (by simp [h1, h2])]

/-- If the pre-scan from a state succeeds producing the cached table,
then the sample loop from the same state never hits its gas-mix
`DataFormat` branch: it runs to completion. -/
theorem shearwater_scan_run_sim (petrel : Bool) (data : Mem) (length : Nat)
    (c : ShearwaterCache) :
    ∀ fuel offset prev mode m modeF, length ≤ offset + fuel →
      shearwater_cache_scan petrel data length offset prev mode m =
        Except.ok (c.mixes, modeF) →
      m <+: c.mixes →
      ∀ t, ∃ r, shearwater_run petrel data length c offset prev t =
        Except.ok r := by
  intro fuel
  induction fuel with
  | zero =>
    intro offset prev mode m modeF hf h hm t
    have hstep : shearwater_step petrel data length c offset prev t =
        Except.ok none := by
      unfold shearwater_step
      rw [if_neg (by omega)]
    rcases hrun : shearwater_run petrel data length c offset prev t with e | r
    · exfalso
      rw [shearwater_run] at hrun
      split at hrun
      · rename_i heq
        rw [hstep] at heq
        simp at heq
      · simp at hrun
      · rename_i heq
        rw [hstep] at heq
        simp at heq
    · exact ⟨r, rfl⟩
  | succ fuel ih =>
    intro offset prev mode m modeF hf h hm t
    rcases hrun : shearwater_run petrel data length c offset prev t with e | r
    case ok => exact ⟨r, rfl⟩
    case error =>
    exfalso
    rw [shearwater_cache_scan] at h
    by_cases hofs : offset < length
    case neg =>
      have hstep : shearwater_step petrel data length c offset prev t =
          Except.ok none := by
        unfold shearwater_step
        rw [if_neg hofs]
      rw [shearwater_run] at hrun
      split at hrun
      · rename_i heq
        rw [hstep] at heq
        simp at heq
      · simp at hrun
      · rename_i heq
        rw [hstep] at heq
        simp at heq
    case pos =>
      rw [if_pos hofs] at h
      have hsz : 16 ≤ shearwater_samplesize petrel := by
        unfold shearwater_samplesize
        split <;> omega
      by_cases hzero :
          array_isequal data offset (shearwater_samplesize petrel) 0x00 = true
      case pos =>
        rw [if_pos hzero] at h
        have hstep : shearwater_step petrel data length c offset prev t =
            Except.ok (some ((offset + shearwater_samplesize petrel, prev, t),
              [])) := by
          unfold shearwater_step
          rw [if_pos hofs, if_pos hzero]
        obtain ⟨r0, hr0⟩ := ih _ _ _ _ _ (by omega) h hm t
        rw [shearwater_run] at hrun
        split at hrun
        · rename_i heq
          rw [hstep] at heq
          simp at heq
        · simp at hrun
        · rename_i s1 out heq
          rw [hstep] at heq
          simp only [Except.ok.injEq, Option.some.injEq, Prod.mk.injEq] at heq
          obtain ⟨h1, -⟩ := heq
          obtain ⟨h1a, h1b⟩ := h1
          rw [← h1a, ← h1b.1, ← h1b.2] at hrun
          rw [hr0] at hrun
          simp at hrun
      case neg =>
        rw [if_neg hzero] at h
        dsimp only at h
        by_cases hch : data (offset + 7) ≠ prev.1 ∨ data (offset + 8) ≠ prev.2
        case pos =>
          rw [if_pos hch] at h
          by_cases hfound :
              shearwater_predator_find_gasmix m (data (offset + 7))
                (data (offset + 8)) ≥ m.length
          case pos =>
            rw [if_pos hfound] at h
            by_cases hcap :
                shearwater_predator_find_gasmix m (data (offset + 7))
                  (data (offset + 8)) ≥ 10
            case pos =>
              rw [if_pos hcap] at h
              simp at h
            case neg =>
              rw [if_neg hcap] at h
              have hm1 : m ++ [(data (offset + 7), data (offset + 8))] <+:
                  c.mixes :=
                shearwater_cache_scan_grows petrel data length fuel _ _ _ _ _ _
                  (by omega) h
              have hmem : (data (offset + 7), data (offset + 8)) ∈ c.mixes :=
                hm1.sublist.subset (by simp)
              have hgc := shearwater_gaschange_of_mem c.mixes prev
                (data (offset + 7)) (data (offset + 8)) hmem hch
              obtain ⟨r0, hr0⟩ := ih _ _ _ _ _ (by omega) h hm1 (t + 10)
              rw [shearwater_run] at hrun
              split at hrun
              · rename_i heq
                unfold shearwater_step at heq
                rw [if_pos hofs, if_neg hzero, hgc] at heq
                simp at heq
              · simp at hrun
              · rename_i s1 out heq
                unfold shearwater_step at heq
                rw [if_pos hofs, if_neg hzero, hgc] at heq
                simp only [Except.ok.injEq, Option.some.injEq,
                  Prod.mk.injEq] at heq
                obtain ⟨h1, -⟩ := heq
                obtain ⟨h1a, h1b⟩ := h1
                rw [← h1a, ← h1b.1, ← h1b.2] at hrun
                rw [hr0] at hrun
                simp at hrun
          case neg =>
            rw [if_neg hfound] at h
            have hmemm : (data (offset + 7), data (offset + 8)) ∈ m :=
              (shearwater_predator_find_gasmix_lt m _ _).1 (by omega)
            have hmem : (data (offset + 7), data (offset + 8)) ∈ c.mixes :=
              hm.sublist.subset hmemm
            have hgc := shearwater_gaschange_of_mem c.mixes prev
              (data (offset + 7)) (data (offset + 8)) hmem hch
            obtain ⟨r0, hr0⟩ := ih _ _ _ _ _ (by omega) h hm (t + 10)
            rw [shearwater_run] at hrun
            split at hrun
            · rename_i heq
              unfold shearwater_step at heq
              rw [if_pos hofs, if_neg hzero, hgc] at heq
              simp at heq
            · simp at hrun
            · rename_i s1 out heq
              unfold shearwater_step at heq
              rw [if_pos hofs, if_neg hzero, hgc] at heq
              simp only [Except.ok.injEq, Option.some.injEq,
                Prod.mk.injEq] at heq
              obtain ⟨h1, -⟩ := heq
              obtain ⟨h1a, h1b⟩ := h1
              rw [← h1a, ← h1b.1, ← h1b.2] at hrun
              rw [hr0] at hrun
              simp at hrun
        case neg =>
          rw [if_neg hch] at h
          push_neg at hch
          have hgc := shearwater_gaschange_same c.mixes prev
            (data (offset + 7)) (data (offset + 8)) hch.1 hch.2
          obtain ⟨r0, hr0⟩ := ih _ _ _ _ _ (by omega) h hm (t + 10)
          rw [shearwater_run] at hrun
          split at hrun
          · rename_i heq
            unfold shearwater_step at heq
            rw [if_pos hofs, if_neg hzero, hgc] at heq
            simp at heq
          · simp at hrun
          · rename_i s1 out heq
            unfold shearwater_step at heq
            rw [if_pos hofs, if_neg hzero, hgc] at heq
            simp only [Except.ok.injEq, Option.some.injEq,
              Prod.mk.injEq] at heq
            obtain ⟨h1, -⟩ := heq
            obtain ⟨h1a, h1b⟩ := h1
            rw [← h1a, ← h1b.1, ← h1b.2] at hrun
            rw [hr0] at hrun
            simp at hrun

set_option maxRecDepth 4000 in
set_option maxHeartbeats 1000000 in
/-- C10: if the Shearwater header/gas-table cache pass succeeds on a
blob, the subsequent sample loop over the same blob never reaches its
"Invalid gas mix" `DataFormat` branch: every `(O2, He)` change it
encounters is already in the cached table (the loop walks the same
records under the same change condition the pre-scan used to build the
table), so `samples_foreach` runs to completion. -/
theorem C10_gasmix_lookup_total (petrel : Bool) (data : Mem) (size : Nat)
    (c : ShearwaterCache)
    (h : shearwater_predator_parser_cache petrel data size = Except.ok c) :
    ∃ r, shearwater_predator_parser_samples_foreach petrel data size =
      Except.ok r := by
  unfold shearwater_predator_parser_samples_foreach
  rw [h]
  unfold shearwater_predator_parser_cache at h
  dsimp only at h
  repeat' split at h
  all_goals try (simp at h; done)
  all_goals rename_i mixes mode hscan
  all_goals simp only [Except.ok.injEq] at h
  all_goals subst h
  all_goals dsimp only
  all_goals first
  | exact shearwater_scan_run_sim petrel data (size - 256) _ size 128 (0, 0) 2 [] mode (by omega) hscan ⟨mixes, rfl⟩ 0
  | exact shearwater_scan_run_sim petrel data (size - 128) _ size 128 (0, 0) 2 [] mode (by omega) hscan ⟨mixes, rfl⟩ 0

/-- All-zero 256-byte Predator blob: the cache pass succeeds with an
empty gas table and the sample loop is over an empty region. -/
def C10data : Mem := fun _ => 0

/-- The lookup-totality applied to the all-zero blob. -/
theorem C10_gasmix_lookup_total_witness :
    ∃ r, shearwater_predator_parser_samples_foreach false C10data 256 =
      Except.ok r := by
  apply C10_gasmix_lookup_total false C10data 256
    ⟨128, 128, [], 2, 1024, 1024, 1024⟩
  simp +decide [shearwater_predator_parser_cache, shearwater_cache_scan,
    C10data, array_uint16_be]

/-- Concatenation of two nondecreasing runs separated by a bound. -/
theorem chain_le_append (bnd : Nat) :
    ∀ l1 l2 : List Nat, List.Chain' (· ≤ ·) l1 → List.Chain' (· ≤ ·) l2 →
      (∀ x ∈ l1, x ≤ bnd) → (∀ y ∈ l2, bnd ≤ y) →
      List.Chain' (· ≤ ·) (l1 ++ l2) := by
  intro l1
  induction l1 with
  | nil =>
    intro l2 _ h2 _ _
    simpa using h2
  | cons a l ih =>
    intro l2 h1 h2 hb1 hb2
    rw [List.chain'_cons'] at h1
    have htail := ih l2 h1.2 h2
      (fun x hx => hb1 x (List.mem_cons_of_mem a hx)) hb2
    rw [List.cons_append, List.chain'_cons']
    refine ⟨?_, htail⟩
    intro y hy
    cases l with
    | nil =>
      have hy2 : y ∈ l2 := by
        rw [List.nil_append] at hy
        rcases l2 with _ | ⟨c, l2⟩
        · simp at hy
        · simp at hy
          simp [hy]
      exact le_trans (hb1 a (by simp)) (hb2 y hy2)
    | cons b l =>
      simp only [List.cons_append, List.head?_cons, Option.mem_def,
        Option.some.injEq] at hy
      subst hy
      exact h1.1 b (by simp)

/-- A Shearwater gas change emits no `Time` sample. -/
theorem shearwater_gaschange_times {M : List (Nat × Nat)} {prev : Nat × Nat}
    {o2 he : Nat} {out : List DcSample} {p1 : Nat × Nat}
    (h : shearwater_gaschange M prev o2 he = Except.ok (out, p1)) :
    timesOf out = [] := by
  unfold shearwater_gaschange at h
  split at h
  · dsimp only at h
    split at h
    · simp at h
    · simp only [Except.ok.injEq, Prod.mk.injEq] at h
      obtain ⟨h1, -⟩ := h
      subst h1
      rfl
  · simp only [Except.ok.injEq, Prod.mk.injEq] at h
    obtain ⟨h1, -⟩ := h
    subst h1
    rfl

/-- The time accounting of one Shearwater loop step: the accumulator
never decreases, and the step emits either no `Time` sample (empty
record, accumulator unchanged) or exactly the new accumulator value
reduced modulo 2^32 (accumulator advanced by 10). -/
theorem shearwater_step_times {p : Bool} {d : Mem} {len : Nat}
    {c : ShearwaterCache} {off : Nat} {prev : Nat × Nat} {t off1 t1 : Nat}
    {prev1 : Nat × Nat} {out : List DcSample}
    (h : shearwater_step p d len c off prev t =
      Except.ok (some ((off1, prev1, t1), out))) :
    timesOf out = [] ∧ t1 = t ∨
      timesOf out = [t1 % 4294967296] ∧ t1 = t + 10 := by
  unfold shearwater_step at h
  split at h
  case isFalse => simp at h
  case isTrue =>
    split at h
    · simp only [Except.ok.injEq, Option.some.injEq, Prod.mk.injEq] at h
      obtain ⟨⟨-, -, h3⟩, h4⟩ := h
      subst h3
      subst h4
      exact Or.inl ⟨rfl, rfl⟩
    · split at h
      · simp at h
      · rename_i outGm prev' hgc
        simp only [Except.ok.injEq, Option.some.injEq, Prod.mk.injEq] at h
        obtain ⟨⟨-, -, h3⟩, h4⟩ := h
        subst h3
        subst h4
        right
        refine ⟨?_, rfl⟩
        have hgm := shearwater_gaschange_times hgc
        simp only [timesOf] at hgm ⊢
        simp only [List.filterMap_append, List.filterMap_cons, hgm]
        split_ifs <;> simp

/-- Time monotonicity of the Shearwater sample loop: the accumulator
never decreases, and while it stays below 2^32 the emitted `Time`
payloads are nondecreasing and bracketed by the starting and final
accumulator values. -/
theorem shearwater_run_times (p : Bool) (d : Mem) (len : Nat)
    (c : ShearwaterCache) :
    ∀ fuel off prev t out tfin, len ≤ off + fuel →
      shearwater_run p d len c off prev t = Except.ok (out, tfin) →
      t ≤ tfin ∧ (tfin < 4294967296 →
        List.Chain' (· ≤ ·) (timesOf out) ∧
        ∀ u ∈ timesOf out, t ≤ u ∧ u ≤ tfin) := by
  intro fuel
  induction fuel with
  | zero =>
    intro off prev t out tfin hf h
    rw [shearwater_run] at h
    split at h
    · simp at h
    · simp only [Except.ok.injEq, Prod.mk.injEq] at h
      obtain ⟨h1, h2⟩ := h
      subst h1
      subst h2
      exact ⟨le_refl t, fun _ => ⟨by simp [timesOf], by simp [timesOf]⟩⟩
    · rename_i s1 out0 heq
      have hadv := shearwater_step_advance heq
      omega
  | succ fuel ih =>
    intro off prev t out tfin hf h
    rw [shearwater_run] at h
    split at h
    · simp at h
    · simp only [Except.ok.injEq, Prod.mk.injEq] at h
      obtain ⟨h1, h2⟩ := h
      subst h1
      subst h2
      exact ⟨le_refl t, fun _ => ⟨by simp [timesOf], by simp [timesOf]⟩⟩
    · rename_i off1 prev1 t1 out0 heq
      split at h
      · simp at h
      · rename_i rest tfin0 heq2
        simp only [Except.ok.injEq, Prod.mk.injEq] at h
        obtain ⟨h1, h2⟩ := h
        subst h1
        subst h2
        have hadv := shearwater_step_advance heq
        have hsz : 16 ≤ shearwater_samplesize p := by
          unfold shearwater_samplesize
          split <;> omega
        have hih := ih _ _ _ _ _ (by omega) heq2
        have hstt := shearwater_step_times heq
        have happ : timesOf (out0 ++ rest) = timesOf out0 ++ timesOf rest := by
          simp [timesOf]
        have ht1 : t ≤ t1 := by rcases hstt with ⟨-, h⟩ | ⟨-, h⟩ <;> omega
        refine ⟨by omega, fun hlt => ?_⟩
        obtain ⟨hch, hbd⟩ := hih.2 hlt
        rw [happ]
        rcases hstt with ⟨hnil, hteq⟩ | ⟨hone, hteq⟩
        · rw [hnil]
          rw [List.nil_append]
          exact ⟨hch, fun u hu => ⟨by have := (hbd u hu).1; omega,
            (hbd u hu).2⟩⟩
        · rw [hone]
          have hmod : t1 % 4294967296 = t1 := Nat.mod_eq_of_lt (by omega)
          rw [hmod]
          refine ⟨chain_le_append t1 [t1] (timesOf rest)
            (List.chain'_singleton t1) hch (by simp)
            (fun y hy => (hbd y hy).1), ?_⟩
          intro u hu
          rcases List.mem_append.1 hu with hu1 | hu2
          · simp at hu1
            subst hu1
            exact ⟨by omega, by omega⟩
          · exact ⟨by have := (hbd u hu2).1; omega, (hbd u hu2).2⟩

/-- Time accounting of the surface-interval insertion loop: the final
time is at least the starting time, and while it stays below 2^32 the
emitted `Time` payloads are nondecreasing and bracketed. -/
theorem oceanic_surface_times (interval : Nat) :
    ∀ n time complete,
      time ≤ (oceanic_surface interval n time complete).2.1 ∧
      ((oceanic_surface interval n time complete).2.1 < 4294967296 →
        List.Chain' (· ≤ ·)
          (timesOf (oceanic_surface interval n time complete).1) ∧
        ∀ u ∈ timesOf (oceanic_surface interval n time complete).1,
          time ≤ u ∧ u ≤ (oceanic_surface interval n time complete).2.1) := by
  intro n
  induction n with
  | zero =>
    intro time complete
    simp [oceanic_surface, timesOf]
  | succ n ih =>
    intro time complete
    by_cases hc : complete = true
    case pos =>
      have ihr := ih (time + interval) true
      simp only [oceanic_surface, if_pos hc]
      refine ⟨by omega, fun hlt => ?_⟩
      obtain ⟨hch, hbd⟩ := ihr.2 hlt
      have hmod : (time + interval) % 4294967296 = time + interval :=
        Nat.mod_eq_of_lt (by omega)
      have htms : timesOf ([DcSample.time ((time + interval) % 4294967296)] ++
          [DcSample.depth 0] ++ (oceanic_surface interval n (time + interval)
            true).1) = (time + interval) %  4294967296 ::
          timesOf (oceanic_surface interval n (time + interval) true).1 := by
        simp [timesOf]
      rw [htms, hmod]
      constructor
      · exact chain_le_append (time + interval) [time + interval] _
          (List.chain'_singleton _) hch (by simp)
          (fun y hy => (hbd y hy).1)
      · intro u hu
        rcases List.mem_cons.1 hu with hu1 | hu2
        · subst hu1
          exact ⟨by omega, by omega⟩
        · exact ⟨by have := (hbd u hu2).1; omega, (hbd u hu2).2⟩
    case neg =>
      have ihr := ih time true
      simp only [oceanic_surface, if_neg hc]
      refine ⟨by omega, fun hlt => ?_⟩
      obtain ⟨hch, hbd⟩ := ihr.2 hlt
      have htms : timesOf ([] ++ [DcSample.depth 0] ++
          (oceanic_surface interval n time true).1) =
          timesOf (oceanic_surface interval n time true).1 := by
        simp [timesOf]
      rw [htms]
      exact ⟨hch, hbd⟩

/-- An Oceanic gas change emits no `Time` sample. -/
theorem oceanic_atom2_gaschange_times {cfg : OceanicCfg} {data : Mem}
    {offset gp : Nat} {out : List DcSample} {g1 : Nat}
    (h : oceanic_atom2_gaschange cfg data offset gp = Except.ok (out, g1)) :
    timesOf out = [] := by
  unfold oceanic_atom2_gaschange at h
  split at h
  · dsimp only at h
    split at h
    · split at h
      · simp at h
      · simp only [Except.ok.injEq, Prod.mk.injEq] at h
        obtain ⟨h1, -⟩ := h
        subst h1
        rfl
    · simp only [Except.ok.injEq, Prod.mk.injEq] at h
      obtain ⟨h1, -⟩ := h
      subst h1
      rfl
  · simp only [Except.ok.injEq, Prod.mk.injEq] at h
    obtain ⟨h1, -⟩ := h
    subst h1
    rfl

/-- The regular-sample branch sets the time accumulator to `time1` and
adds no `Time` sample beyond the handed-in prefix. -/
theorem oceanic_atom2_regular_times {data : Mem} {cfg : OceanicCfg}
    {s : OceanicState} {time1 length : Nat} {outTV out : List DcSample}
    {s1 : OceanicState}
    (h : oceanic_atom2_regular data cfg s time1 length outTV =
      Except.ok (s1, out)) :
    s1.time = time1 ∧ timesOf out = timesOf outTV := by
  unfold oceanic_atom2_regular at h
  split at h
  · simp at h
  · rename_i outG g1 hgc
    have hgm := oceanic_atom2_gaschange_times hgc
    simp only [Except.ok.injEq, Prod.mk.injEq] at h
    obtain ⟨h1, h2⟩ := h
    subst h1
    subst h2
    refine ⟨rfl, ?_⟩
    simp only [timesOf] at hgm ⊢
    simp only [List.filterMap_append, hgm]
    split_ifs <;> simp

/-- `timesOf` distributes over append. -/
theorem timesOf_append (a b : List DcSample) :
    timesOf (a ++ b) = timesOf a ++ timesOf b := by
  simp [timesOf]

/-- A `Time` sample contributes its payload. -/
theorem timesOf_cons_time (t : Nat) (l : List DcSample) :
    timesOf (DcSample.time t :: l) = t :: timesOf l := by
  simp [timesOf]

/-- A vendor sample contributes no time. -/
theorem timesOf_vendor (k o n : Nat) (l : List DcSample) :
    timesOf (DcSample.vendor k o n :: l) = timesOf l := by
  simp [timesOf]

/-- The empty sample list has no times. -/
theorem timesOf_nil : timesOf [] = [] := rfl

set_option maxHeartbeats 1000000 in
/-- Time accounting of one Oceanic loop step: the accumulator never
decreases, and while the new accumulator stays below 2^32 the `Time`
payloads emitted by the step are nondecreasing and bracketed by the
old and new accumulator values. -/
theorem oceanic_atom2_step_times {data : Mem} {cfg : OceanicCfg}
    {s s1 : OceanicState} {out : List DcSample}
    (h : oceanic_atom2_step data cfg s = Except.ok (some (s1, out))) :
    s.time ≤ s1.time ∧ (s1.time < 4294967296 →
      List.Chain' (· ≤ ·) (timesOf out) ∧
      ∀ u ∈ timesOf out, s.time ≤ u ∧ u ≤ s1.time) := by
  unfold oceanic_atom2_step at h
  split at h
  case isFalse => simp at h
  case isTrue hguard =>
    by_cases hc2 : (cfg.mode ≠ 2 ∧ array_isequal data s.offset cfg.samplesize 0x00 = true) ∨ array_isequal data s.offset cfg.samplesize 0xFF = true
    · rw [if_pos hc2] at h
      simp only [Except.ok.injEq, Option.some.injEq, Prod.mk.injEq] at h
      obtain ⟨h1, h2⟩ := h
      subst h1
      subst h2
      exact ⟨le_refl _, fun _ => ⟨by simp [timesOf], by simp [timesOf]⟩⟩
    · rw [if_neg hc2] at h
      by_cases hbb : (if cfg.mode = 2 then 0 else data s.offset) = 0xBB ∧ s.offset + (if (if cfg.mode = 2 then 0 else data s.offset) = 0xBB then PAGESIZE else cfg.samplesize * cfg.samplerate) > cfg.sizeTotal - PAGESIZE
      · rw [if_pos hbb] at h
        exact absurd h (by simp)
      · rw [if_neg hbb] at h
        by_cases hcomp : s.complete = true
        case pos =>
          rw [if_pos hcomp, if_pos hcomp] at h
          by_cases haa : (if cfg.mode = 2 then 0 else data s.offset) = 0xAA
          · rw [if_pos haa] at h
            simp only [Except.ok.injEq, Option.some.injEq, Prod.mk.injEq] at h
            obtain ⟨h1, h2⟩ := h
            subst h1
            subst h2
            dsimp only
            refine ⟨by omega, fun hlt => ?_⟩
            have hmod : (s.time + cfg.interval) % 4294967296 =
                s.time + cfg.interval := Nat.mod_eq_of_lt (by omega)
            constructor
            · simp [timesOf]
            · intro u hu
              simp [timesOf, hmod] at hu
              subst hu
              omega
          · rw [if_neg haa] at h
            by_cases hsb : (if cfg.mode = 2 then 0 else data s.offset) = 0xBB
            · rw [if_pos hsb] at h
              simp only [Except.ok.injEq, Option.some.injEq,
                Prod.mk.injEq] at h
              obtain ⟨h1, h2⟩ := h
              subst h1
              subst h2
              dsimp only
              have hsurf := oceanic_surface_times cfg.interval
                ((60 * bcd2dec (data (s.offset + 1)) +
                  bcd2dec (data (s.offset + 2))) / cfg.interval)
                (s.time + cfg.interval) false
              refine ⟨by omega, fun hlt => ?_⟩
              obtain ⟨hch, hbd⟩ := hsurf.2 (by omega)
              have hmod : (s.time + cfg.interval) % 4294967296 =
                  s.time + cfg.interval := Nat.mod_eq_of_lt (by omega)
              simp only [timesOf_append, List.singleton_append,
                timesOf_cons_time, timesOf_vendor, timesOf_nil,
                List.nil_append, hmod]
              constructor
              · exact chain_le_append (s.time + cfg.interval) _ _
                  (List.chain'_singleton _) hch (by simp)
                  (fun y hy => (hbd y hy).1)
              · intro u hu
                rcases List.mem_cons.1 hu with hu1 | hu2
                · subst hu1
                  exact ⟨by omega, by omega⟩
                · exact ⟨by have := (hbd u hu2).1; omega, (hbd u hu2).2⟩
            · rw [if_neg hsb] at h
              split at h
              · simp at h
              · rename_i x hx
                obtain ⟨sx, outx⟩ := x
                simp only [Except.ok.injEq, Option.some.injEq,
                  Prod.mk.injEq] at h
                obtain ⟨h1, h2⟩ := h
                subst h1
                subst h2
                have hreg := oceanic_atom2_regular_times hx
                rw [hreg.1]
                refine ⟨by omega, fun hlt => ?_⟩
                rw [hreg.2]
                have hmod : (s.time + cfg.interval) % 4294967296 =
                    s.time + cfg.interval := Nat.mod_eq_of_lt (by omega)
                simp only [timesOf_append, List.singleton_append,
                  timesOf_cons_time, timesOf_vendor, timesOf_nil,
                  List.nil_append, hmod]
                refine ⟨List.chain'_singleton _, ?_⟩
                intro u hu
                simp at hu
                subst hu
                exact ⟨by omega, by omega⟩
        case neg =>
          rw [if_neg hcomp, if_neg hcomp] at h
          by_cases haa : (if cfg.mode = 2 then 0 else data s.offset) = 0xAA
          · rw [if_pos haa] at h
            simp only [Except.ok.injEq, Option.some.injEq, Prod.mk.injEq] at h
            obtain ⟨h1, h2⟩ := h
            subst h1
            subst h2
            exact ⟨le_refl _, fun _ => ⟨by simp [timesOf], by simp [timesOf]⟩⟩
          · rw [if_neg haa] at h
            by_cases hsb : (if cfg.mode = 2 then 0 else data s.offset) = 0xBB
            · rw [if_pos hsb] at h
              simp only [Except.ok.injEq, Option.some.injEq,
                Prod.mk.injEq] at h
              obtain ⟨h1, h2⟩ := h
              subst h1
              subst h2
              dsimp only
              have hsurf := oceanic_surface_times cfg.interval
                ((60 * bcd2dec (data (s.offset + 1)) +
                  bcd2dec (data (s.offset + 2))) / cfg.interval)
                s.time false
              refine ⟨by omega, fun hlt => ?_⟩
              obtain ⟨hch, hbd⟩ := hsurf.2 (by omega)
              simp only [timesOf_append, List.singleton_append,
                timesOf_cons_time, timesOf_vendor, timesOf_nil,
                List.nil_append]
              exact ⟨hch, hbd⟩
            · rw [if_neg hsb] at h
              split at h
              · simp at h
              · rename_i x hx
                obtain ⟨sx, outx⟩ := x
                simp only [Except.ok.injEq, Option.some.injEq,
                  Prod.mk.injEq] at h
                obtain ⟨h1, h2⟩ := h
                subst h1
                subst h2
                have hreg := oceanic_atom2_regular_times hx
                rw [hreg.1]
                refine ⟨le_refl _, fun hlt => ?_⟩
                rw [hreg.2]
                simp only [timesOf_append, List.singleton_append,
                  timesOf_cons_time, timesOf_vendor, timesOf_nil,
                  List.nil_append]
                exact ⟨by simp, by simp⟩

/-- Time monotonicity of the Oceanic sample loop: the accumulator never
decreases, and while it stays below 2^32 the emitted `Time` payloads
are nondecreasing and bracketed. -/
theorem oceanic_atom2_run_times (data : Mem) (cfg : OceanicCfg)
    (hs : 0 < cfg.samplesize) (hr : 0 < cfg.samplerate) :
    ∀ fuel s out tfin, cfg.limit ≤ s.offset + fuel →
      oceanic_atom2_run data cfg hs hr s = Except.ok (out, tfin) →
      s.time ≤ tfin ∧ (tfin < 4294967296 →
        List.Chain' (· ≤ ·) (timesOf out) ∧
        ∀ u ∈ timesOf out, s.time ≤ u ∧ u ≤ tfin) := by
  intro fuel
  induction fuel with
  | zero =>
    intro s out tfin hf h
    rw [oceanic_atom2_run] at h
    split at h
    · simp at h
    · simp only [Except.ok.injEq, Prod.mk.injEq] at h
      obtain ⟨h1, h2⟩ := h
      subst h1
      subst h2
      exact ⟨le_refl _, fun _ => ⟨by simp [timesOf], by simp [timesOf]⟩⟩
    · rename_i s1 out0 heq
      have hadv := oceanic_atom2_step_advance heq hs hr
      omega
  | succ fuel ih =>
    intro s out tfin hf h
    rw [oceanic_atom2_run] at h
    split at h
    · simp at h
    · simp only [Except.ok.injEq, Prod.mk.injEq] at h
      obtain ⟨h1, h2⟩ := h
      subst h1
      subst h2
      exact ⟨le_refl _, fun _ => ⟨by simp [timesOf], by simp [timesOf]⟩⟩
    · rename_i s1 out0 heq
      split at h
      · simp at h
      · rename_i rest tfin0 heq2
        simp only [Except.ok.injEq, Prod.mk.injEq] at h
        obtain ⟨h1, h2⟩ := h
        subst h1
        subst h2
        have hadv := oceanic_atom2_step_advance heq hs hr
        have hih := ih _ _ _ (by omega) heq2
        have hstt := oceanic_atom2_step_times heq
        have happ : timesOf (out0 ++ rest) = timesOf out0 ++ timesOf rest :=
          timesOf_append out0 rest
        refine ⟨by have := hstt.1; omega, fun hlt => ?_⟩
        obtain ⟨hch2, hbd2⟩ := hih.2 hlt
        obtain ⟨hch1, hbd1⟩ := hstt.2 (by have := hih.1; omega)
        rw [happ]
        refine ⟨chain_le_append s1.time _ _ hch1 hch2
          (fun x hx => (hbd1 x hx).2) (fun y hy => (hbd2 y hy).1), ?_⟩
        intro u hu
        rcases List.mem_append.1 hu with hu1 | hu2
        · exact ⟨(hbd1 u hu1).1, by have := (hbd1 u hu1).2
                                    have := hih.1
                                    omega⟩
        · exact ⟨by have := (hbd2 u hu2).1
                    have := hstt.1
                    omega, (hbd2 u hu2).2⟩

/-- The Suunto parameter loop emits no `Time` sample. -/
theorem suunto_d9_params_times (data : Mem) (size : Nat) :
    ∀ info nsamples offset r,
      suunto_d9_params data size info nsamples offset = Except.ok r →
      timesOf r.2 = [] := by
  intro info
  induction info with
  | nil =>
    intro ns off r h
    simp only [suunto_d9_params, Except.ok.injEq] at h
    subst h
    rfl
  | cons i rest ih =>
    intro ns off r h
    rw [suunto_d9_params] at h
    split at h
    · split at h
      · simp at h
      · split at h
        · split at h
          · simp at h
          · rename_i r0 hr0
            have hr := ih _ _ _ hr0
            simp only [Except.ok.injEq] at h
            subst h
            simpa [timesOf] using hr
        · split at h
          · split at h
            · simp at h
            · rename_i r0 hr0
              have hr := ih _ _ _ hr0
              simp only [Except.ok.injEq] at h
              subst h
              split_ifs <;> simpa [timesOf] using hr
          · split at h
            · split at h
              · simp at h
              · rename_i r0 hr0
                have hr := ih _ _ _ hr0
                simp only [Except.ok.injEq] at h
                subst h
                simpa [timesOf] using hr
            · simp at h
    · exact ih _ _ _ h

/-- The Suunto event loop emits no `Time` sample. -/
theorem suunto_d9_events_times (model : Nat) (data : Mem) (size : Nat)
    (mixes : List (Nat × Nat)) :
    ∀ fuel offset marker deco r, size ≤ offset + fuel →
      suunto_d9_events model data size mixes offset marker deco =
        Except.ok r →
      timesOf r.2.2.2 = [] := by
  intro fuel
  induction fuel with
  | zero =>
    intro offset marker deco r hf h
    rw [suunto_d9_events] at h
    rw [if_neg (by omega)] at h
    simp only [Except.ok.injEq] at h
    subst h
    rfl
  | succ fuel ih =>
    intro offset marker deco r hf h
    rw [suunto_d9_events] at h
    by_cases h0 : offset < size
    case neg =>
      rw [if_neg h0] at h
      simp only [Except.ok.injEq] at h
      subst h
      rfl
    case pos =>
      rw [if_pos h0] at h
      by_cases hc1 : data offset = 0x01
      · rw [if_pos hc1] at h
        split at h
        · simp at h
        · split at h
          · simp at h
          · simp only [Except.ok.injEq] at h
            subst h
            rfl
      · rw [if_neg hc1] at h
        by_cases hc2 : data offset = 0x02
        · rw [if_pos hc2] at h
          split at h
          · simp at h
          · split at h
            · simp at h
            · rename_i r0 heq
              have hih := ih _ _ _ _ (by omega) heq
              simp only [Except.ok.injEq] at h
              subst h
              simpa [timesOf] using hih
        · rw [if_neg hc2] at h
          by_cases hc3 : data offset = 0x03
          · rw [if_pos hc3] at h
            split at h
            · simp at h
            · split at h
              · simp at h
              · rename_i r0 heq
                have hih := ih _ _ _ _ (by omega) heq
                simp only [Except.ok.injEq] at h
                subst h
                dsimp only
                split_ifs <;> simpa [timesOf] using hih
          · rw [if_neg hc3] at h
            by_cases hc4 : data offset = 0x04
            · rw [if_pos hc4] at h
              split at h
              · simp at h
              · split at h
                · simp at h
                · rename_i r0 heq
                  have hih := ih _ _ _ _ (by omega) heq
                  simp only [Except.ok.injEq] at h
                  subst h
                  dsimp only
                  split_ifs <;> simpa [timesOf] using hih
            · rw [if_neg hc4] at h
              by_cases hc5 : data offset = 0x05
              · rw [if_pos hc5] at h
                split at h
                · simp at h
                · split at h
                  · simp at h
                  · split at h
                    · simp at h
                    · rename_i r0 heq
                      have hih := ih _ _ _ _ (by omega) heq
                      simp only [Except.ok.injEq] at h
                      subst h
                      simpa [timesOf] using hih
              · rw [if_neg hc5] at h
                by_cases hc6 : data offset = 0x06
                · rw [if_pos hc6] at h
                  split at h
                  · split at h
                    · simp at h
                    · split at h
                      · simp at h
                      · split at h
                        · simp at h
                        · rename_i r0 heq
                          have hih := ih _ _ _ _ (by omega) heq
                          simp only [Except.ok.injEq] at h
                          subst h
                          simpa [timesOf] using hih
                  · split at h
                    · simp at h
                    · split at h
                      · simp at h
                      · split at h
                        · simp at h
                        · rename_i r0 heq
                          have hih := ih _ _ _ _ (by omega) heq
                          simp only [Except.ok.injEq] at h
                          subst h
                          simpa [timesOf] using hih
                · rw [if_neg hc6] at h
                  exact ih _ _ _ _ (by omega) h

/-- Time accounting of one Suunto loop step: the step emits exactly one
`Time` sample carrying the current accumulator, then advances the
accumulator by the sample interval. -/
theorem suunto_d9_step_times {data : Mem} {cfg : SuuntoCfg}
    {s s1 : SuuntoState} {out : List DcSample}
    (h : suunto_d9_step data cfg s = Except.ok (some (s1, out))) :
    s1.time = s.time + cfg.interval_sample ∧
    timesOf out = [s.time % 4294967296] := by
  unfold suunto_d9_step at h
  split at h
  case isFalse => simp at h
  case isTrue hguard =>
    split at h
    · simp at h
    · rename_i pr hpr
      have hptimes := suunto_d9_params_times data cfg.size _ _ _ _ hpr
      split at h
      · simp at h
      · split at h
        · simp at h
        · rename_i ev hev
          have hetimes : timesOf ev.2.2.2 = [] := by
            by_cases hcond : (s.nsamples + 1) % 4294967296 = s.marker
            · rw [if_pos hcond] at hev
              exact suunto_d9_events_times cfg.model data cfg.size cfg.mixes
                cfg.size _ _ _ _ (by omega) hev
            · rw [if_neg hcond] at hev
              simp only [Except.ok.injEq] at hev
              subst hev
              rfl
          simp only [Except.ok.injEq, Option.some.injEq, Prod.mk.injEq] at h
          obtain ⟨h1, h2⟩ := h
          subst h1
          subst h2
          refine ⟨rfl, ?_⟩
          simp only [timesOf] at hptimes hetimes ⊢
          simp only [List.filterMap_cons, List.filterMap_append, hptimes,
            hetimes]
          split_ifs <;> simp

/-- Time monotonicity of the Suunto sample loop: the accumulator never
decreases, and while it stays below 2^32 the emitted `Time` payloads
are nondecreasing and bracketed.  `fuel` bounds the lexicographic
(offset gap, marker gap) measure. -/
theorem suunto_d9_run_times (data : Mem) (cfg : SuuntoCfg) :
    ∀ fuel s hmk out tfin,
      (cfg.size - s.offset) * 4294967296 +
        suunto_gap s.marker s.nsamples < fuel →
      suunto_d9_run data cfg s hmk = Except.ok (out, tfin) →
      s.time ≤ tfin ∧ (tfin < 4294967296 →
        List.Chain' (· ≤ ·) (timesOf out) ∧
        ∀ u ∈ timesOf out, s.time ≤ u ∧ u ≤ tfin) := by
  intro fuel
  induction fuel with
  | zero =>
    intro s hmk out tfin hf h
    omega
  | succ fuel ih =>
    intro s hmk out tfin hf h
    rw [suunto_d9_run] at h
    split at h
    · simp at h
    · simp only [Except.ok.injEq, Prod.mk.injEq] at h
      obtain ⟨h1, h2⟩ := h
      subst h1
      subst h2
      exact ⟨le_refl _, fun _ => ⟨by simp [timesOf], by simp [timesOf]⟩⟩
    · rename_i s1 out0 heq
      split at h
      · simp at h
      · rename_i rest tfin0 heq2
        simp only [Except.ok.injEq, Prod.mk.injEq] at h
        obtain ⟨h1, h2⟩ := h
        subst h1
        subst h2
        have hgap1 : suunto_gap s1.marker s1.nsamples < 4294967296 := by
          unfold suunto_gap
          exact Nat.mod_lt _ (by norm_num)
        have hfuel1 : (cfg.size - s1.offset) * 4294967296 +
            suunto_gap s1.marker s1.nsamples < fuel := by
          rcases suunto_d9_step_measure heq hmk with ⟨hlt, hbound⟩ |
            ⟨heqo, hgap⟩
          · have : cfg.size - s1.offset < cfg.size - s.offset := by omega
            have hgap0 : 0 ≤ suunto_gap s.marker s.nsamples := Nat.zero_le _
            omega
          · rw [heqo]
            omega
        have hih := ih _ (suunto_d9_step_marker heq hmk) _ _ hfuel1 heq2
        have hstt := suunto_d9_step_times heq
        have happ : timesOf (out0 ++ rest) = timesOf out0 ++ timesOf rest :=
          timesOf_append out0 rest
        refine ⟨by have := hstt.1; omega, fun hlt => ?_⟩
        obtain ⟨hch2, hbd2⟩ := hih.2 hlt
        have hmod : s.time % 4294967296 = s.time := by
          have h1 := hstt.1
          have h2 := hih.1
          exact Nat.mod_eq_of_lt (by omega)
        rw [happ, hstt.2, hmod]
        refine ⟨chain_le_append s.time [s.time] _
          (List.chain'_singleton _) hch2 (by simp)
          (fun y hy => by have := (hbd2 y hy).1
                          have := hstt.1
                          omega), ?_⟩
        intro u hu
        rcases List.mem_append.1 hu with hu1 | hu2
        · simp at hu1
          subst hu1
          refine ⟨le_refl _, by have := hstt.1
                                have := hih.1
                                omega⟩
        · refine ⟨by have := (hbd2 u hu2).1
                     have := hstt.1
                     omega, (hbd2 u hu2).2⟩

/-- Suunto D9 blob (gauge mode, one sample parameter with recording
interval 0) whose first sample-loop iteration leaves the offset
unchanged. -/
def C3data : Mem := fun a =>
  if a = 0x19 then 2 else if a = 0x3A then 1 else if a = 0x3C then 0x64
  else if a = 0x18 then 10 else if a = 66 then 5 else 0

/-- C3: for each of the three family parsers, a successful
`samples_foreach` whose final time accumulator has not wrapped the
32-bit counter emits a monotonically nondecreasing `Time` sequence;
and the Shearwater and Oceanic loops strictly advance their position
on every continuing iteration (all three models are total functions,
so each loop terminates on every input).  The Suunto loop, however,
need not advance its position (see the counterexample), and a wrapped
time accumulator can break monotonicity, which is why the bound
appears as a hypothesis. -/
theorem C3_times_monotone :
    (∀ petrel data size out tfin,
      shearwater_predator_parser_samples_foreach petrel data size =
        Except.ok (out, tfin) →
      tfin < 4294967296 → List.Chain' (· ≤ ·) (timesOf out)) ∧
    (∀ model data size out tfin,
      oceanic_atom2_parser_samples_foreach model data size =
        Except.ok (out, tfin) →
      tfin < 4294967296 → List.Chain' (· ≤ ·) (timesOf out)) ∧
    (∀ model data size out tfin,
      suunto_d9_parser_samples_foreach model data size =
        Except.ok (out, tfin) →
      tfin < 4294967296 → List.Chain' (· ≤ ·) (timesOf out)) ∧
    (∀ p d len c off prev t s1 out1,
      shearwater_step p d len c off prev t = Except.ok (some (s1, out1)) →
      off < len ∧ s1.1 = off + shearwater_samplesize p) ∧
    (∀ data cfg s s1 out1, 0 < cfg.samplesize → 0 < cfg.samplerate →
      oceanic_atom2_step data cfg s = Except.ok (some (s1, out1)) →
      s.offset < s1.offset ∧ s.offset < cfg.limit) := by
  refine ⟨?_, ?_, ?_, ?_, ?_⟩
  · intro petrel data size out tfin h hlt
    unfold shearwater_predator_parser_samples_foreach at h
    split at h
    · simp at h
    · rename_i cache hcache
      have hrt := shearwater_run_times petrel data
        (size - cache.footersize) cache size cache.headersize (0, 0) 0
        out tfin (by omega) h
      exact (hrt.2 hlt).1
  · intro model data size out tfin h hlt
    unfold oceanic_atom2_parser_samples_foreach at h
    split at h
    · simp at h
    · rename_i cfg s0 heq
      have hrt := oceanic_atom2_run_times data cfg
        (oceanic_atom2_setup_pos heq).1 (oceanic_atom2_setup_pos heq).2.1
        cfg.limit s0 out tfin (by omega) h
      exact (hrt.2 hlt).1
  · intro model data size out tfin h hlt
    unfold suunto_d9_parser_samples_foreach at h
    split at h
    · simp at h
    · rename_i cfg s0 heq
      have hgap : suunto_gap s0.marker s0.nsamples < 4294967296 := by
        unfold suunto_gap
        exact Nat.mod_lt _ (by norm_num)
      have hrt := suunto_d9_run_times data cfg
        ((cfg.size + 1) * 4294967296) s0 (suunto_d9_setup_marker heq)
        out tfin (by omega) h
      exact (hrt.2 hlt).1
  · intro p d len c off prev t s1 out1 h
    exact shearwater_step_advance h
  · intro data cfg s s1 out1 hs hr h
    exact oceanic_atom2_step_advance h hs hr

/-- A Suunto sample-loop iteration on a blob accepted by the setup
phase that consumes no profile bytes: every configured parameter has
recording interval 0, so the offset stays put while the loop counter
and time advance (the C loop exits only through the 32-bit sample
counter reaching the event marker, not through positional progress).
This refutes "the loop's position strictly advances on every
iteration". -/
theorem C3_counterexample :
    suunto_d9_setup D9 C3data 69 = Except.ok
      (⟨0x0E, [], 0, [⟨0x64, 0, 1, 2⟩], 10, 69⟩,
       ⟨68, 0, 0, 5, ⟨false, false, false⟩⟩) ∧
    suunto_d9_step C3data ⟨0x0E, [], 0, [⟨0x64, 0, 1, 2⟩], 10, 69⟩
      ⟨68, 0, 0, 5, ⟨false, false, false⟩⟩ = Except.ok (some
        (⟨68, 1, 10, 5, ⟨false, false, false⟩⟩,
         [DcSample.time 0, DcSample.deco 0 0 0])) ∧
    (68 : Nat) < 69 := by
  refine ⟨by decide, by decide, by decide⟩

/-- Each locate-loop slot raises the non-erased count by at most one. -/
theorem hw_ostc3_locate_body_count (header : Mem) (logbook : HwOstc3Logbook)
    (s : Nat × Nat × Nat) (i : Nat) :
    (hw_ostc3_locate_body header logbook s i).1 ≤ s.1 + 1 := by
  unfold hw_ostc3_locate_body
  dsimp only
  split_ifs <;> simp

/-- The locate loop counts at most the number of slots it scans. -/
theorem hw_ostc3_locate_fold_count (header : Mem)
    (logbook : HwOstc3Logbook) :
    ∀ n (s : Nat × Nat × Nat),
      ((List.range n).foldl (hw_ostc3_locate_body header logbook) s).1 ≤
        s.1 + n := by
  intro n
  induction n with
  | zero =>
    intro s
    simp
  | succ n ih =>
    intro s
    rw [List.range_succ, List.foldl_append, List.foldl_cons, List.foldl_nil]
    have h1 := hw_ostc3_locate_body_count header logbook
      ((List.range n).foldl (hw_ostc3_locate_body header logbook) s) n
    have h2 := ih s
    omega

/-- The locate loop counts at most `RB_LOGBOOK_COUNT` dives. -/
theorem hw_ostc3_locate_count (header : Mem) (logbook : HwOstc3Logbook) :
    (hw_ostc3_locate header logbook).1 ≤ RB_LOGBOOK_COUNT := by
  unfold hw_ostc3_locate
  have := hw_ostc3_locate_fold_count header logbook RB_LOGBOOK_COUNT (0, 0, 0)
  omega

/-- The counting loop of the OSTC3 foreach walks forward by at most
`count - i` slots, never decreases the running dive count, and every
slot it steps over has a fingerprint region that differs from the
stored fingerprint. -/
theorem hw_ostc3_count_dives_spec (header : Mem) (fingerprint : List Nat)
    (logbook : HwOstc3Logbook) (compact : Bool) (count latest : Nat) :
    ∀ fuel i ndives sizeAcc maxsize, count ≤ i + fuel →
      ndives ≤ (hw_ostc3_count_dives header fingerprint logbook compact
        count latest i ndives sizeAcc maxsize).1 ∧
      (hw_ostc3_count_dives header fingerprint logbook compact count latest
        i ndives sizeAcc maxsize).1 ≤ ndives + (count - i) ∧
      (∀ j, i ≤ j → j < i + ((hw_ostc3_count_dives header fingerprint logbook
          compact count latest i ndives sizeAcc maxsize).1 - ndives) →
        memEqual header
          (((latest + RB_LOGBOOK_COUNT - j) % RB_LOGBOOK_COUNT) *
            logbook.size + logbook.fingerprint) (listMem fingerprint) 0 5 =
          false) := by
  intro fuel
  induction fuel with
  | zero =>
    intro i ndives sizeAcc maxsize hf
    rw [hw_ostc3_count_dives]
    rw [if_neg (by omega)]
    exact ⟨le_refl _, by omega, fun j h1 h2 => by omega⟩
  | succ fuel ih =>
    intro i ndives sizeAcc maxsize hf
    rw [hw_ostc3_count_dives]
    by_cases hlt : i < count
    case neg =>
      rw [if_neg hlt]
      exact ⟨le_refl _, by omega, fun j h1 h2 => by omega⟩
    case pos =>
      rw [if_pos hlt]
      dsimp only
      split
      · exact ⟨le_refl _, by omega, fun j h1 h2 => by omega⟩
      · rename_i herased
        split
        · exact ⟨le_refl _, by omega, fun j h1 h2 => by omega⟩
        · rename_i hfp
          set L := hw_ostc3_profile_length header
            (((latest + RB_LOGBOOK_COUNT - i) % RB_LOGBOOK_COUNT) *
              logbook.size) logbook compact with hL
          have hrec := ih (i + 1) (ndives + 1) (sizeAcc + L)
            (if L > maxsize then L else maxsize) (by omega)
          refine ⟨by omega, by omega, fun j h1 h2 => ?_⟩
          by_cases hji : j = i
          · subst hji
            simpa using hfp
          · exact hrec.2.2 j (by omega) (by omega)

/-- With a NULL callback the download loop records no invocation. -/
theorem hw_ostc3_download_none (header : Mem) (logbook : HwOstc3Logbook)
    (compact : Bool) (latest ndives : Nat)
    (dive : Nat → Nat → Except DcStatus (List Nat)) :
    ∀ fuel i, ndives ≤ i + fuel →
      (hw_ostc3_download header logbook compact latest ndives dive none
        i).2 = [] := by
  intro fuel
  induction fuel with
  | zero =>
    intro i hf
    rw [hw_ostc3_download]
    rw [if_neg (by omega)]
  | succ fuel ih =>
    intro i hf
    rw [hw_ostc3_download]
    by_cases hlt : i < ndives
    case neg => rw [if_neg hlt]
    case pos =>
      rw [if_pos hlt]
      dsimp only
      split
      · rfl
      · split
        · rfl
        · exact ih (i + 1) (by omega)

/-- The slots handed to the callback by the download loop are an
initial segment of the backward walk from the latest slot. -/
theorem hw_ostc3_download_walk (header : Mem) (logbook : HwOstc3Logbook)
    (compact : Bool) (latest ndives : Nat)
    (dive : Nat → Nat → Except DcStatus (List Nat))
    (f : List Nat → Nat → List Nat → Bool) :
    ∀ fuel i, ndives ≤ i + fuel →
      ∃ k, k ≤ ndives - i ∧
        (hw_ostc3_download header logbook compact latest ndives dive (some f)
          i).2.map HwDiveCall.idx =
        (List.range' i k).map
          (fun j => (latest + RB_LOGBOOK_COUNT - j) % RB_LOGBOOK_COUNT) := by
  intro fuel
  induction fuel with
  | zero =>
    intro i hf
    rw [hw_ostc3_download]
    rw [if_neg (by omega)]
    exact ⟨0, by omega, by simp⟩
  | succ fuel ih =>
    intro i hf
    rw [hw_ostc3_download]
    by_cases hlt : i < ndives
    case neg =>
      rw [if_neg hlt]
      exact ⟨0, by omega, by simp⟩
    case pos =>
      rw [if_pos hlt]
      dsimp only
      split
      · exact ⟨0, by omega, by simp⟩
      · split
        · exact ⟨0, by omega, by simp⟩
        · split
          · exact ⟨1, by omega, by simp [List.range'_succ]⟩
          · obtain ⟨k, hk, hmap⟩ := ih (i + 1) (by omega)
            refine ⟨k + 1, by omega, ?_⟩
            rw [List.range'_succ]
            simp only [List.map_cons]
            rw [← hmap]

/-- The Frog locate loop counts at most the slots it scans. -/
theorem hw_frog_locate_count (header : Mem) :
    ∀ fuel i c l m, RB_LOGBOOK_COUNT ≤ i + fuel →
      (hw_frog_locate header i c l m).1 ≤ c + (RB_LOGBOOK_COUNT - i) := by
  intro fuel
  induction fuel with
  | zero =>
    intro i c l m hf
    rw [hw_frog_locate]
    rw [if_neg (by unfold RB_LOGBOOK_COUNT at *; omega)]
    dsimp only
    omega
  | succ fuel ih =>
    intro i c l m hf
    rw [hw_frog_locate]
    by_cases hlt : i < RB_LOGBOOK_COUNT
    case neg =>
      rw [if_neg hlt]
      dsimp only
      omega
    case pos =>
      rw [if_pos hlt]
      dsimp only
      split
      · omega
      · split
        · have := ih (i + 1) (c + 1) i
            (array_uint16_le header (i * 256 + 52)) (by omega)
          omega
        · have := ih (i + 1) (c + 1) l m (by omega)
          omega

/-- The counting loop of the Frog foreach walks forward by at most
`count - i` slots, never decreases the running dive count, and every
slot it steps over has a fingerprint region that differs from the
stored fingerprint. -/
theorem hw_frog_count_dives_spec (header : Mem) (fingerprint : List Nat)
    (count latest : Nat) :
    ∀ fuel i ndives sizeAcc maxsize r, count ≤ i + fuel →
      hw_frog_count_dives header fingerprint count latest i ndives sizeAcc
        maxsize = Except.ok r →
      ndives ≤ r.1 ∧ r.1 ≤ ndives + (count - i) ∧
      (∀ j, i ≤ j → j < i + (r.1 - ndives) →
        memEqual header
          (((latest + RB_LOGBOOK_COUNT - j) % RB_LOGBOOK_COUNT) * 256 + 9)
          (listMem fingerprint) 0 5 = false) := by
  intro fuel
  induction fuel with
  | zero =>
    intro i ndives sizeAcc maxsize r hf h
    rw [hw_frog_count_dives] at h
    rw [if_neg (by omega)] at h
    simp only [Except.ok.injEq] at h
    subst h
    exact ⟨le_refl _, by omega, fun j h1 h2 => by omega⟩
  | succ fuel ih =>
    intro i ndives sizeAcc maxsize r hf h
    rw [hw_frog_count_dives] at h
    by_cases hlt : i < count
    case neg =>
      rw [if_neg hlt] at h
      simp only [Except.ok.injEq] at h
      subst h
      exact ⟨le_refl _, by omega, fun j h1 h2 => by omega⟩
    case pos =>
      rw [if_pos hlt] at h
      dsimp only at h
      split at h
      · simp at h
      · split at h
        · simp only [Except.ok.injEq] at h
          subst h
          exact ⟨le_refl _, by omega, fun j h1 h2 => by omega⟩
        · rename_i hring hfp
          have hrec := ih (i + 1) (ndives + 1) _ _ r (by omega) h
          refine ⟨by omega, by omega, fun j h1 h2 => ?_⟩
          by_cases hji : j = i
          · subst hji
            simpa using hfp
          · exact hrec.2.2 j (by omega) (by omega)

/-- With a NULL callback the Frog download loop records no
invocation. -/
theorem hw_frog_download_none (header : Mem) (latest ndives : Nat)
    (dive : Nat → Nat → Except DcStatus (List Nat)) :
    ∀ fuel i, ndives ≤ i + fuel →
      (hw_frog_download header latest ndives dive none i).2 = [] := by
  intro fuel
  induction fuel with
  | zero =>
    intro i hf
    rw [hw_frog_download]
    rw [if_neg (by omega)]
  | succ fuel ih =>
    intro i hf
    rw [hw_frog_download]
    by_cases hlt : i < ndives
    case neg => rw [if_neg hlt]
    case pos =>
      rw [if_pos hlt]
      dsimp only
      split
      · rfl
      · split
        · rfl
        · exact ih (i + 1) (by omega)

/-- The slots handed to the callback by the Frog download loop are an
initial segment of the backward walk from the latest slot. -/
theorem hw_frog_download_walk (header : Mem) (latest ndives : Nat)
    (dive : Nat → Nat → Except DcStatus (List Nat))
    (f : List Nat → Nat → List Nat → Bool) :
    ∀ fuel i, ndives ≤ i + fuel →
      ∃ k, k ≤ ndives - i ∧
        (hw_frog_download header latest ndives dive (some f)
          i).2.map HwDiveCall.idx =
        (List.range' i k).map
          (fun j => (latest + RB_LOGBOOK_COUNT - j) % RB_LOGBOOK_COUNT) := by
  intro fuel
  induction fuel with
  | zero =>
    intro i hf
    rw [hw_frog_download]
    rw [if_neg (by omega)]
    exact ⟨0, by omega, by simp⟩
  | succ fuel ih =>
    intro i hf
    rw [hw_frog_download]
    by_cases hlt : i < ndives
    case neg =>
      rw [if_neg hlt]
      exact ⟨0, by omega, by simp⟩
    case pos =>
      rw [if_pos hlt]
      dsimp only
      split
      · exact ⟨0, by omega, by simp⟩
      · split
        · exact ⟨0, by omega, by simp⟩
        · split
          · exact ⟨1, by omega, by simp [List.range'_succ]⟩
          · obtain ⟨k, hk, hmap⟩ := ih (i + 1) (by omega)
            refine ⟨k + 1, by omega, ?_⟩
            rw [List.range'_succ]
            simp only [List.map_cons]
            rw [← hmap]

/-- C1 (amended): the OSTC3 and Frog foreach invoke the callback at
most `RB_LOGBOOK_COUNT` (256) times, each time for a distinct logbook
slot, the handed slots forming an initial segment of the backward walk
`latest, latest - 1, …` modulo 256, and no handed slot's fingerprint
region equals the stored fingerprint.  (The walk is backward in slot
position, not in dive number: the counterexample exhibits handed
internal dive numbers that are not strictly decreasing.) -/
theorem C1_foreach_walk (header : Mem) (fingerprint : List Nat)
    (compact : Bool) (dive : Nat → Nat → Except DcStatus (List Nat))
    (cb : Option (List Nat → Nat → List Nat → Bool)) :
    ((hw_ostc3_device_foreach header fingerprint compact dive cb).2.length ≤
      RB_LOGBOOK_COUNT) ∧
    ((hw_ostc3_device_foreach header fingerprint compact dive cb).2.map
      HwDiveCall.idx).Nodup ∧
    (∀ c ∈ (hw_ostc3_device_foreach header fingerprint compact dive cb).2,
      memEqual header (c.idx *
          (if compact then hw_ostc3_logbook_compact
           else hw_ostc3_logbook_full).size +
          (if compact then hw_ostc3_logbook_compact
           else hw_ostc3_logbook_full).fingerprint)
        (listMem fingerprint) 0 5 = false) ∧
    (∃ k, ((hw_ostc3_device_foreach header fingerprint compact dive cb).2.map
        HwDiveCall.idx) =
      (List.range' 0 k).map (fun j =>
        ((hw_ostc3_locate header
            (if compact then hw_ostc3_logbook_compact
             else hw_ostc3_logbook_full)).2.1 +
          RB_LOGBOOK_COUNT - j) % RB_LOGBOOK_COUNT)) ∧
    ((hw_frog_device_foreach header fingerprint dive cb).2.length ≤
      RB_LOGBOOK_COUNT) ∧
    ((hw_frog_device_foreach header fingerprint dive cb).2.map
      HwDiveCall.idx).Nodup ∧
    (∀ c ∈ (hw_frog_device_foreach header fingerprint dive cb).2,
      memEqual header (c.idx * 256 + 9) (listMem fingerprint) 0 5 =
        false) ∧
    (∃ k, ((hw_frog_device_foreach header fingerprint dive cb).2.map
        HwDiveCall.idx) =
      (List.range' 0 k).map (fun j =>
        ((hw_frog_locate header 0 0 0 0).2.1 +
          RB_LOGBOOK_COUNT - j) % RB_LOGBOOK_COUNT)) := by
  have h256 : RB_LOGBOOK_COUNT = 256 := rfl
  have hO : (hw_ostc3_device_foreach header fingerprint compact dive
        cb).2.length ≤ RB_LOGBOOK_COUNT ∧
      ((hw_ostc3_device_foreach header fingerprint compact dive cb).2.map
        HwDiveCall.idx).Nodup ∧
      (∀ c ∈ (hw_ostc3_device_foreach header fingerprint compact dive cb).2,
        memEqual header (c.idx *
            (if compact then hw_ostc3_logbook_compact
             else hw_ostc3_logbook_full).size +
            (if compact then hw_ostc3_logbook_compact
             else hw_ostc3_logbook_full).fingerprint)
          (listMem fingerprint) 0 5 = false) ∧
      ∃ k, ((hw_ostc3_device_foreach header fingerprint compact dive cb).2.map
          HwDiveCall.idx) =
        (List.range' 0 k).map (fun j =>
          ((hw_ostc3_locate header
              (if compact then hw_ostc3_logbook_compact
               else hw_ostc3_logbook_full)).2.1 +
            RB_LOGBOOK_COUNT - j) % RB_LOGBOOK_COUNT) := by
    unfold hw_ostc3_device_foreach
    dsimp only
    set LB := if compact then hw_ostc3_logbook_compact
      else hw_ostc3_logbook_full with hLB
    set S := hw_ostc3_locate header LB with hS
    set D := hw_ostc3_count_dives header fingerprint LB compact S.1 S.2.1
      0 0 0 0 with hD
    have hcount := hw_ostc3_locate_count header LB
    rw [← hS] at hcount
    have hspec := hw_ostc3_count_dives_spec header fingerprint LB compact
      S.1 S.2.1 S.1 0 0 0 0 (by omega)
    rw [← hD] at hspec
    split
    · exact ⟨by simp, by simp, by simp, 0, by simp⟩
    · rcases cb with _ | f
      · have hnone := hw_ostc3_download_none header LB compact S.2.1 D.1
          dive D.1 0 (by omega)
        rw [hnone]
        exact ⟨by simp, by simp, by simp, 0, by simp⟩
      · obtain ⟨k, hk, hmap⟩ := hw_ostc3_download_walk header LB compact
          S.2.1 D.1 dive f D.1 0 (by omega)
        refine ⟨?_, ?_, ?_, k, hmap⟩
        · have hlen : (hw_ostc3_download header LB compact S.2.1 D.1 dive
              (some f) 0).2.length = k := by
            rw [← List.length_map (hw_ostc3_download header LB compact
              S.2.1 D.1 dive (some f) 0).2 HwDiveCall.idx, hmap]
            simp
          rw [hlen]
          omega
        · rw [hmap]
          refine List.Nodup.map_on ?_ (List.nodup_range' 0 k)
          intro x hx y hy hxy
          simp only [List.mem_range'_1] at hx hy
          rw [h256] at hxy
          omega
        · intro c hc
          have hcm := List.mem_map_of_mem HwDiveCall.idx hc
          rw [hmap] at hcm
          obtain ⟨j, hj, hj2⟩ := List.mem_map.1 hcm
          simp only [List.mem_range'_1] at hj
          have hnm := hspec.2.2 j (by omega) (by omega)
          rw [← hj2]
          exact hnm
  have hF : (hw_frog_device_foreach header fingerprint dive cb).2.length ≤
      RB_LOGBOOK_COUNT ∧
      ((hw_frog_device_foreach header fingerprint dive cb).2.map
        HwDiveCall.idx).Nodup ∧
      (∀ c ∈ (hw_frog_device_foreach header fingerprint dive cb).2,
        memEqual header (c.idx * 256 + 9) (listMem fingerprint) 0 5 =
          false) ∧
      ∃ k, ((hw_frog_device_foreach header fingerprint dive cb).2.map
          HwDiveCall.idx) =
        (List.range' 0 k).map (fun j =>
          ((hw_frog_locate header 0 0 0 0).2.1 +
            RB_LOGBOOK_COUNT - j) % RB_LOGBOOK_COUNT) := by
    unfold hw_frog_device_foreach
    dsimp only
    set S := hw_frog_locate header 0 0 0 0 with hS
    have hcount := hw_frog_locate_count header RB_LOGBOOK_COUNT 0 0 0 0
      (by omega)
    rw [← hS] at hcount
    split
    · exact ⟨by simp, by simp, by simp, 0, by simp⟩
    · rename_i d heq
      have hspec := hw_frog_count_dives_spec header fingerprint S.1 S.2.1
        S.1 0 0 0 0 d (by omega) heq
      split
      · exact ⟨by simp, by simp, by simp, 0, by simp⟩
      · rcases cb with _ | f
        · have hnone := hw_frog_download_none header S.2.1 d.1 dive d.1 0
            (by omega)
          rw [hnone]
          exact ⟨by simp, by simp, by simp, 0, by simp⟩
        · obtain ⟨k, hk, hmap⟩ := hw_frog_download_walk header S.2.1 d.1
            dive f d.1 0 (by omega)
          refine ⟨?_, ?_, ?_, k, hmap⟩
          · have hlen : (hw_frog_download header S.2.1 d.1 dive
                (some f) 0).2.length = k := by
              rw [← List.length_map (hw_frog_download header S.2.1 d.1 dive
                (some f) 0).2 HwDiveCall.idx, hmap]
              simp
            rw [hlen]
            omega
          · rw [hmap]
            refine List.Nodup.map_on ?_ (List.nodup_range' 0 k)
            intro x hx y hy hxy
            simp only [List.mem_range'_1] at hx hy
            rw [h256] at hxy
            omega
          · intro c hc
            have hcm := List.mem_map_of_mem HwDiveCall.idx hc
            rw [hmap] at hcm
            obtain ⟨j, hj, hj2⟩ := List.mem_map.1 hcm
            simp only [List.mem_range'_1] at hj
            have hnm := hspec.2.2 j (by omega) (by omega)
            rw [← hj2]
            exact hnm
  exact ⟨hO.1, hO.2.1, hO.2.2.1, hO.2.2.2, hF.1, hF.2.1, hF.2.2.1,
    hF.2.2.2⟩

/-- Compact logbook memory with three non-erased slots whose internal
16-bit dive numbers are 5, 3 and 9 (slots 0, 1, 2); all later slots
are erased. -/
def C1header : Mem := fun a =>
  if a ≥ 48 then 0xFF
  else if a = 13 then 5 else if a = 29 then 3 else if a = 45 then 9 else 0

set_option maxRecDepth 8000 in
set_option maxHeartbeats 2000000 in
/-- The backward walk starts at the slot with the largest number (slot
2, number 9) but then proceeds by slot position: the handed dives
carry the internal numbers 9, 3, 5, which are not strictly
decreasing — refuting "the internal 16-bit dive numbers of the
handed-out dives are strictly decreasing". -/
theorem C1_counterexample :
    ((hw_ostc3_device_foreach C1header [1, 1, 1, 1, 1] true
      (fun _ _ => Except.ok []) (some fun _ _ _ => true)).2.map
        (fun c => array_uint16_le C1header (c.idx * 16 + 13))) = [9, 3, 5] ∧
    ¬ List.Chain' (· > ·) [9, 3, 5] := by
  constructor
  · have hloc : hw_ostc3_locate C1header hw_ostc3_logbook_compact =
        (3, 2, 9) := by decide
    unfold hw_ostc3_device_foreach
    norm_num
    rw [hloc]
    norm_num
    simp +decide [hw_ostc3_count_dives, hw_ostc3_download, C1header,
      hw_ostc3_profile_length, array_uint24_le, array_uint16_le, memEqual,
      listMem, array_isequal, hw_ostc3_logbook_compact, RB_LOGBOOK_COUNT]
  · norm_num [List.chain'_cons, List.chain'_singleton]

/-- Whether logbook slot `i` is erased (all `0xFF`). -/
def slotErased (header : Mem) (logbook : HwOstc3Logbook) (i : Nat) : Bool :=
  array_isequal header (i * logbook.size) logbook.size 0xFF

/-- The internal 16-bit dive number stored in logbook slot `i`. -/
def slotNumber (header : Mem) (logbook : HwOstc3Logbook) (i : Nat) : Nat :=
  array_uint16_le header (i * logbook.size + logbook.number)

/-- The locate fold run over the first `n` slots only. -/
def hw_ostc3_locate_upto (header : Mem) (logbook : HwOstc3Logbook)
    (n : Nat) : Nat × Nat × Nat :=
  (List.range n).foldl (hw_ostc3_locate_body header logbook) (0, 0, 0)

/-- Invariant of the OSTC3 locate fold: after `n` slots either every
non-erased slot so far carried counter 0 (and latest/maximum are still
0), or the latest slot is a non-erased slot below `n` carrying the
maximum, every non-erased slot so far carries at most the maximum, and
every non-erased slot before the latest carries strictly less. -/
theorem hw_ostc3_locate_upto_spec (header : Mem)
    (logbook : HwOstc3Logbook) :
    ∀ n,
      ((hw_ostc3_locate_upto header logbook n).2.1 = 0 ∧
       (hw_ostc3_locate_upto header logbook n).2.2 = 0 ∧
       (∀ i, i < n → slotErased header logbook i = false →
         slotNumber header logbook i = 0)) ∨
      ((hw_ostc3_locate_upto header logbook n).2.1 < n ∧
       slotErased header logbook
         (hw_ostc3_locate_upto header logbook n).2.1 = false ∧
       slotNumber header logbook
         (hw_ostc3_locate_upto header logbook n).2.1 =
         (hw_ostc3_locate_upto header logbook n).2.2 ∧
       0 < (hw_ostc3_locate_upto header logbook n).2.2 ∧
       (∀ i, i < n → slotErased header logbook i = false →
         slotNumber header logbook i ≤
           (hw_ostc3_locate_upto header logbook n).2.2) ∧
       (∀ i, i < (hw_ostc3_locate_upto header logbook n).2.1 →
         slotErased header logbook i = false →
         slotNumber header logbook i <
           (hw_ostc3_locate_upto header logbook n).2.2)) := by
  intro n
  induction n with
  | zero =>
    left
    exact ⟨rfl, rfl, fun i hi => by omega⟩
  | succ n ih =>
    have hstep : hw_ostc3_locate_upto header logbook (n + 1) =
        hw_ostc3_locate_body header logbook
          (hw_ostc3_locate_upto header logbook n) n := by
      unfold hw_ostc3_locate_upto
      rw [List.range_succ, List.foldl_append, List.foldl_cons, List.foldl_nil]
    rw [hstep]
    unfold hw_ostc3_locate_body
    dsimp only
    by_cases he : array_isequal header (n * logbook.size) logbook.size 0xFF
    · rw [if_pos he]
      rcases ih with ⟨h1, h2, h3⟩ | ⟨h1, h2, h3, h4, h5, h6⟩
      · left
        refine ⟨h1, h2, fun i hi hne => ?_⟩
        by_cases hin : i = n
        · subst hin
          unfold slotErased at hne
          rw [he] at hne
          simp at hne
        · exact h3 i (by omega) hne
      · right
        refine ⟨by omega, h2, h3, h4, fun i hi hne => ?_, h6⟩
        by_cases hin : i = n
        · subst hin
          unfold slotErased at hne
          rw [he] at hne
          simp at hne
        · exact h5 i (by omega) hne
    · rw [if_neg he]
      have hne : slotErased header logbook n = false := by
        unfold slotErased
        simpa using he
      by_cases hgt : array_uint16_le header (n * logbook.size +
          logbook.number) > (hw_ostc3_locate_upto header logbook n).2.2
      · rw [if_pos hgt]
        dsimp only
        right
        refine ⟨by omega, hne, rfl, by omega, ?_, ?_⟩
        · intro i hi hnei
          by_cases hin : i = n
          · subst hin
            exact le_refl _
          · rcases ih with ⟨h1, h2, h3⟩ | ⟨h1, h2, h3, h4, h5, h6⟩
            · have := h3 i (by omega) hnei
              unfold slotNumber at this ⊢
              omega
            · have := h5 i (by omega) hnei
              unfold slotNumber at this ⊢
              omega
        · intro i hi hnei
          rcases ih with ⟨h1, h2, h3⟩ | ⟨h1, h2, h3, h4, h5, h6⟩
          · have := h3 i (by omega) hnei
            unfold slotNumber at this ⊢
            omega
          · have := h5 i (by omega) hnei
            unfold slotNumber at this ⊢
            omega
      · rw [if_neg hgt]
        dsimp only
        rcases ih with ⟨h1, h2, h3⟩ | ⟨h1, h2, h3, h4, h5, h6⟩
        · left
          refine ⟨h1, h2, fun i hi hnei => ?_⟩
          by_cases hin : i = n
          · subst hin
            unfold slotNumber
            omega
          · exact h3 i (by omega) hnei
        · right
          refine ⟨by omega, h2, h3, h4, fun i hi hnei => ?_, h6⟩
          by_cases hin : i = n
          · subst hin
            unfold slotNumber
            omega
          · exact h5 i (by omega) hnei

/-- Whether Frog logbook slot `i` is erased (all `0xFF`). -/
def frogSlotErased (header : Mem) (i : Nat) : Bool :=
  array_isequal header (i * 256) 256 0xFF

/-- The internal 16-bit dive number of Frog logbook slot `i`. -/
def frogSlotNumber (header : Mem) (i : Nat) : Nat :=
  array_uint16_le header (i * 256 + 52)

/-- Invariant of the Frog locate recursion over an unbroken non-erased
prefix `[0, k)` terminated at `k` by an erased slot or the slot count:
the selected latest/maximum characterise the prefix exactly as in the
OSTC3 case. -/
theorem hw_frog_locate_inv (header : Mem) (k : Nat)
    (hk : k ≤ RB_LOGBOOK_COUNT)
    (hpre : ∀ j, j < k → frogSlotErased header j = false)
    (hend : k = RB_LOGBOOK_COUNT ∨ frogSlotErased header k = true) :
    ∀ fuel i c l m, k ≤ i + fuel → i ≤ k →
      ((m = 0 ∧ l = 0 ∧ ∀ j, j < i → frogSlotNumber header j = 0) ∨
       (l < i ∧ frogSlotNumber header l = m ∧ 0 < m ∧
        (∀ j, j < i → frogSlotNumber header j ≤ m) ∧
        (∀ j, j < l → frogSlotNumber header j < m))) →
      (((hw_frog_locate header i c l m).2.2 = 0 ∧
        ∀ j, j < k → frogSlotNumber header j = 0) ∨
       ((hw_frog_locate header i c l m).2.1 < k ∧
        frogSlotNumber header (hw_frog_locate header i c l m).2.1 =
          (hw_frog_locate header i c l m).2.2 ∧
        0 < (hw_frog_locate header i c l m).2.2 ∧
        (∀ j, j < k → frogSlotNumber header j ≤
          (hw_frog_locate header i c l m).2.2) ∧
        (∀ j, j < (hw_frog_locate header i c l m).2.1 →
          frogSlotNumber header j <
            (hw_frog_locate header i c l m).2.2))) := by
  have hstop : ∀ c l m,
      ((m = 0 ∧ l = 0 ∧ ∀ j, j < k → frogSlotNumber header j = 0) ∨
       (l < k ∧ frogSlotNumber header l = m ∧ 0 < m ∧
        (∀ j, j < k → frogSlotNumber header j ≤ m) ∧
        (∀ j, j < l → frogSlotNumber header j < m))) →
      ((hw_frog_locate header k c l m).2.2 = 0 ∧
        ∀ j, j < k → frogSlotNumber header j = 0) ∨
       ((hw_frog_locate header k c l m).2.1 < k ∧
        frogSlotNumber header (hw_frog_locate header k c l m).2.1 =
          (hw_frog_locate header k c l m).2.2 ∧
        0 < (hw_frog_locate header k c l m).2.2 ∧
        (∀ j, j < k → frogSlotNumber header j ≤
          (hw_frog_locate header k c l m).2.2) ∧
        (∀ j, j < (hw_frog_locate header k c l m).2.1 →
          frogSlotNumber header j <
            (hw_frog_locate header k c l m).2.2)) := by
    intro c l m hinv
    have hval : hw_frog_locate header k c l m = (c, l, m) := by
      rw [hw_frog_locate]
      by_cases hklt : k < RB_LOGBOOK_COUNT
      · rw [if_pos hklt]
        rcases hend with hend | hend
        · omega
        · unfold frogSlotErased at hend
          dsimp only
          rw [if_pos hend]
      · rw [if_neg hklt]
    rw [hval]
    rcases hinv with ⟨h1, h2, h3⟩ | h
    · left
      exact ⟨h1, h3⟩
    · right
      exact h
  intro fuel
  induction fuel with
  | zero =>
    intro i c l m hf hik hinv
    have hik2 : i = k := by omega
    subst hik2
    apply hstop
    rcases hinv with ⟨h1, h2, h3⟩ | h
    · left
      exact ⟨h1, h2, h3⟩
    · right
      exact h
  | succ fuel ih =>
    intro i c l m hf hik hinv
    by_cases hik2 : i = k
    case pos =>
      subst hik2
      apply hstop
      rcases hinv with ⟨h1, h2, h3⟩ | h
      · left
        exact ⟨h1, h2, h3⟩
      · right
        exact h
    case neg =>
      have hikk : i < k := by omega
      rw [hw_frog_locate]
      rw [if_pos (by have h256 : RB_LOGBOOK_COUNT = 256 := rfl; omega)]
      dsimp only
      have hne := hpre i hikk
      unfold frogSlotErased at hne
      rw [hne]
      simp only [Bool.false_eq_true, if_false]
      by_cases hgt : array_uint16_le header (i * 256 + 52) > m
      · rw [if_pos hgt]
        refine ih (i + 1) (c + 1) i _ (by omega) (by omega) ?_
        right
        refine ⟨by omega, rfl, ?_, ?_, ?_⟩
        · rcases hinv with ⟨h1, -⟩ | ⟨-, -, h3, -⟩ <;> omega
        · intro j hj
          by_cases hji : j = i
          · subst hji
            exact le_refl _
          · rcases hinv with ⟨h1, -, h3⟩ | ⟨-, -, -, h4, -⟩
            · have := h3 j (by omega)
              unfold frogSlotNumber at this ⊢
              omega
            · have := h4 j (by omega)
              unfold frogSlotNumber at this ⊢
              omega
        · intro j hj
          rcases hinv with ⟨h1, -, h3⟩ | ⟨-, -, -, h4, -⟩
          · have := h3 j (by omega)
            unfold frogSlotNumber at this ⊢
            omega
          · have := h4 j (by omega)
            unfold frogSlotNumber at this ⊢
            omega
      · rw [if_neg hgt]
        refine ih (i + 1) (c + 1) l m (by omega) (by omega) ?_
        rcases hinv with ⟨h1, h2, h3⟩ | ⟨h1, h2, h3, h4, h5⟩
        · left
          refine ⟨h1, h2, fun j hj => ?_⟩
          by_cases hji : j = i
          · subst hji
            unfold frogSlotNumber
            omega
          · exact h3 j (by omega)
        · right
          refine ⟨by omega, h2, h3, fun j hj => ?_, h5⟩
          by_cases hji : j = i
          · subst hji
            unfold frogSlotNumber
            omega
          · exact h4 j (by omega)

/-- C8 (amended): when some non-erased slot carries a nonzero counter,
the OSTC3 locate scan selects a non-erased slot carrying the maximum
counter of all non-erased slots, and on a counter tie the lower slot
index wins (every non-erased slot before the selected one carries a
strictly smaller counter).  The Frog scan has the same property but
only over the unbroken non-erased prefix `[0, k)` of the logbook: it
stops at the first erased slot instead of skipping it (see the
counterexample, which also shows an OSTC3 scan selecting the erased
initial slot when every non-erased counter is zero). -/
theorem C8_latest_selection (header froghdr : Mem)
    (logbook : HwOstc3Logbook) (k : Nat)
    (hO : ∃ i, i < RB_LOGBOOK_COUNT ∧
      slotErased header logbook i = false ∧
      0 < slotNumber header logbook i)
    (hk : k ≤ RB_LOGBOOK_COUNT)
    (hpre : ∀ j, j < k → frogSlotErased froghdr j = false)
    (hend : k = RB_LOGBOOK_COUNT ∨ frogSlotErased froghdr k = true)
    (hF : ∃ i, i < k ∧ 0 < frogSlotNumber froghdr i) :
    (slotErased header logbook
        (hw_ostc3_locate header logbook).2.1 = false ∧
     slotNumber header logbook (hw_ostc3_locate header logbook).2.1 =
        (hw_ostc3_locate header logbook).2.2 ∧
     (∀ i, i < RB_LOGBOOK_COUNT → slotErased header logbook i = false →
        slotNumber header logbook i ≤
          (hw_ostc3_locate header logbook).2.2) ∧
     (∀ i, i < (hw_ostc3_locate header logbook).2.1 →
        slotErased header logbook i = false →
        slotNumber header logbook i <
          (hw_ostc3_locate header logbook).2.2)) ∧
    ((hw_frog_locate froghdr 0 0 0 0).2.1 < k ∧
     frogSlotNumber froghdr (hw_frog_locate froghdr 0 0 0 0).2.1 =
        (hw_frog_locate froghdr 0 0 0 0).2.2 ∧
     (∀ j, j < k → frogSlotNumber froghdr j ≤
        (hw_frog_locate froghdr 0 0 0 0).2.2) ∧
     (∀ j, j < (hw_frog_locate froghdr 0 0 0 0).2.1 →
        frogSlotNumber froghdr j <
          (hw_frog_locate froghdr 0 0 0 0).2.2)) := by
  constructor
  · have hspec := hw_ostc3_locate_upto_spec header logbook RB_LOGBOOK_COUNT
    have heq : hw_ostc3_locate header logbook =
        hw_ostc3_locate_upto header logbook RB_LOGBOOK_COUNT := rfl
    rw [heq]
    rcases hspec with ⟨h1, h2, h3⟩ | ⟨h1, h2, h3, h4, h5, h6⟩
    · exfalso
      obtain ⟨i, hi, hie, hin⟩ := hO
      have := h3 i hi hie
      omega
    · exact ⟨h2, h3, h5, h6⟩
  · have hinv := hw_frog_locate_inv froghdr k hk hpre hend
      RB_LOGBOOK_COUNT 0 0 0 0 (by omega) (by omega)
      (Or.inl ⟨rfl, rfl, fun j hj => by omega⟩)
    rcases hinv with ⟨h1, h2⟩ | ⟨h1, h2, h3, h4, h5⟩
    · exfalso
      obtain ⟨i, hi, hin⟩ := hF
      have := h2 i hi
      omega
    · exact ⟨h1, h2, h4, h5⟩

/-- Compact logbook memory with two non-erased slots both carrying
counter 2 (a tie), later slots erased. -/
def C8hdrO : Mem := fun a =>
  if a = 13 then 2 else if a = 29 then 2 else if a < 32 then 0 else 0xFF

/-- Frog logbook memory whose slot 0 carries counter 5 and whose
slot 1 is erased. -/
def C8hdrF : Mem := fun a =>
  if a = 52 then 5 else if a < 256 then 0 else 0xFF

set_option maxRecDepth 8000 in
/-- The selection property applied to a concrete tie (OSTC3, slots 0
and 1 both carry counter 2) and a concrete one-slot Frog prefix. -/
theorem C8_latest_selection_witness :
    slotErased C8hdrO hw_ostc3_logbook_compact
      (hw_ostc3_locate C8hdrO hw_ostc3_logbook_compact).2.1 = false ∧
    (hw_frog_locate C8hdrF 0 0 0 0).2.1 < 1 := by
  have h := C8_latest_selection C8hdrO C8hdrF hw_ostc3_logbook_compact 1
    ⟨0, by decide, by decide, by decide⟩ (by decide)
    (by decide) (Or.inr (by decide)) ⟨0, by decide, by decide⟩
  exact ⟨h.1.1, h.2.1⟩

/-- Compact logbook memory whose slot 0 is erased and whose slot 1 is
non-erased with counter 0 (all later slots erased). -/
def C8bad : Mem := fun a =>
  if a < 16 then 0xFF else if a < 32 then 0 else 0xFF

/-- Frog logbook memory whose slot 0 is erased and whose slot 1 is
non-erased with counter 7 (all later slots erased). -/
def C8badF : Mem := fun a =>
  if a < 256 then 0xFF else if a = 308 then 7
  else if a < 512 then 0 else 0xFF

set_option maxRecDepth 8000 in
/-- Two refutations of "erased slots are ignored and the slot with the
strictly largest counter is selected": the OSTC3 scan of `C8bad`
counts one dive yet leaves `latest` at the erased slot 0 (all
non-erased counters are 0, so no update ever fires) — the subsequent
counting walk then stops immediately at that erased slot, so the dive
count is 0 and foreach returns success with no callback invocation —
and the Frog scan of `C8badF` stops dead at the erased slot 0, never
considering the non-erased slot 1 with counter 7. -/
theorem C8_counterexample :
    (hw_ostc3_locate C8bad hw_ostc3_logbook_compact).1 = 1 ∧
    (hw_ostc3_locate C8bad hw_ostc3_logbook_compact).2.1 = 0 ∧
    slotErased C8bad hw_ostc3_logbook_compact 0 = true ∧
    slotErased C8bad hw_ostc3_logbook_compact 1 = false ∧
    hw_ostc3_count_dives C8bad [1, 1, 1, 1, 1] hw_ostc3_logbook_compact
      true 1 0 0 0 0 0 = (0, 0, 0) ∧
    hw_ostc3_device_foreach C8bad [1, 1, 1, 1, 1] true
      (fun _ _ => Except.ok []) (some fun _ _ _ => true) =
      (DcStatus.success, []) ∧
    hw_frog_locate C8badF 0 0 0 0 = (0, 0, 0) ∧
    frogSlotErased C8badF 1 = false ∧
    frogSlotNumber C8badF 1 = 7 := by
  have hloc : hw_ostc3_locate C8bad hw_ostc3_logbook_compact =
      (1, 0, 0) := by decide
  have hcd : hw_ostc3_count_dives C8bad [1, 1, 1, 1, 1]
      hw_ostc3_logbook_compact true 1 0 0 0 0 0 = (0, 0, 0) := by
    rw [hw_ostc3_count_dives]
    simp +decide [array_isequal, C8bad, hw_ostc3_logbook_compact,
      RB_LOGBOOK_COUNT]
  refine ⟨by decide, by decide, by decide, by decide, hcd, ?_, ?_,
    by decide, by decide⟩
  · unfold hw_ostc3_device_foreach
    dsimp only
    rw [show (if true = true then hw_ostc3_logbook_compact
        else hw_ostc3_logbook_full) = hw_ostc3_logbook_compact from rfl]
    rw [hloc]
    dsimp only
    rw [hcd]
    rfl
  · rw [hw_frog_locate]
    rw [if_pos (by decide)]
    dsimp only
    rw [if_pos (by decide)]
